import Mathlib

/-!
f2bgles: texture atlas, texture cache and job batcher.

A shallow embedding of `src/texturecache.cpp` / `src/texturecache.h` (the
binary-tree atlas allocator and the linked-list texture cache) and of the
batching part of `src/render.cpp` (the flat and textured job buffers), with
theorems about them.

Conventions of the embedding

* C `int` values are `Int`; no arithmetic of the atlas code leaves the range
  `[-2^31, 2^31)` on the inputs the theorems range over (sizes between `0` and
  `maxTexSz`), so no wrap-around is modelled there.  `uint32_t` counters of the
  job buffers are `Nat` reduced `% 2^32`.
* `GLfloat` values are exact rationals.
* A pointer to an `AtlasNode` is a value of the inductive type `AtlasNode`
  (`null` is the null pointer); the tree owns its nodes exclusively, so a node
  inside a tree is named by the path of child indices leading to it.
* `Texture` records live in an explicit heap (`List (Option Texture)`, the
  address is the index, `none` is freed memory); `next`, the list head and the
  list tail are addresses.
* Loops over the linked list carry a fuel bound; running out of fuel is the
  fault `Fault.diverges`.
-/

namespace F2b

/-! ## AtlasNode (texturecache.h, texturecache.cpp lines 81-133) -/

/-- A pointer to an `AtlasNode`: either the null pointer or a node with its
fields `occupied`, `x`, `y`, `w`, `h`, `children[0]`, `children[1]`. -/
inductive AtlasNode where
  | null : AtlasNode
  | node (occupied x y w h : Int) (child0 child1 : AtlasNode) : AtlasNode
deriving DecidableEq, Repr

/-- The constructor `AtlasNode::AtlasNode(x, y, w, h)`: an unoccupied node
without children. -/
def AtlasNode.mk (x y w h : Int) : AtlasNode :=
  .node 0 x y w h .null .null

/-- The fields of one node of a tree together with the path (sequence of child
indices, `false` for `children[0]` and `true` for `children[1]`) that leads to
it from the root. -/
structure NodeInfo where
  path : List Bool
  occupied : Int
  x : Int
  y : Int
  w : Int
  h : Int
deriving DecidableEq, Repr

/-- Put one more child index in front of a node's path. -/
def NodeInfo.under (b : Bool) (n : NodeInfo) : NodeInfo :=
  { n with path := b :: n.path }

/-- All nodes of a tree in pre-order: the node itself, then the nodes below
`children[0]`, then the nodes below `children[1]`. -/
def AtlasNode.nodes : AtlasNode → List NodeInfo
  | .null => []
  | .node occ x y w h c0 c1 =>
    ⟨[], occ, x, y, w, h⟩ :: ((c0.nodes.map (NodeInfo.under false)) ++
      (c1.nodes.map (NodeInfo.under true)))

/-- The test of `findFreeNode`: the node is unoccupied and at least `w` by
`h`. -/
def NodeInfo.fits (w h : Int) (n : NodeInfo) : Bool :=
  decide (n.occupied = 0) && decide (n.w ≥ w) && decide (n.h ≥ h)

/-- `AtlasNode::findFreeNode(w, h)`.  The result is the path of the returned
node, `none` for the null pointer.  On the null pointer the search finds
nothing: this stands for the guards `if (this->children[i])` of the callers. -/
def AtlasNode.findFreeNode : AtlasNode → Int → Int → Option (List Bool)
  | .null, _, _ => none
  | .node occ _ _ nw nh c0 c1, w, h =>
    if occ = 0 ∧ nw ≥ w ∧ nh ≥ h then some []
    else
      match c0.findFreeNode w h with
      | some p => some (false :: p)
      | none =>
        match c1.findFreeNode w h with
        | some p => some (true :: p)
        | none => none

/-- `AtlasNode::splitNode(w, h)` on the node a pointer points to.  The two
children are overwritten by fresh unoccupied nodes, the node shrinks to
`w` by `h` and becomes occupied.  The sums and differences are exact here;
`AtlasNode.splitNode32` reduces them to the range of `int`, and the two agree
where no sum or difference leaves that range. -/
def AtlasNode.splitNode : AtlasNode → Int → Int → AtlasNode
  | .null, _, _ => .null
  | .node _ x y nw nh _ _, w, h =>
    let dw := nw - w
    let dh := nh - h
    if dw > dh then
      .node 1 x y w h (AtlasNode.mk (x + w) y (nw - w) h) (AtlasNode.mk x (y + h) nw (nh - h))
    else
      .node 1 x y w h (AtlasNode.mk x (y + h) w (nh - h)) (AtlasNode.mk (x + w) y (nw - w) nh)

/-- The node a path leads to (`null` when the path leaves the tree). -/
def AtlasNode.nodeAt : AtlasNode → List Bool → AtlasNode
  | t, [] => t
  | .null, _ :: _ => .null
  | .node _ _ _ _ _ c0 c1, b :: p => if b then c1.nodeAt p else c0.nodeAt p

/-- The tree after `node->splitNode(w, h)` where `node` is the node the path
leads to: the in-place update through the pointer. -/
def AtlasNode.splitAt : AtlasNode → List Bool → Int → Int → AtlasNode
  | t, [], w, h => t.splitNode w h
  | .null, _ :: _, _, _ => .null
  | .node occ x y nw nh c0 c1, b :: p, w, h =>
    if b then .node occ x y nw nh c0 (c1.splitAt p w h)
    else .node occ x y nw nh (c0.splitAt p w h) c1

/-- Field `x` read through a pointer (`0` for the null pointer, never read by
the code). -/
def AtlasNode.getX : AtlasNode → Int
  | .null => 0
  | .node _ x _ _ _ _ _ => x

/-- Field `y` read through a pointer (`0` for the null pointer, never read by
the code). -/
def AtlasNode.getY : AtlasNode → Int
  | .null => 0
  | .node _ _ y _ _ _ _ => y

/-! ## Texture, Atlas, TextureCache (texturecache.h, texturecache.cpp lines 58-73, 135-313) -/

/-- The arrays of the program that are accessed with a computed index. -/
inductive ArrayId where
  | vertices : ArrayId
  | uv : ArrayId
  | JobList : ArrayId
  | TexturedJobList : ArrayId
  | TexturedJobCount : ArrayId
deriving DecidableEq, Repr

/-- The ways a call can go wrong instead of returning. -/
inductive Fault where
  /-- a field access through the null pointer -/
  | nullDeref : Fault
  /-- an access through a pointer to memory that is not allocated -/
  | badPointer : Fault
  /-- an access to the named array outside of it -/
  | outOfBounds (array : ArrayId) : Fault
  /-- a failed `assert` -/
  | assertFailed : Fault
  /-- a loop that does not end -/
  | diverges : Fault
deriving DecidableEq, Repr

/-- The record `struct Texture`.  `bitmapData` (the pixel copy) is left out:
pixel conversion and upload are external to the model.  `x`, `y`, `u`, `v` are
exact rationals, `next` is an address in the heap, `key` is the `int16_t` key
as an integer. -/
structure Texture where
  id : Nat
  bitmapW : Int
  bitmapH : Int
  texX : Int
  texY : Int
  texW : Int
  texH : Int
  x : ℚ
  y : ℚ
  u : ℚ
  v : ℚ
  next : Option Nat
  key : Int
deriving DecidableEq, Repr

/-- The fields of a record other than its link. -/
def Texture.data (t : Texture) : Texture :=
  { t with next := none }

/-- The memory holding `Texture` records: the address is the index, `none` is
memory that was freed. -/
abbrev Heap := List (Option Texture)

/-- The record at an address, `none` when no record is allocated there. -/
def Heap.read (h : Heap) (a : Nat) : Option Texture :=
  (h[a]?).join

/-- Apply an assignment to the record at an address. -/
def Heap.modify (h : Heap) (a : Nat) (f : Texture → Texture) : Heap :=
  match Heap.read h a with
  | some t => h.set a (some (f t))
  | none => h

/-- The statement `delete t`. -/
def Heap.free (h : Heap) (a : Nat) : Heap :=
  h.set a none

/-- The record `struct Atlas`: the GL texture name and the tree.  The member
`next` is never assigned by the code and is left out. -/
structure Atlas where
  tex : Nat
  tree : AtlasNode
deriving DecidableEq, Repr

/-- The constructor `Atlas::Atlas(maxTexSz, fmt, next)`; `tex` is the name
`glGenTextures` hands out. -/
def Atlas.new (tex : Nat) (maxTexSz : Int) : Atlas :=
  { tex := tex, tree := AtlasNode.mk 0 0 maxTexSz maxTexSz }

/-- The members of `struct TextureCache` the model needs, and the heap of
texture records. -/
structure TextureCache where
  maxTexSz : Int
  atlas : Atlas
  _texturesListHead : Option Nat
  _texturesListTail : Option Nat
  heap : Heap
deriving DecidableEq, Repr

/-- The constructor `TextureCache::TextureCache()` followed by
`TextureCache::init()`: an empty list and a fresh atlas of size 4096; `tex` is
the name `glGenTextures` hands out. -/
def TextureCache.init (tex : Nat) : TextureCache :=
  { maxTexSz := 4096, atlas := Atlas.new tex 4096,
    _texturesListHead := none, _texturesListTail := none, heap := [] }

/-- The factor `_scalers[_scaler].factor` with `_scaler = 0`. -/
def scalerFactor : Int := 1

/-- `TextureCache::createTexture(data, w, h)`.  `mallocOk` tells whether
`malloc(w * h)` returns memory.  The result is the new state and the returned
pointer. -/
def TextureCache.createTexture (c : TextureCache) (mallocOk : Bool) (w h : Int) :
    Except Fault (TextureCache × Option Nat) :=
  let a := c.heap.length
  let t0 : Texture :=
    { id := 0, bitmapW := w, bitmapH := h, texX := 0, texY := 0, texW := 0, texH := 0,
      x := 0, y := 0, u := 0, v := 0, next := none, key := 0 }
  if mallocOk = false then
    .ok ({ c with heap := c.heap ++ [none] }, none)
  else
    let w := w * scalerFactor
    let h := h * scalerFactor
    match c.atlas.tree.findFreeNode w h with
    | none => .ok ({ c with heap := c.heap ++ [some t0] }, none)
    | some p =>
      let tree := c.atlas.tree.splitAt p w h
      let node := tree.nodeAt p
      let x : ℚ := (node.getX : ℚ) / (c.maxTexSz : ℚ)
      let y : ℚ := (node.getY : ℚ) / (c.maxTexSz : ℚ)
      let t1 : Texture :=
        { t0 with texX := node.getX, texY := node.getY, texW := w, texH := h,
                  x := x, y := y, u := x + (w : ℚ) / (c.maxTexSz : ℚ),
                  v := y + (h : ℚ) / (c.maxTexSz : ℚ), id := c.atlas.tex }
      let c1 : TextureCache :=
        { c with heap := c.heap ++ [some t1], atlas := { c.atlas with tree := tree } }
      let last (c2 : TextureCache) : TextureCache :=
        { c2 with heap := Heap.modify c2.heap a (fun r => { r with next := none, key := -1 }) }
      match c1._texturesListHead with
      | none =>
        .ok (last { c1 with _texturesListHead := some a, _texturesListTail := some a }, some a)
      | some _ =>
        match c1._texturesListTail with
        | none => .error .nullDeref
        | some tl =>
          match Heap.read c1.heap tl with
          | none => .error .badPointer
          | some _ =>
            .ok (last { c1 with heap := Heap.modify c1.heap tl (fun r => { r with next := some a }),
                                _texturesListTail := some a }, some a)

/-- The body of `if (t->key == key)` in `TextureCache::getCachedTexture`: when
there is a record `prev` in front of the found record `t` (at address `a`),
`t` is unlinked and put in front of the list. -/
def TextureCache.promote (c : TextureCache) (prev : Option Nat) (a : Nat) (t : Texture) :
    TextureCache :=
  match prev with
  | none => c
  | some p =>
    let h1 := Heap.modify c.heap p (fun r => { r with next := t.next })
    let h2 := Heap.modify h1 a (fun r => { r with next := c._texturesListHead })
    { c with heap := h2, _texturesListHead := some a,
             _texturesListTail :=
               if some a = c._texturesListTail then some p else c._texturesListTail }

/-- The loop of `TextureCache::getCachedTexture`: `prev` and `t` are the loop
variables.  The result is the state and the found record, `none` when the loop
ends without a match. -/
def TextureCache.findCached (c : TextureCache) (key : Int) :
    Nat → Option Nat → Option Nat → Except Fault (TextureCache × Option Nat)
  | _, _, none => .ok (c, none)
  | 0, _, some _ => .error .diverges
  | fuel + 1, prev, some a =>
    match Heap.read c.heap a with
    | none => .error .badPointer
    | some t =>
      if t.key = key then .ok (c.promote prev a t, some a)
      else TextureCache.findCached c key fuel (some a) t.next

/-- `TextureCache::getCachedTexture(data, w, h, key)`. -/
def TextureCache.getCachedTexture (c : TextureCache) (mallocOk : Bool) (w h : Int) (key : Int) :
    Except Fault (TextureCache × Option Nat) :=
  match c.findCached key c.heap.length none c._texturesListHead with
  | .error e => .error e
  | .ok (c1, some a) => .ok (c1, some a)
  | .ok (_, none) =>
    match c.createTexture mallocOk w h with
    | .error e => .error e
    | .ok (c2, none) => .ok (c2, none)
    | .ok (c2, some a) =>
      .ok ({ c2 with heap := Heap.modify c2.heap a (fun r => { r with key := key }) }, some a)

/-- The loop of `TextureCache::destroyTexture` that looks for the record in
front of `texture` and unlinks `texture`. -/
def TextureCache.unlink (c : TextureCache) (texture : Nat) :
    Nat → Option Nat → Except Fault TextureCache
  | _, none => .ok c
  | 0, some _ => .error .diverges
  | fuel + 1, some p =>
    match Heap.read c.heap p with
    | none => .error .badPointer
    | some pt =>
      if pt.next = some texture then
        match Heap.read c.heap texture with
        | none => .error .badPointer
        | some tx =>
          .ok { c with heap := Heap.modify c.heap p (fun r => { r with next := tx.next }),
                       _texturesListTail :=
                         if some texture = c._texturesListTail then some p
                         else c._texturesListTail }
      else TextureCache.unlink c texture fuel pt.next

/-- `TextureCache::destroyTexture(texture)` for a non-null pointer. -/
def TextureCache.destroyTexture (c : TextureCache) (texture : Nat) : Except Fault TextureCache :=
  match Heap.read c.heap texture with
  | none => .error .badPointer
  | some tx =>
    if some texture = c._texturesListHead then
      let c1 := { c with _texturesListHead := tx.next }
      let c2 :=
        if some texture = c1._texturesListTail then
          { c1 with _texturesListTail := c1._texturesListHead }
        else c1
      .ok { c2 with heap := Heap.free c2.heap texture }
    else
      match c.unlink texture c.heap.length c._texturesListHead with
      | .error e => .error e
      | .ok c1 => .ok { c1 with heap := Heap.free c1.heap texture }

/-- The loop of `TextureCache::flush` that deletes every record of the
list. -/
def Heap.freeList (h : Heap) : Nat → Option Nat → Except Fault Heap
  | _, none => .ok h
  | 0, some _ => .error .diverges
  | fuel + 1, some a =>
    match Heap.read h a with
    | none => .error .badPointer
    | some t => Heap.freeList (Heap.free h a) fuel t.next

/-- `TextureCache::flush()`; `tex` is the name `glGenTextures` hands out for
the new atlas. -/
def TextureCache.flush (c : TextureCache) (tex : Nat) : Except Fault TextureCache :=
  match Heap.freeList c.heap c.heap.length c._texturesListHead with
  | .error e => .error e
  | .ok h =>
    .ok { c with heap := h, _texturesListHead := none, _texturesListTail := none,
                 atlas := Atlas.new tex c.maxTexSz }

/-- One call on the texture cache. -/
inductive Op where
  | getCachedTexture (mallocOk : Bool) (w h : Int) (key : Int) : Op
  | createTexture (mallocOk : Bool) (w h : Int) : Op
  | destroyTexture (texture : Nat) : Op
  | flush (tex : Nat) : Op
deriving DecidableEq, Repr

/-- Run one call: the new state and the pointer the call returns (`none` for
the calls that return nothing). -/
def TextureCache.step (c : TextureCache) : Op → Except Fault (TextureCache × Option Nat)
  | .getCachedTexture m w h key => c.getCachedTexture m w h key
  | .createTexture m w h => c.createTexture m w h
  | .destroyTexture t =>
    match c.destroyTexture t with
    | .error e => .error e
    | .ok c1 => .ok (c1, none)
  | .flush tex =>
    match c.flush tex with
    | .error e => .error e
    | .ok c1 => .ok (c1, none)

/-- The record a call created: the record behind the returned pointer when
that address was not allocated before the call. -/
def createdBy (c c1 : TextureCache) (r : Option Nat) : Option Texture :=
  match r with
  | none => none
  | some a => if c.heap.length ≤ a then Heap.read c1.heap a else none

/-- Run a sequence of calls; the result is the final state and the records
created on the way, in the order of their creation. -/
def TextureCache.run (c : TextureCache) : List Op → Except Fault (TextureCache × List Texture)
  | [] => .ok (c, [])
  | op :: ops =>
    match c.step op with
    | .error e => .error e
    | .ok (c1, r) =>
      match TextureCache.run c1 ops with
      | .error e => .error e
      | .ok (c2, log) => .ok (c2, (createdBy c c1 r).toList ++ log)

/-- The addresses a walk along the `next` links visits. -/
def Heap.walk (h : Heap) : Nat → Option Nat → List Nat
  | _, none => []
  | 0, some _ => []
  | fuel + 1, some a =>
    match Heap.read h a with
    | none => []
    | some t => a :: Heap.walk h fuel t.next

/-- The cache list: the addresses of the records linked from the head, each
with the record's fields other than the link. -/
def TextureCache.entries (c : TextureCache) : List (Nat × Texture) :=
  (Heap.walk c.heap c.heap.length c._texturesListHead).filterMap
    (fun a => (Heap.read c.heap a).map (fun t => (a, t.data)))

/-- A placement rectangle. -/
structure Rect where
  x : Int
  y : Int
  w : Int
  h : Int
deriving DecidableEq, Repr

/-- The placement rectangle of a texture. -/
def Texture.rect (t : Texture) : Rect :=
  ⟨t.texX, t.texY, t.texW, t.texH⟩

/-- The texel `(px, py)` lies in the half-open rectangle
`[x, x + w) x [y, y + h)`. -/
def Rect.contains (r : Rect) (px py : Int) : Prop :=
  r.x ≤ px ∧ px < r.x + r.w ∧ r.y ≤ py ∧ py < r.y + r.h

/-- Two rectangles overlap when they share a texel. -/
def Rect.overlaps (r s : Rect) : Prop :=
  ∃ px py, r.contains px py ∧ s.contains px py

/-- The rectangle of a node. -/
def NodeInfo.rect (n : NodeInfo) : Rect :=
  ⟨n.x, n.y, n.w, n.h⟩

/-- Two rectangles are separated along one of the axes. -/
def Rect.sep (r s : Rect) : Prop :=
  r.x + r.w ≤ s.x ∨ s.x + s.w ≤ r.x ∨ r.y + r.h ≤ s.y ∨ s.y + s.h ≤ r.y

/-- The rectangle `r` lies inside the rectangle `b`. -/
def Rect.within (r b : Rect) : Prop :=
  b.x ≤ r.x ∧ r.x + r.w ≤ b.x + b.w ∧ b.y ≤ r.y ∧ r.y + r.h ≤ b.y + b.h

/-- Every unoccupied node of the tree is a leaf. -/
def AtlasNode.FreeLeaves : AtlasNode → Prop
  | .null => True
  | .node occ _ _ _ _ c0 c1 =>
    (occ = 0 → c0 = .null ∧ c1 = .null) ∧ c0.FreeLeaves ∧ c1.FreeLeaves

/-- The invariant of an atlas tree and the rectangles placed in it so far:
unoccupied nodes are leaves, the rectangles of the nodes are separated from
each other, the placed rectangles are separated from each other, and each of
them is the rectangle of an occupied node. -/
def AtlasInv (t : AtlasNode) (placed : List Rect) : Prop :=
  t.FreeLeaves ∧ t.nodes.Pairwise (fun n m => n.rect.sep m.rect) ∧
  placed.Pairwise Rect.sep ∧
  ∀ r ∈ placed, ∃ n ∈ t.nodes, n.occupied ≠ 0 ∧ n.rect = r

/-- The sizes a call asks a placement for are positive. -/
def Op.sizesPositive : Op → Bool
  | .getCachedTexture _ w h _ => decide (0 < w) && decide (0 < h)
  | .createTexture _ w h => decide (0 < w) && decide (0 < h)
  | .destroyTexture _ => true
  | .flush _ => true

/-- The call is a `flush`. -/
def Op.isFlush : Op → Bool
  | .flush _ => true
  | _ => false

/-- What a node found by `findFreeNode` and split by `splitNode` becomes, and
where the two new children lie. -/
def SplitShape (f : NodeInfo) (w h : Int) (n c0 c1 : NodeInfo) : Prop :=
  f.occupied = 0 ∧ w ≤ f.w ∧ h ≤ f.h ∧
  n.occupied = 1 ∧ n.rect = ⟨f.x, f.y, w, h⟩ ∧ c0.occupied = 0 ∧ c1.occupied = 0 ∧
  ((c0.rect = ⟨f.x + w, f.y, f.w - w, h⟩ ∧ c1.rect = ⟨f.x, f.y + h, f.w, f.h - h⟩) ∨
   (c0.rect = ⟨f.x, f.y + h, w, f.h - h⟩ ∧ c1.rect = ⟨f.x + w, f.y, f.w - w, f.h⟩))


/-- The record `createTexture` links into the list when it places a `w` by `h`
texture in the node at path `p`, as it is when `createTexture` returns. -/
def TextureCache.placedTexture (c : TextureCache) (w h : Int) (p : List Bool) : Texture :=
  let node := (c.atlas.tree.splitAt p w h).nodeAt p
  let x : ℚ := (node.getX : ℚ) / (c.maxTexSz : ℚ)
  let y : ℚ := (node.getY : ℚ) / (c.maxTexSz : ℚ)
  { id := c.atlas.tex, bitmapW := w, bitmapH := h, texX := node.getX, texY := node.getY,
    texW := w, texH := h, x := x, y := y, u := x + (w : ℚ) / (c.maxTexSz : ℚ),
    v := y + (h : ℚ) / (c.maxTexSz : ℚ), next := none, key := -1 }

/-- The calls of the scenario of the specification: two 64 by 64 textures
under the keys 1 and 2, key 1 again, the record of key 1 destroyed, key 1
once more. -/
def scenarioOps : List Op :=
  [.getCachedTexture true 64 64 1, .getCachedTexture true 64 64 2,
   .getCachedTexture true 64 64 1, .destroyTexture 0, .getCachedTexture true 64 64 1]

/-- The state the scenario ends in, from a fresh cache. -/
def scenarioState : TextureCache :=
  match (TextureCache.init 1).run scenarioOps with
  | .ok (c, _) => c
  | .error _ => TextureCache.init 1

/-- The records the scenario creates. -/
def scenarioLog : List Texture :=
  match (TextureCache.init 1).run scenarioOps with
  | .ok (_, log) => log
  | .error _ => []

/-- Following the `next` links from the pointer `p` visits exactly the
addresses of `l`, in this order, and ends with the pointer `q`. -/
def Heap.Seg (h : Heap) : Option Nat → List Nat → Option Nat → Prop
  | p, [], q => p = q
  | p, a :: l, q => p = some a ∧ ∃ t, Heap.read h a = some t ∧ Heap.Seg h t.next l q

/-- The linked list of the cache consists of the records at the addresses `l`,
in this order: the links lead from the head through `l` to the null pointer,
no record occurs twice, and the tail pointer is the last record. -/
def TextureCache.Linked (c : TextureCache) (l : List Nat) : Prop :=
  Heap.Seg c.heap c._texturesListHead l none ∧ l.Nodup ∧ c._texturesListTail = l.getLast?

/-- The cache list is `L`: the addresses of the linked records, each with the
record's fields other than the link. -/
def TextureCache.Holds (c : TextureCache) (L : List (Nat × Texture)) : Prop :=
  c.Linked (L.map Prod.fst) ∧
  ∀ e ∈ L, (Heap.read c.heap e.1).map Texture.data = some e.2

/-- A cache whose atlas is full: a fresh cache after one 4096 by 4096 texture was
cached under the key 1. -/
def fullCache : TextureCache :=
  match (TextureCache.init 1).getCachedTexture true 4096 4096 1 with
  | .ok (c, _) => c
  | .error _ => TextureCache.init 1

/-- The call neither flushes the cache nor destroys the record at address
`a`. -/
def Op.keeps (a : Nat) : Op → Bool
  | .flush _ => false
  | .destroyTexture b => decide (b ≠ a)
  | .getCachedTexture _ _ _ _ => true
  | .createTexture _ _ _ => true

/-- The first entry of the cache list `L` with the key `key` is the record at
address `a`, and its fields other than the link are `d`. -/
def FirstWithKey (c : TextureCache) (key : Int) (a : Nat) (d : Texture) : Prop :=
  ∃ L, c.Holds L ∧ L.find? (fun x => decide (x.2.key = key)) = some (a, d)

/-- A fresh cache after a 64 by 64 texture was cached under the key 1 (the
record is at address 0). -/
def identityFirst : TextureCache :=
  match (TextureCache.init 1).getCachedTexture true 64 64 1 with
  | .ok (c, _) => c
  | .error _ => TextureCache.init 1

/-- Calls for other textures: a texture under the key 2, an anonymous texture,
and the destruction of the record of key 2 (at address 1). -/
def identityOps : List Op :=
  [.getCachedTexture true 64 64 2, .createTexture true 32 32, .destroyTexture 1]

/-- The state after `identityOps`. -/
def identityLater : TextureCache :=
  match identityFirst.run identityOps with
  | .ok (c, _) => c
  | .error _ => identityFirst

/-- The records `identityOps` creates. -/
def identityLog : List Texture :=
  match identityFirst.run identityOps with
  | .ok (_, log) => log
  | .error _ => []

/-! ## Job buffers (render.cpp lines 53-76, 189-360, 747-793) -/

/-- A `GLfloat`, taken as an exact number. -/
abbrev GLfloat := ℚ

/-- Modelled from the spec: `struct Vertex` is declared in `render.h`, which is
not among the sources; the specification calls the input "an ordered sequence
of 3D points".  The batching code reads the members `x`, `y`, `z`. -/
structure Vertex where
  x : Int
  y : Int
  z : Int
deriving DecidableEq, Repr

/-- Modelled from the spec: the enumeration constants `kFlatColorRed` ...
`kFlatColorLight` ("a logical color index/enum") are declared in `render.h`,
which is not among the sources; their values are a parameter. -/
structure FlatColors where
  kFlatColorRed : Int
  kFlatColorGreen : Int
  kFlatColorYellow : Int
  kFlatColorBlue : Int
  kFlatColorShadow : Int
  kFlatColorLight : Int
deriving DecidableEq, Repr

/-- The constant `MAX_ATLASES`. -/
def MAX_ATLASES : Nat := 4

/-- The constant `MAX_JOBS`. -/
def MAX_JOBS : Nat := 4096

/-- The record `struct JobVertex`. -/
structure JobVertex where
  x : GLfloat
  y : GLfloat
  z : GLfloat
  r : GLfloat
  g : GLfloat
  b : GLfloat
  a : GLfloat
deriving DecidableEq, Repr

/-- The record `struct TexturedJobVertex`. -/
structure TexturedJobVertex where
  x : GLfloat
  y : GLfloat
  z : GLfloat
  u : GLfloat
  v : GLfloat
deriving DecidableEq, Repr

/-- One entry `JobList[i]`: the three vertices of a triangle. -/
structure JobTriangle where
  v0 : JobVertex
  v1 : JobVertex
  v2 : JobVertex
deriving DecidableEq, Repr

/-- One entry `TexturedJobList[tex][i]`: the three vertices of a triangle. -/
structure TexturedJobTriangle where
  v0 : TexturedJobVertex
  v1 : TexturedJobVertex
  v2 : TexturedJobVertex
deriving DecidableEq, Repr

/-- `JobVertex::setJob(x, y, z, r, g, b, a)` with the position of a vertex. -/
def JobVertex.setJob (p : Vertex) (r g b a : GLfloat) : JobVertex :=
  { x := (p.x : ℚ), y := (p.y : ℚ), z := (p.z : ℚ), r := r, g := g, b := b, a := a }

/-- `TexturedJobVertex::setJob(x, y, z, u, v)` with the position of a
vertex. -/
def TexturedJobVertex.setJob (p : Vertex) (u v : GLfloat) : TexturedJobVertex :=
  { x := (p.x : ℚ), y := (p.y : ℚ), z := (p.z : ℚ), u := u, v := v }

/-- The calls of `warning(...)`. -/
inductive Warning where
  /-- "Cannot allocate new job" -/
  | cannotAllocateJob : Warning
  /-- "Too many scheduled jobs! Dropping jobs" -/
  | tooManyJobs : Warning
  /-- "Render::drawPolygonFlat() unhandled color %d" -/
  | unhandledColor (color : Int) : Warning
  /-- "Render::drawPolygonTexture() unhandled primitive %d" -/
  | unhandledPrimitive (primitive : Int) : Warning
deriving DecidableEq, Repr

/-- The draw submissions the model records. -/
inductive DrawCall where
  /-- the immediate flat path: `glColor4f` and `emitTriFan3i` -/
  | immediateFlat (vertices : List Vertex) (verticesCount : Int) (r g b a : GLfloat) : DrawCall
  /-- the immediate textured path: `glBindTexture` and `emitQuadTex3i` or
  `emitTriTex3i` -/
  | immediateTextured (tex : Nat) (vertices : List Vertex) (uv : List GLfloat) : DrawCall
  /-- `glDrawArrays(GL_TRIANGLES, 0, JobCount * 3)` over `JobList` -/
  | flatJobs (triangles : List JobTriangle) : DrawCall
  /-- `glBindTexture(GL_TEXTURE_2D, tex)` and
  `glDrawArrays(GL_TRIANGLES, 0, TexturedJobCount[i] * 3)` over
  `TexturedJobList[i]` -/
  | texturedJobs (tex : Nat) (triangles : List TexturedJobTriangle) : DrawCall
deriving DecidableEq, Repr

/-- The state the batching code works on: the globals `_textureCache`,
`JobList`, `JobCount`, `TexturedJobList`, `TexturedJobCount` of `render.cpp`,
the members `isBatching` and `_pixelColorMap` of `Render` (declared in
`render.h`, which is not among the sources; their types are taken from their
uses in `render.cpp`), and the warnings and draw submissions issued so far
(oldest first).  The arrays are functions of the index; an access checks the
index against the size of the array. -/
structure Render where
  isBatching : Int
  _textureCache : TextureCache
  _pixelColorMap : Nat → Nat → GLfloat
  JobList : Nat → JobTriangle
  JobCount : Nat
  TexturedJobList : Nat → Nat → TexturedJobTriangle
  TexturedJobCount : Nat → Nat
  warnings : List Warning
  draws : List DrawCall

/-- One more call of `warning(...)`. -/
def Render.warning (s : Render) (w : Warning) : Render :=
  { s with warnings := s.warnings ++ [w] }

/-- The colour `drawPolygonFlat` and `_drawPolygonFlat` select for a colour
index, and the warning of the `default` case. -/
def Render.flatColor (s : Render) (k : FlatColors) (color : Int) :
    (GLfloat × GLfloat × GLfloat × GLfloat) × Option Warning :=
  if color = k.kFlatColorRed then ((1, 0, 0, 1 / 2), none)
  else if color = k.kFlatColorGreen then ((0, 1, 0, 1 / 2), none)
  else if color = k.kFlatColorYellow then ((1, 1, 0, 1 / 2), none)
  else if color = k.kFlatColorBlue then ((0, 0, 1, 1 / 2), none)
  else if color = k.kFlatColorShadow then ((0, 0, 0, 1 / 2), none)
  else if color = k.kFlatColorLight then ((1, 1, 1, 1 / 5), none)
  else if 0 ≤ color ∧ color < 256 then
    ((s._pixelColorMap 0 color.toNat, s._pixelColorMap 1 color.toNat,
      s._pixelColorMap 2 color.toNat, s._pixelColorMap 3 color.toNat), none)
  else ((0, 0, 0, 1), some (.unhandledColor color))

/-- `Render::_drawPolygonFlat`, the immediate path: the colour is selected and
the polygon is handed to `emitTriFan3i`. -/
def Render._drawPolygonFlat (s : Render) (k : FlatColors) (vertices : List Vertex)
    (verticesCount : Int) (color : Int) : Except Fault Render :=
  let (rgba, w) := s.flatColor k color
  let s1 := match w with
    | some w => s.warning w
    | none => s
  if verticesCount > 1024 then .error .assertFailed
  else if (vertices.length : Int) < verticesCount then .error (.outOfBounds .vertices)
  else
    .ok { s1 with draws := s1.draws ++
            [.immediateFlat vertices verticesCount rgba.1 rgba.2.1 rgba.2.2.1 rgba.2.2.2] }

/-- The loop of the batching branch of `Render::drawPolygonFlat`, over the
values of `i` that are left. -/
def Render.flatLoop (vertices : List Vertex) (r g b a : GLfloat) :
    List Nat → Render → Except Fault Render
  | [], s => .ok s
  | i :: is, s =>
    if (s.JobCount + 1) % 2 ^ 32 > MAX_JOBS then .ok (s.warning .tooManyJobs)
    else
      match vertices[0]?, vertices[i - 1]?, vertices[i]? with
      | some p0, some p1, some p2 =>
        if s.JobCount < MAX_JOBS then
          Render.flatLoop vertices r g b a is
            { s with JobList := fun j =>
                       if j = s.JobCount then
                         ⟨JobVertex.setJob p0 r g b a, JobVertex.setJob p1 r g b a,
                          JobVertex.setJob p2 r g b a⟩
                       else s.JobList j,
                     JobCount := (s.JobCount + 1) % 2 ^ 32 }
        else .error (.outOfBounds .JobList)
      | _, _, _ => .error (.outOfBounds .vertices)

/-- `Render::drawPolygonFlat(vertices, verticesCount, color)`. -/
def Render.drawPolygonFlat (s : Render) (k : FlatColors) (vertices : List Vertex)
    (verticesCount : Int) (color : Int) : Except Fault Render :=
  if s.isBatching = 0 then s._drawPolygonFlat k vertices verticesCount color
  else
    let (rgba, w) := s.flatColor k color
    let s1 := match w with
      | some w => s.warning w
      | none => s
    Render.flatLoop vertices rgba.1 rgba.2.1 rgba.2.2.1 rgba.2.2.2
      (List.range' 2 (verticesCount - 2).toNat) s1

/-- `Render::setupJobList()`. -/
def Render.setupJobList (s : Render) : Render :=
  { s with JobCount := 0, isBatching := 1 }

/-- `Render::flushJobList()`. -/
def Render.flushJobList (s : Render) : Render :=
  let s1 :=
    if s.JobCount > 0 then
      { s with draws := s.draws ++ [.flatJobs ((List.range s.JobCount).map s.JobList)] }
    else s
  { s1 with isBatching := 0 }

/-- The triangles the flat buffer holds: the first `JobCount` entries of
`JobList`. -/
def Render.flatBuffer (s : Render) : List JobTriangle :=
  (List.range s.JobCount).map s.JobList

/-- The array `uv` the `switch (primitive)` of `drawPolygonTexture` and
`_drawPolygonTexture` builds from the texture's rectangle; `none` in the
`default` case. -/
def uvLayout (t : Texture) (primitive : Int) : Option (List GLfloat) :=
  if primitive = 0 ∨ primitive = 2 then some [t.x, t.y, t.u, t.y, t.u, t.v, t.x, t.v]
  else if primitive = 1 then some [(t.u + t.x) / 2, t.y, t.u, t.v, t.x, t.v]
  else if primitive = 3 ∨ primitive = 5 then some [t.u, t.y, t.u, t.v, t.x, t.v, t.x, t.y]
  else if primitive = 4 then some [t.u, t.v, t.x, t.v, (t.u + t.x) / 2, t.y]
  else if primitive = 6 ∨ primitive = 8 then some [t.u, t.v, t.x, t.v, t.x, t.y, t.u, t.y]
  else if primitive = 7 then some [t.x, t.v, (t.x + t.u) / 2, t.y, t.u, t.v]
  else if primitive = 9 ∨ primitive = 10 then some [t.x, t.y, t.x, t.v, t.u, t.v, t.u, t.y]
  else none

/-- The loop of `emitTexturedTriangles`, over the values of `i` that are left;
`job` is the loop's local counter. -/
def Render.texturedLoop (tex : Nat) (vertices : List Vertex) (uv : List GLfloat) :
    List Nat → Nat → Render → Except Fault Render
  | [], _, s => .ok s
  | i :: is, job, s =>
    match vertices[0]?, vertices[i - 1]?, vertices[i]? with
    | some p0, some p1, some p2 =>
      match uv[0]?, uv[1]?, uv[2 * (i - 1)]?, uv[2 * (i - 1) + 1]?, uv[2 * i]?,
          uv[2 * i + 1]? with
      | some u0, some v0, some u1, some v1, some u2, some v2 =>
        if job < MAX_JOBS then
          Render.texturedLoop tex vertices uv is (job + 1)
            { s with TexturedJobList := fun a j =>
                       if a = tex ∧ j = job then
                         ⟨TexturedJobVertex.setJob p0 u0 v0, TexturedJobVertex.setJob p1 u1 v1,
                          TexturedJobVertex.setJob p2 u2 v2⟩
                       else s.TexturedJobList a j }
        else .error (.outOfBounds .TexturedJobList)
      | _, _, _, _, _, _ => .error (.outOfBounds .uv)
    | _, _, _ => .error (.outOfBounds .vertices)

/-- `emitTexturedTriangles(tex, vertices, verticesCount, uv)`. -/
def Render.emitTexturedTriangles (s : Render) (tex : Nat) (vertices : List Vertex)
    (verticesCount : Int) (uv : List GLfloat) : Except Fault Render :=
  if tex < MAX_ATLASES then
    match Render.texturedLoop tex vertices uv (List.range' 2 (verticesCount - 2).toNat)
        (s.TexturedJobCount tex) s with
    | .error e => .error e
    | .ok s1 =>
      .ok { s1 with TexturedJobCount := fun j =>
              if j = tex then
                (((s1.TexturedJobCount tex : Int) + (verticesCount - 2)) % 2 ^ 32).toNat
              else s1.TexturedJobCount j }
  else .error (.outOfBounds .TexturedJobCount)

/-- `Render::_drawPolygonTexture`, the immediate path: quads go to
`emitQuadTex3i`, triangles to `emitTriTex3i`, other primitives give a
warning. -/
def Render._drawPolygonTexture (s : Render) (vertices : List Vertex) (verticesCount : Int)
    (primitive : Int) (texW texH : Int) (texKey : Int) (mallocOk : Bool) :
    Except Fault Render :=
  if ¬ (texW > 0 ∧ texH > 0) then .error .assertFailed
  else if ¬ (verticesCount ≥ 4) then .error .assertFailed
  else
    match s._textureCache.getCachedTexture mallocOk texW texH texKey with
    | .error e => .error e
    | .ok (_, none) => .error .nullDeref
    | .ok (cache, some a) =>
      match Heap.read cache.heap a with
      | none => .error .badPointer
      | some t =>
        let s1 := { s with _textureCache := cache }
        match uvLayout t primitive with
        | none => .ok (s1.warning (.unhandledPrimitive primitive))
        | some uv =>
          if vertices.length < uv.length / 2 then .error (.outOfBounds .vertices)
          else
            .ok { s1 with draws := s1.draws ++
                    [.immediateTextured t.id (vertices.take (uv.length / 2)) uv] }

/-- `Render::drawPolygonTexture(vertices, verticesCount, primitive, texData,
texW, texH, texKey)`.  The pointers `vertices` and `texData` are not null;
`mallocOk` tells whether `malloc` returns memory when a texture is created. -/
def Render.drawPolygonTexture (s : Render) (vertices : List Vertex) (verticesCount : Int)
    (primitive : Int) (texW texH : Int) (texKey : Int) (mallocOk : Bool) :
    Except Fault Render :=
  if s.isBatching = 0 then
    s._drawPolygonTexture vertices verticesCount primitive texW texH texKey mallocOk
  else if ¬ (texW > 0 ∧ texH > 0) then .error .assertFailed
  else if ¬ (verticesCount ≥ 4) then .error .assertFailed
  else
    match s._textureCache.getCachedTexture mallocOk texW texH texKey with
    | .error e => .error e
    | .ok (_, none) => .error .nullDeref
    | .ok (cache, some a) =>
      match Heap.read cache.heap a with
      | none => .error .badPointer
      | some t =>
        let s1 := { s with _textureCache := cache }
        if ¬ (t.id ≤ MAX_ATLASES) then .error .assertFailed
        else if ¬ (t.id < MAX_ATLASES) then .error (.outOfBounds .TexturedJobCount)
        else if ((s1.TexturedJobCount t.id : Int) + (verticesCount - 2)) % 2 ^ 32 >
            (MAX_JOBS : Int) then
          .ok (s1.warning .cannotAllocateJob)
        else
          match uvLayout t primitive with
          | none => .ok s1
          | some uv =>
            s1.emitTexturedTriangles ((t.id + 2 ^ 32 - 1) % 2 ^ 32) vertices verticesCount uv

/-- `Render::setupTexJobList()`. -/
def Render.setupTexJobList (s : Render) : Render :=
  { (List.range MAX_ATLASES).foldl
      (fun s i => { s with TexturedJobCount := fun j =>
                      if j = i then 0 else s.TexturedJobCount j }) s with
    isBatching := 1 }

/-- `Render::flushTexJobList()`. -/
def Render.flushTexJobList (s : Render) : Render :=
  { (List.range MAX_ATLASES).foldl
      (fun s i =>
        if s.TexturedJobCount i ≠ 0 then
          { s with draws := s.draws ++
                     [.texturedJobs (i + 1)
                        ((List.range (s.TexturedJobCount i)).map (s.TexturedJobList i))],
                   TexturedJobCount := fun j => if j = i then 0 else s.TexturedJobCount j }
        else s) s with
    isBatching := 0 }

/-- The constructor `Render::Render()` with the zero-initialised globals;
`tex` is the name `glGenTextures` hands out for the atlas. -/
def Render.new (tex : Nat) : Render :=
  { isBatching := 0, _textureCache := TextureCache.init tex,
    _pixelColorMap := fun _ _ => 0,
    JobList := fun _ => ⟨⟨0, 0, 0, 0, 0, 0, 0⟩, ⟨0, 0, 0, 0, 0, 0, 0⟩, ⟨0, 0, 0, 0, 0, 0, 0⟩⟩,
    JobCount := 0,
    TexturedJobList := fun _ _ => ⟨⟨0, 0, 0, 0, 0⟩, ⟨0, 0, 0, 0, 0⟩, ⟨0, 0, 0, 0, 0⟩⟩,
    TexturedJobCount := fun _ => 0, warnings := [], draws := [] }

/-- One call of `drawPolygonFlat`: the polygon and the colour index; the
vertex count passed is the number of vertices. -/
structure FlatCall where
  vertices : List Vertex
  color : Int
deriving DecidableEq, Repr

/-- A sequence of calls of `drawPolygonFlat`. -/
def Render.drawFlatCalls (k : FlatColors) : Render → List FlatCall → Except Fault Render
  | s, [] => .ok s
  | s, call :: calls =>
    match s.drawPolygonFlat k call.vertices call.vertices.length call.color with
    | .error e => .error e
    | .ok s1 => Render.drawFlatCalls k s1 calls

/-- One call of `drawPolygonTexture`; the vertex count passed is the number of
vertices. -/
structure TexturedCall where
  vertices : List Vertex
  primitive : Int
  texW : Int
  texH : Int
  texKey : Int
  mallocOk : Bool
deriving DecidableEq, Repr

/-- A sequence of calls of `drawPolygonTexture`. -/
def Render.drawTexturedCalls : Render → List TexturedCall → Except Fault Render
  | s, [] => .ok s
  | s, call :: calls =>
    match s.drawPolygonTexture call.vertices call.vertices.length call.primitive
        call.texW call.texH call.texKey call.mallocOk with
    | .error e => .error e
    | .ok s1 => Render.drawTexturedCalls s1 calls

/-- The triangle the fan has for the index `i`, written out field by field:
the three job vertices have the positions of the polygon's vertices `0`,
`i - 1` and `i`, and each carries the colour `(r, g, b, a)`. -/
def fanTriangleAt (vertices : List Vertex) (r g b a : GLfloat) (i : Nat) : JobTriangle :=
  { v0 := { x := ((vertices.getD 0 ⟨0, 0, 0⟩).x : ℚ), y := ((vertices.getD 0 ⟨0, 0, 0⟩).y : ℚ),
            z := ((vertices.getD 0 ⟨0, 0, 0⟩).z : ℚ), r := r, g := g, b := b, a := a },
    v1 := { x := ((vertices.getD (i - 1) ⟨0, 0, 0⟩).x : ℚ),
            y := ((vertices.getD (i - 1) ⟨0, 0, 0⟩).y : ℚ),
            z := ((vertices.getD (i - 1) ⟨0, 0, 0⟩).z : ℚ), r := r, g := g, b := b, a := a },
    v2 := { x := ((vertices.getD i ⟨0, 0, 0⟩).x : ℚ), y := ((vertices.getD i ⟨0, 0, 0⟩).y : ℚ),
            z := ((vertices.getD i ⟨0, 0, 0⟩).z : ℚ), r := r, g := g, b := b, a := a } }

/-- The fan triangulation of a polygon as the specification words it: the
triangles `(0, i - 1, i)` for `i` in `2 .. N - 1`, in this order. -/
def fanTriangles (vertices : List Vertex) (r g b a : GLfloat) : List JobTriangle :=
  (List.range (vertices.length - 2)).map (fun t => fanTriangleAt vertices r g b a (t + 2))

/-- The fan triangulation of the polygon of a call, in the colour the call
selects. -/
def Render.fanOf (s : Render) (k : FlatColors) (call : FlatCall) : List JobTriangle :=
  fanTriangles call.vertices (s.flatColor k call.color).1.1 (s.flatColor k call.color).1.2.1
    (s.flatColor k call.color).1.2.2.1 (s.flatColor k call.color).1.2.2.2

/-- The triangles a sequence of calls submits, in submission order. -/
def Render.fansOf (s : Render) (k : FlatColors) (calls : List FlatCall) : List JobTriangle :=
  (calls.map (s.fanOf k)).flatten

/-- The warning of the colour selection of a call, if any. -/
def Render.colorWarnings (s : Render) (k : FlatColors) (call : FlatCall) : List Warning :=
  (s.flatColor k call.color).2.toList

/-- Values for the flat colour constants, used in examples. -/
def demoColors : FlatColors := ⟨512, 513, 514, 515, 516, 517⟩

/-- A polygon of five vertices. -/
def pentagon : List Vertex := [⟨0, 0, 0⟩, ⟨1, 0, 0⟩, ⟨1, 1, 0⟩, ⟨0, 1, 0⟩, ⟨-1, 1, 0⟩]

/-- A polygon of four vertices. -/
def quad : List Vertex := [⟨0, 0, 0⟩, ⟨1, 0, 0⟩, ⟨1, 1, 0⟩, ⟨0, 1, 0⟩]

/-- A fresh renderer after `setupJobList()`. -/
def flatStart : Render := (Render.new 1).setupJobList

/-- A fresh renderer after `setupTexJobList()`. -/
def texStart : Render := (Render.new 1).setupTexJobList

/-- A textured call: `quad` with the layout 0 and a 64 by 64 bitmap under the
key 7. -/
def quadCall : TexturedCall :=
  { vertices := quad, primitive := 0, texW := 64, texH := 64, texKey := 7, mallocOk := true }

/-- The record of the texture of `quadCall` in a fresh atlas with the GL
name 1: placed in the root node, at `(0, 0)`. -/
def quadTexture : Texture :=
  { (TextureCache.init 1).placedTexture 64 64 [] with key := 7 }

/-- The cache of a fresh renderer after the texture of `quadCall` was
created. -/
def quadCache : TextureCache :=
  match (TextureCache.init 1).getCachedTexture true 64 64 7 with
  | .ok (c, _) => c
  | .error _ => TextureCache.init 1

/-- The state of the scenario of a slot count that is tested on another slot:
batching is active, the texture of `quadCall` is found or created as
`quadTexture` (GL name 1, slot 0), the slot 0 holds `m` triangles, and the
slot 1 holds none. -/
def QuadState (s : Render) (m : Nat) : Prop :=
  s.isBatching ≠ 0 ∧
  s._textureCache.getCachedTexture true 64 64 7 = .ok (quadCache, some 0) ∧
  s.TexturedJobCount 0 = m ∧ s.TexturedJobCount 1 = 0

/-- A polygon of 4099 vertices: its fan has `MAX_JOBS + 1` triangles. -/
def bigPolygon : List Vertex :=
  (List.range 4099).map (fun (i : Nat) => Vertex.mk (i : Int) 0 0)

/-- Two textured calls: a quad with a 4096 by 4096 bitmap under the key 1,
which fills the atlas, and a quad with a 1 by 1 bitmap under the key 2. -/
def exhaustingCalls : List TexturedCall :=
  [{ vertices := quad, primitive := 0, texW := 4096, texH := 4096, texKey := 1,
     mallocOk := true },
   { vertices := quad, primitive := 0, texW := 1, texH := 1, texKey := 2, mallocOk := true }]

/-- The state after the first of the `exhaustingCalls`. -/
def exhaustedState : Render :=
  match texStart.drawTexturedCalls (exhaustingCalls.take 1) with
  | .ok s => s
  | .error _ => texStart

/-- The cache after `getCachedTexture` found no room for the 1 by 1 bitmap of
the second of the `exhaustingCalls`. -/
def exhaustedCache : TextureCache :=
  match exhaustedState._textureCache.getCachedTexture true 1 1 2 with
  | .ok (c, _) => c
  | .error _ => exhaustedState._textureCache

/-! ## Checks on single nodes and the frustum tests (render.cpp lines 587-618) -/

/-- The rectangle `(x, y, w, h)` of the node a pointer points to (the empty
rectangle at the origin for the null pointer). -/
def AtlasNode.rect : AtlasNode → Rect
  | .null => ⟨0, 0, 0, 0⟩
  | .node _ x y w h _ _ => ⟨x, y, w, h⟩

/-- The area `w * h` of the node a pointer points to. -/
def AtlasNode.area : AtlasNode → Int
  | .null => 0
  | .node _ _ _ w h _ _ => w * h

/-- The record `struct Vertex4f`: a plane with the normal `(x, y, z)` and the
offset `w`. -/
structure Vertex4f where
  x : GLfloat
  y : GLfloat
  z : GLfloat
  w : GLfloat
deriving DecidableEq, Repr

/-- The expression `_frustum[i].x * p.x + _frustum[i].y * p.y +
_frustum[i].z * p.z + _frustum[i].w` of both frustum tests. -/
def planeTest (f : Vertex4f) (p : Vertex) : GLfloat :=
  f.x * (p.x : ℚ) + f.y * (p.y : ℚ) + f.z * (p.z : ℚ) + f.w

/-- The `for` loop of `Render::isQuadInFrustrum` over the planes that are
left: the value `ret` has after it. -/
def quadPlanes (_frustum : Nat → Vertex4f) (p : Vertex) : List Nat → Bool
  | [] => true
  | i :: is => if planeTest (_frustum i) p ≤ 0 then false else quadPlanes _frustum p is

/-- The `while` loop of `Render::isQuadInFrustrum`: `count` is
`verticesCount`, `k` is how far `vertices` has been advanced. -/
def quadLoop (_frustum : Nat → Vertex4f) (vertices : List Vertex) :
    Nat → Nat → Bool → Except Fault Bool
  | 0, _, ret => .ok ret
  | count + 1, k, ret =>
    if ret then .ok ret
    else
      match vertices[k]? with
      | none => .error (.outOfBounds .vertices)
      | some p => quadLoop _frustum vertices count (k + 1) (quadPlanes _frustum p (List.range 6))

/-- `Render::isQuadInFrustrum(vertices, verticesCount)`; `_frustum` is the
static array of the six planes. -/
def isQuadInFrustrum (_frustum : Nat → Vertex4f) (vertices : List Vertex)
    (verticesCount : Int) : Except Fault Bool :=
  if verticesCount ≠ 4 then .error .assertFailed
  else quadLoop _frustum vertices verticesCount.toNat 0 false

/-- The inner `for` loop of `Render::isBoxInFrustrum` over the values of `j`
that are left: the value `ret` has after it. -/
def boxPoints (f : Vertex4f) (vertices : List Vertex) : List Nat → Except Fault Bool
  | [] => .ok false
  | j :: js =>
    match vertices[j]? with
    | none => .error (.outOfBounds .vertices)
    | some p => if planeTest f p > 0 then .ok true else boxPoints f vertices js

/-- The outer `for` loop of `Render::isBoxInFrustrum` over the planes that are
left. -/
def boxPlanes (_frustum : Nat → Vertex4f) (vertices : List Vertex) (verticesCount : Nat) :
    List Nat → Except Fault Bool
  | [] => .ok true
  | i :: is =>
    match boxPoints (_frustum i) vertices (List.range verticesCount) with
    | .error e => .error e
    | .ok false => .ok false
    | .ok true => boxPlanes _frustum vertices verticesCount is

/-- `Render::isBoxInFrustrum(vertices, verticesCount)`; `_frustum` is the
static array of the six planes. -/
def isBoxInFrustrum (_frustum : Nat → Vertex4f) (vertices : List Vertex)
    (verticesCount : Int) : Except Fault Bool :=
  if verticesCount ≠ 8 then .error .assertFailed
  else boxPlanes _frustum vertices verticesCount.toNat (List.range 6)

/-- Six planes `x > 0`, used in examples. -/
def demoFrustum : Nat → Vertex4f := fun _ => ⟨1, 0, 0, 0⟩

/-- Eight points for examples: one at `x = -1`, one at `x = 3`, the others at
the origin. -/
def demoBox : Fin 8 → Vertex := fun j =>
  if j = 0 then ⟨-1, 0, 0⟩ else if j = 1 then ⟨3, 0, 0⟩ else ⟨0, 0, 0⟩

/-- A fresh cache after `createTexture` made an anonymous 320 by 200 texture
(as `setOverlayDim` does for the overlay); the record is at address 0 and has
the key -1. -/
def overlayCache : TextureCache :=
  match (TextureCache.init 1).createTexture true 320 200 with
  | .ok (c, _) => c
  | .error _ => TextureCache.init 1

/-- A fresh cache after `getCachedTexture` with the key -1 made a 64 by 64
texture; the record is at address 0. -/
def anonymousCache : TextureCache :=
  match (TextureCache.init 1).getCachedTexture true 64 64 (-1) with
  | .ok (c, _) => c
  | .error _ => TextureCache.init 1

/-- Two entries of the list carry the same key only when that key is -1. -/
def KeysUnique (L : List (Nat × Texture)) : Prop :=
  L.Pairwise (fun e1 e2 => e1.2.key = e2.2.key → e1.2.key = -1)

/-- The cache list is `L` with keys other than -1 occurring once, the atlas
tree satisfies `AtlasInv` for the rectangles `placed`, and the rectangle of
every entry of the list is one of `placed`. -/
def TextureCache.Good (c : TextureCache) (L : List (Nat × Texture)) (placed : List Rect) :
    Prop :=
  c.Holds L ∧ KeysUnique L ∧ AtlasInv c.atlas.tree placed ∧ ∀ e ∈ L, e.2.rect ∈ placed

/-- The call neither flushes the cache nor asks `getCachedTexture` for the key
`key`. -/
def Op.avoids (key : Int) : Op → Bool
  | .flush _ => false
  | .getCachedTexture _ _ _ k => decide (k ≠ key)
  | _ => true

/-- Two 64 by 64 textures cached under the keys 1 and 2 (records at the
addresses 0 and 1). -/
def twoKeysOps : List Op :=
  [.getCachedTexture true 64 64 1, .getCachedTexture true 64 64 2]

/-- The state after `twoKeysOps`, from a fresh cache. -/
def twoKeysState : TextureCache :=
  match (TextureCache.init 1).run twoKeysOps with
  | .ok (c, _) => c
  | .error _ => TextureCache.init 1

/-- The records `twoKeysOps` creates. -/
def twoKeysLog : List Texture :=
  match (TextureCache.init 1).run twoKeysOps with
  | .ok (_, log) => log
  | .error _ => []

/-- Calls that follow the destruction of the record of key 1: an anonymous
texture, a texture under the key 3, and the key 2 again. -/
def otherKeysOps : List Op :=
  [.createTexture true 32 32, .getCachedTexture true 16 16 3, .getCachedTexture true 64 64 2]

/-- The state of `fullCache` after its only record (address 0, key 1, the
whole atlas) was destroyed. -/
def fullDestroyed : TextureCache :=
  match fullCache.destroyTexture 0 with
  | .ok c => c
  | .error _ => fullCache

/-- Three 64 by 64 textures under the keys 1, 2 and 3 (addresses 0, 1, 2), then
a hit on the key 3, which moves the last entry to the head, then the
destruction of the record at address 1, which is the last entry by then. -/
def tailOps : List Op :=
  [.getCachedTexture true 64 64 1, .getCachedTexture true 64 64 2,
   .getCachedTexture true 64 64 3, .getCachedTexture true 64 64 3, .destroyTexture 1]

/-- The state after `tailOps`, from a fresh cache. -/
def tailState : TextureCache :=
  match (TextureCache.init 1).run tailOps with
  | .ok (c, _) => c
  | .error _ => TextureCache.init 1

/-- The records `tailOps` creates. -/
def tailLog : List Texture :=
  match (TextureCache.init 1).run tailOps with
  | .ok (_, log) => log
  | .error _ => []

/-- Unoccupied nodes of the atlas tree are leaves, and the rectangle of every
entry of the list `L` is the rectangle of an occupied node of the tree. -/
def TextureCache.Occupied (c : TextureCache) (L : List (Nat × Texture)) : Prop :=
  c.atlas.tree.FreeLeaves ∧
  ∀ e ∈ L, ∃ n ∈ c.atlas.tree.nodes, n.occupied ≠ 0 ∧ n.rect = e.2.rect

/-- The placement of a texture lies inside the atlas surface of size `S`, its
normalized rectangle is the placement divided by `S`, and it lies in the unit
square. -/
def Texture.InSurface (S : Int) (t : Texture) : Prop :=
  (0 ≤ t.texX ∧ t.texX + t.texW ≤ S ∧ 0 ≤ t.texY ∧ t.texY + t.texH ≤ S) ∧
  (t.x = (t.texX : ℚ) / (S : ℚ) ∧ t.y = (t.texY : ℚ) / (S : ℚ) ∧
    t.u = t.x + (t.texW : ℚ) / (S : ℚ) ∧ t.v = t.y + (t.texH : ℚ) / (S : ℚ)) ∧
  (0 ≤ t.x ∧ t.x ≤ t.u ∧ t.u ≤ 1) ∧ (0 ≤ t.y ∧ t.y ≤ t.v ∧ t.v ≤ 1)

/-- The atlas has a positive size, unoccupied nodes of its tree are leaves, and
the rectangle of every node lies inside the atlas surface. -/
def TextureCache.Inside (c : TextureCache) : Prop :=
  0 < c.maxTexSz ∧ c.atlas.tree.FreeLeaves ∧
  ∀ n ∈ c.atlas.tree.nodes, n.rect.within ⟨0, 0, c.maxTexSz, c.maxTexSz⟩

/-- The indices of `uv` that `emitTexturedTriangles` reads for a polygon of
`verticesCount` vertices: for `i = 2 .. verticesCount - 1` the indices `0`,
`1`, `2 * (i - 1)`, `2 * (i - 1) + 1`, `2 * i` and `2 * i + 1`. -/
def uvReads (verticesCount : Nat) : List Nat :=
  (List.range' 2 (verticesCount - 2)).flatMap
    (fun i => [0, 1, 2 * (i - 1), 2 * (i - 1) + 1, 2 * i, 2 * i + 1])

/-- The value of an `int` expression whose exact result is `z`: reduced to 32
bits in two's complement, as the compiled code computes sums and differences
of `int`. -/
def wrapInt (z : Int) : Int :=
  (z + 2 ^ 31) % 2 ^ 32 - 2 ^ 31

/-- `AtlasNode::splitNode(w, h)` with the arithmetic of `int`: every sum and
difference of the function is reduced by `wrapInt`.  Where no sum or difference
leaves the range of `int` this is `AtlasNode.splitNode`. -/
def AtlasNode.splitNode32 : AtlasNode → Int → Int → AtlasNode
  | .null, _, _ => .null
  | .node _ x y nw nh _ _, w, h =>
    let dw := wrapInt (nw - w)
    let dh := wrapInt (nh - h)
    if dw > dh then
      .node 1 x y w h (AtlasNode.mk (wrapInt (x + w)) y (wrapInt (nw - w)) h)
        (AtlasNode.mk x (wrapInt (y + h)) nw (wrapInt (nh - h)))
    else
      .node 1 x y w h (AtlasNode.mk x (wrapInt (y + h)) w (wrapInt (nh - h)))
        (AtlasNode.mk (wrapInt (x + w)) y (wrapInt (nw - w)) nh)

/-! ## Theorems -/

theorem find_map_under (b : Bool) (w h : Int) (l : List NodeInfo) :
    (l.map (NodeInfo.under b)).find? (NodeInfo.fits w h) =
      (l.find? (NodeInfo.fits w h)).map (NodeInfo.under b) := by
  induction l with
  | nil => rfl
  | cons a l ih =>
    have hfit : NodeInfo.fits w h (NodeInfo.under b a) = NodeInfo.fits w h a := rfl
    by_cases ha : NodeInfo.fits w h a = true
    · simp [List.find?, hfit, ha]
    · simp only [Bool.not_eq_true] at ha
      simp [List.find?, hfit, ha, ih]

theorem findFreeNode_eq_find (t : AtlasNode) (w h : Int) :
    t.findFreeNode w h = (t.nodes.find? (NodeInfo.fits w h)).map NodeInfo.path := by
  induction t with
  | null => rfl
  | node occ x y nw nh c0 c1 ih0 ih1 =>
    by_cases hfit : occ = 0 ∧ nw ≥ w ∧ nh ≥ h
    · have : NodeInfo.fits w h ⟨[], occ, x, y, nw, nh⟩ = true := by
        simp [NodeInfo.fits, hfit.1, hfit.2.1, hfit.2.2]
      rw [AtlasNode.findFreeNode, if_pos hfit, AtlasNode.nodes, List.find?_cons, this]
      rfl
    · have hf : NodeInfo.fits w h ⟨[], occ, x, y, nw, nh⟩ = false := by
        simp only [NodeInfo.fits, Bool.and_eq_false_imp, Bool.and_eq_true, decide_eq_true_eq,
          decide_eq_false_iff_not]
        intro h1
        exact fun h2 => hfit ⟨h1.1, h1.2, h2⟩
      simp only [AtlasNode.findFreeNode, hfit, if_false, AtlasNode.nodes, List.find?, hf,
        List.find?_append, find_map_under, ih0, ih1]
      cases h0 : c0.nodes.find? (NodeInfo.fits w h) with
      | some n => simp [NodeInfo.under]
      | none =>
        cases h1 : c1.nodes.find? (NodeInfo.fits w h) with
        | some n => simp [NodeInfo.under]
        | none => simp

/-- C2: `findFreeNode` returns the first node in pre-order (the node, then
`children[0]`, then `children[1]`) that is unoccupied and at least `w` by `h`,
and returns no node exactly when the tree has no such node. -/
theorem findFreeNode_first_preorder (t : AtlasNode) (w h : Int) :
    t.findFreeNode w h = (t.nodes.find? (NodeInfo.fits w h)).map NodeInfo.path ∧
    (t.findFreeNode w h = none ↔
      ∀ n ∈ t.nodes, ¬ (n.occupied = 0 ∧ n.w ≥ w ∧ n.h ≥ h)) := by
  refine ⟨findFreeNode_eq_find t w h, ?_⟩
  rw [findFreeNode_eq_find, Option.map_eq_none', List.find?_eq_none]
  constructor
  · intro hall n hn hfit
    exact hall n hn (by simp [NodeInfo.fits, hfit.1, hfit.2.1, hfit.2.2])
  · intro hall n hn hfit
    simp only [NodeInfo.fits, Bool.and_eq_true, decide_eq_true_eq] at hfit
    exact hall n hn ⟨hfit.1.1, hfit.1.2, hfit.2⟩

/-! ### Heap -/

theorem Heap.read_lt {h : Heap} {a : Nat} {t : Texture} (hr : Heap.read h a = some t) :
    a < h.length := by
  by_contra hlt
  have : h[a]? = none := List.getElem?_eq_none (by omega)
  simp [Heap.read, this] at hr

theorem Heap.length_modify (h : Heap) (a : Nat) (f : Texture → Texture) :
    (Heap.modify h a f).length = h.length := by
  unfold Heap.modify
  split <;> simp

theorem Heap.length_free (h : Heap) (a : Nat) : (Heap.free h a).length = h.length := by
  simp [Heap.free]

theorem Heap.read_modify (h : Heap) (a b : Nat) (f : Texture → Texture) :
    Heap.read (Heap.modify h a f) b =
      if b = a then (Heap.read h a).map f else Heap.read h b := by
  unfold Heap.modify
  cases hr : Heap.read h a with
  | none =>
    by_cases hb : b = a
    · subst hb; simp [hr]
    · simp [hb]
  | some t =>
    have hlt := Heap.read_lt hr
    by_cases hb : b = a
    · subst hb
      simp [Heap.read, List.getElem?_set, hlt]
    · have hne : a ≠ b := fun e => hb e.symm
      simp [Heap.read, List.getElem?_set, hb, hne]

theorem Heap.read_free (h : Heap) (a b : Nat) :
    Heap.read (Heap.free h a) b = if b = a then none else Heap.read h b := by
  by_cases hb : b = a
  · subst hb
    by_cases hlt : b < h.length
    · simp [Heap.read, Heap.free, List.getElem?_set, hlt]
    · simp [Heap.read, Heap.free, List.getElem?_set, hlt]
  · have hne : a ≠ b := fun e => hb e.symm
    simp [Heap.read, Heap.free, List.getElem?_set, hb, hne]

theorem Heap.read_append_new (h : Heap) (x : Option Texture) :
    Heap.read (h ++ [x]) h.length = x := by
  simp [Heap.read]

theorem Heap.read_append_old (h : Heap) (x : Option Texture) {b : Nat} (hb : b ≠ h.length) :
    Heap.read (h ++ [x]) b = Heap.read h b := by
  by_cases hlt : b < h.length
  · simp [Heap.read, List.getElem?_append_left hlt]
  · have h1 : h[b]? = none := List.getElem?_eq_none (by omega)
    have h2 : (h ++ [x])[b]? = none := List.getElem?_eq_none (by simp; omega)
    simp [Heap.read, h1, h2]

/-! ### Rectangles -/

theorem Rect.sep_symm {r s : Rect} (h : r.sep s) : s.sep r := by
  unfold Rect.sep at *
  omega

theorem Rect.sep_of_within {a b c : Rect} (hw : a.within b) (hs : b.sep c) : a.sep c := by
  unfold Rect.sep Rect.within at *
  omega

theorem Rect.not_overlaps_of_sep {r s : Rect} (h : r.sep s) : ¬ r.overlaps s := by
  rintro ⟨px, py, hr, hs⟩
  unfold Rect.sep Rect.contains at *
  omega

/-! ### The atlas tree -/

theorem SplitShape.under {f : NodeInfo} {w h : Int} {n c0 c1 : NodeInfo} (b : Bool)
    (hs : SplitShape f w h n c0 c1) :
    SplitShape (f.under b) w h (n.under b) (c0.under b) (c1.under b) := hs

theorem split_nodes : ∀ (t : AtlasNode) (w h : Int) (p : List Bool), t.FreeLeaves →
    t.findFreeNode w h = some p →
    ∃ (L1 L2 : List NodeInfo) (f n c0 c1 : NodeInfo),
      t.nodes = L1 ++ f :: L2 ∧ (t.splitAt p w h).nodes = L1 ++ n :: c0 :: c1 :: L2 ∧
      SplitShape f w h n c0 c1 ∧ (t.splitAt p w h).FreeLeaves ∧
      ((t.splitAt p w h).nodeAt p).getX = f.x ∧ ((t.splitAt p w h).nodeAt p).getY = f.y
  | .null, w, h, p, _, hfind => by simp [AtlasNode.findFreeNode] at hfind
  | .node occ x y nw nh c0 c1, w, h, p, hfl, hfind => by
    unfold AtlasNode.findFreeNode at hfind
    by_cases hfit : occ = 0 ∧ nw ≥ w ∧ nh ≥ h
    · rw [if_pos hfit] at hfind
      cases hfind
      obtain ⟨hleaf, -, -⟩ := hfl
      obtain ⟨rfl, rfl⟩ := hleaf hfit.1
      obtain ⟨rfl, hw, hh⟩ := hfit
      by_cases hd : nw - w > nh - h
      · refine ⟨[], [], ⟨[], 0, x, y, nw, nh⟩, ⟨[], 1, x, y, w, h⟩,
          ⟨[false], 0, x + w, y, nw - w, h⟩, ⟨[true], 0, x, y + h, nw, nh - h⟩, ?_⟩
        simp [AtlasNode.nodes, AtlasNode.splitAt, AtlasNode.splitNode, hd, AtlasNode.mk,
          NodeInfo.under, NodeInfo.rect, AtlasNode.FreeLeaves, AtlasNode.nodeAt,
          AtlasNode.getX, AtlasNode.getY, SplitShape, hw, hh]
      · refine ⟨[], [], ⟨[], 0, x, y, nw, nh⟩, ⟨[], 1, x, y, w, h⟩,
          ⟨[false], 0, x, y + h, w, nh - h⟩, ⟨[true], 0, x + w, y, nw - w, nh⟩, ?_⟩
        simp [AtlasNode.nodes, AtlasNode.splitAt, AtlasNode.splitNode, hd, AtlasNode.mk,
          NodeInfo.under, NodeInfo.rect, AtlasNode.FreeLeaves, AtlasNode.nodeAt,
          AtlasNode.getX, AtlasNode.getY, SplitShape, hw, hh]
    · rw [if_neg hfit] at hfind
      cases h0 : c0.findFreeNode w h with
      | some p0 =>
        rw [h0] at hfind
        cases hfind
        obtain ⟨L1, L2, f, n, d0, d1, hn, hn1, hsh, hfl1, hx, hy⟩ :=
          split_nodes c0 w h p0 hfl.2.1 h0
        refine ⟨⟨[], occ, x, y, nw, nh⟩ :: L1.map (NodeInfo.under false),
          L2.map (NodeInfo.under false) ++ c1.nodes.map (NodeInfo.under true),
          f.under false, n.under false, d0.under false, d1.under false, ?_, ?_,
          hsh.under false, ?_, ?_, ?_⟩
        · simp [AtlasNode.nodes, hn]
        · simp [AtlasNode.nodes, AtlasNode.splitAt, hn1]
        · refine ⟨fun ho => ?_, hfl1, hfl.2.2⟩
          have := (hfl.1 ho).1
          subst this
          simp [AtlasNode.findFreeNode] at h0
        · simpa [AtlasNode.splitAt, AtlasNode.nodeAt] using hx
        · simpa [AtlasNode.splitAt, AtlasNode.nodeAt] using hy
      | none =>
        rw [h0] at hfind
        cases h1 : c1.findFreeNode w h with
        | none => rw [h1] at hfind; cases hfind
        | some p1 =>
          rw [h1] at hfind
          cases hfind
          obtain ⟨L1, L2, f, n, d0, d1, hn, hn1, hsh, hfl1, hx, hy⟩ :=
            split_nodes c1 w h p1 hfl.2.2 h1
          refine ⟨⟨[], occ, x, y, nw, nh⟩ :: (c0.nodes.map (NodeInfo.under false) ++
              L1.map (NodeInfo.under true)),
            L2.map (NodeInfo.under true),
            f.under true, n.under true, d0.under true, d1.under true, ?_, ?_,
            hsh.under true, ?_, ?_, ?_⟩
          · simp [AtlasNode.nodes, hn]
          · simp [AtlasNode.nodes, AtlasNode.splitAt, hn1]
          · refine ⟨fun ho => ?_, hfl.2.1, hfl1⟩
            have := (hfl.1 ho).2
            subst this
            simp [AtlasNode.findFreeNode] at h1
          · simpa [AtlasNode.splitAt, AtlasNode.nodeAt] using hx
          · simpa [AtlasNode.splitAt, AtlasNode.nodeAt] using hy

theorem pairwise_replace {α : Type} {R : α → α → Prop} (hsymm : ∀ a b, R a b → R b a)
    {L1 L2 news : List α} {f : α} (hp : (L1 ++ f :: L2).Pairwise R)
    (hnews : news.Pairwise R) (hin : ∀ x ∈ news, ∀ y, R f y → R x y) :
    (L1 ++ (news ++ L2)).Pairwise R := by
  rw [List.pairwise_append, List.pairwise_cons] at hp
  obtain ⟨h1, ⟨hf2, h2⟩, h12⟩ := hp
  rw [List.pairwise_append, List.pairwise_append]
  refine ⟨h1, ⟨hnews, h2, fun x hx b hb => hin x hx b (hf2 b hb)⟩, fun a ha b hb => ?_⟩
  rcases List.mem_append.mp hb with hb | hb
  · exact hsymm _ _ (hin b hb a (hsymm _ _ (h12 a ha f (List.mem_cons_self _ _))))
  · exact h12 a ha b (List.mem_cons_of_mem _ hb)

theorem AtlasInv.place {t : AtlasNode} {placed : List Rect} {w h : Int} {p : List Bool}
    (hinv : AtlasInv t placed) (hw : 0 < w) (hh : 0 < h)
    (hfind : t.findFreeNode w h = some p) :
    AtlasInv (t.splitAt p w h)
      (placed ++ [⟨((t.splitAt p w h).nodeAt p).getX, ((t.splitAt p w h).nodeAt p).getY, w, h⟩]) := by
  obtain ⟨hfl, hpw, hplaced, hocc⟩ := hinv
  obtain ⟨L1, L2, f, n, c0, c1, hn, hn1, hsh, hfl1, hx, hy⟩ := split_nodes t w h p hfl hfind
  obtain ⟨hf0, hfw, hfh, hn1o, hnr, hc0o, hc1o, hgeo⟩ := hsh
  rw [hx, hy, ← hnr]
  have hsymm : ∀ a b : NodeInfo, a.rect.sep b.rect → b.rect.sep a.rect :=
    fun a b hab => Rect.sep_symm hab
  have hnf : n.rect.within f.rect := by
    rw [hnr]; simp only [Rect.within, NodeInfo.rect]; omega
  have hc0f : c0.rect.within f.rect := by
    rcases hgeo with ⟨h0, -⟩ | ⟨h0, -⟩ <;>
      (rw [h0]; simp only [Rect.within, NodeInfo.rect]; omega)
  have hc1f : c1.rect.within f.rect := by
    rcases hgeo with ⟨-, h1⟩ | ⟨-, h1⟩ <;>
      (rw [h1]; simp only [Rect.within, NodeInfo.rect]; omega)
  have hnews : [n, c0, c1].Pairwise (fun a b => a.rect.sep b.rect) := by
    simp only [List.pairwise_cons, List.mem_cons, List.mem_singleton, forall_eq_or_imp,
      forall_eq, List.not_mem_nil, false_implies, implies_true, List.Pairwise.nil, and_true]
    rcases hgeo with ⟨h0, h1⟩ | ⟨h0, h1⟩ <;>
      (rw [hnr, h0, h1]; simp only [Rect.sep]; omega)
  have hin : ∀ x ∈ [n, c0, c1], ∀ y : NodeInfo, f.rect.sep y.rect → x.rect.sep y.rect := by
    intro x hx y hfy
    simp only [List.mem_cons, List.mem_singleton, List.not_mem_nil, or_false] at hx
    rcases hx with rfl | rfl | rfl
    · exact Rect.sep_of_within hnf hfy
    · exact Rect.sep_of_within hc0f hfy
    · exact Rect.sep_of_within hc1f hfy
  have hold : ∀ m ∈ t.nodes, m.occupied ≠ 0 → m.rect.sep f.rect ∧ m ∈ L1 ++ L2 := by
    intro m hm hmo
    have hmf : m ≠ f := fun e => hmo (e ▸ hf0)
    have hfm : f ∈ t.nodes := by rw [hn]; simp
    refine ⟨List.Pairwise.forall (fun a b hab => hsymm a b hab) hpw hm hfm hmf, ?_⟩
    rw [hn] at hm
    simp only [List.mem_append, List.mem_cons] at hm ⊢
    rcases hm with hm | hm | hm
    · exact Or.inl hm
    · exact absurd hm hmf
    · exact Or.inr hm
  refine ⟨hfl1, ?_, ?_, ?_⟩
  · rw [hn1]
    rw [hn] at hpw
    have := pairwise_replace hsymm hpw hnews hin
    simpa using this
  · rw [List.pairwise_append]
    refine ⟨hplaced, List.pairwise_singleton _ _, fun r hr s hs => ?_⟩
    simp only [List.mem_singleton] at hs
    subst hs
    obtain ⟨m, hm, hmo, rfl⟩ := hocc r hr
    exact Rect.sep_symm (Rect.sep_of_within hnf (Rect.sep_symm (hold m hm hmo).1))
  · intro r hr
    rcases List.mem_append.mp hr with hr | hr
    · obtain ⟨m, hm, hmo, rfl⟩ := hocc r hr
      refine ⟨m, ?_, hmo, rfl⟩
      have := (hold m hm hmo).2
      rw [hn1]
      simp only [List.mem_append, List.mem_cons] at this ⊢
      tauto
    · simp only [List.mem_singleton] at hr
      subst hr
      exact ⟨n, by rw [hn1]; simp, by rw [hn1o]; decide, rfl⟩

theorem AtlasInv.fresh (x y w h : Int) : AtlasInv (AtlasNode.mk x y w h) [] := by
  refine ⟨?_, ?_, List.Pairwise.nil, fun r hr => absurd hr (List.not_mem_nil r)⟩
  · simp [AtlasNode.mk, AtlasNode.FreeLeaves]
  · simp [AtlasNode.mk, AtlasNode.nodes]

/-! ### What the calls do to the atlas -/

theorem createTexture_atlas {c c1 : TextureCache} {m : Bool} {w h : Int} {r : Option Nat}
    (hc : c.createTexture m w h = .ok (c1, r)) :
    (c1.atlas = c.atlas ∧ r = none) ∨
    (∃ p, c.atlas.tree.findFreeNode w h = some p ∧
      c1.atlas.tree = c.atlas.tree.splitAt p w h ∧ r = some c.heap.length ∧
      Heap.read c1.heap c.heap.length = some (c.placedTexture w h p)) := by
  unfold TextureCache.createTexture at hc
  simp only [scalerFactor, mul_one] at hc
  split at hc
  · cases hc; exact Or.inl ⟨rfl, rfl⟩
  · split at hc
    · cases hc; exact Or.inl ⟨rfl, rfl⟩
    · rename_i p hp
      right
      split at hc
      · cases hc
        refine ⟨p, hp, rfl, rfl, ?_⟩
        simp only [Heap.read_modify, if_true, Heap.read_append_new, Option.map_some']
        rfl
      · split at hc
        · cases hc
        · split at hc
          · cases hc
          · rename_i tl _ _ _
            cases hc
            refine ⟨p, hp, rfl, rfl, ?_⟩
            simp only [Heap.read_modify, if_true, Heap.read_append_new, Option.map_some']
            split
            · rename_i htl
              rw [← htl]
              simp only [Heap.read_append_new, Option.map_some']
              rfl
            · rfl

theorem promote_frame (c : TextureCache) (prev : Option Nat) (a : Nat) (t : Texture) :
    (c.promote prev a t).atlas = c.atlas ∧ (c.promote prev a t).maxTexSz = c.maxTexSz ∧
    (c.promote prev a t).heap.length = c.heap.length := by
  cases prev with
  | none => exact ⟨rfl, rfl, rfl⟩
  | some p => exact ⟨rfl, rfl, by simp [TextureCache.promote, Heap.length_modify]⟩

theorem findCached_frame {c : TextureCache} {key : Int} :
    ∀ (fuel : Nat) (prev t : Option Nat) {c1 : TextureCache} {r : Option Nat},
      c.findCached key fuel prev t = .ok (c1, r) →
      c1.atlas = c.atlas ∧ c1.maxTexSz = c.maxTexSz ∧ c1.heap.length = c.heap.length ∧
      (∀ a, r = some a → a < c.heap.length) ∧ (r = none → c1 = c)
  | fuel, _, none, c1, r, hf => by
    cases fuel <;>
      (simp only [TextureCache.findCached] at hf; cases hf; simp)
  | 0, _, some a, c1, r, hf => by
    simp [TextureCache.findCached] at hf
  | fuel + 1, prev, some a, c1, r, hf => by
    simp only [TextureCache.findCached] at hf
    split at hf
    · cases hf
    · rename_i t ht
      split at hf
      · cases hf
        obtain ⟨h1, h2, h3⟩ := promote_frame c prev a t
        exact ⟨h1, h2, h3, fun b hb => by cases hb; exact Heap.read_lt ht,
          fun hn => by cases hn⟩
      · exact findCached_frame fuel (some a) t.next hf

theorem getCachedTexture_atlas {c c1 : TextureCache} {m : Bool} {w h key : Int}
    {r : Option Nat} (hc : c.getCachedTexture m w h key = .ok (c1, r)) :
    (c1.atlas = c.atlas ∧ createdBy c c1 r = none) ∨
    (∃ p, c.atlas.tree.findFreeNode w h = some p ∧
      c1.atlas.tree = c.atlas.tree.splitAt p w h ∧ r = some c.heap.length ∧
      Heap.read c1.heap c.heap.length = some { c.placedTexture w h p with key := key }) := by
  unfold TextureCache.getCachedTexture at hc
  split at hc
  · cases hc
  · rename_i c2 a hf
    cases hc
    obtain ⟨hat, -, -, hlt, -⟩ := findCached_frame _ _ _ hf
    left
    refine ⟨hat, ?_⟩
    have := hlt a rfl
    simp only [createdBy]
    rw [if_neg (by omega)]
  · split at hc
    · cases hc
    · rename_i c2 hcr
      cases hc
      rcases createTexture_atlas hcr with ⟨hat, -⟩ | ⟨p, -, -, hr, -⟩
      · exact Or.inl ⟨hat, rfl⟩
      · cases hr
    · rename_i c2 a hcr
      cases hc
      rcases createTexture_atlas hcr with ⟨-, hr⟩ | ⟨p, hp, htree, hr, hread⟩
      · cases hr
      · cases hr
        right
        refine ⟨p, hp, htree, rfl, ?_⟩
        simp only [Heap.read_modify, if_true, hread, Option.map_some']

theorem unlink_atlas {c : TextureCache} {texture : Nat} :
    ∀ (fuel : Nat) (t : Option Nat) {c1 : TextureCache},
      c.unlink texture fuel t = .ok c1 → c1.atlas = c.atlas ∧ c1.maxTexSz = c.maxTexSz
  | fuel, none, c1, hf => by
    cases fuel <;> (simp only [TextureCache.unlink] at hf; cases hf; simp)
  | 0, some a, c1, hf => by simp [TextureCache.unlink] at hf
  | fuel + 1, some a, c1, hf => by
    simp only [TextureCache.unlink] at hf
    split at hf
    · cases hf
    · rename_i pt hpt
      split at hf
      · split at hf
        · cases hf
        · cases hf; exact ⟨rfl, rfl⟩
      · exact unlink_atlas fuel pt.next hf

theorem destroyTexture_atlas {c c1 : TextureCache} {texture : Nat}
    (hd : c.destroyTexture texture = .ok c1) :
    c1.atlas = c.atlas ∧ c1.maxTexSz = c.maxTexSz := by
  unfold TextureCache.destroyTexture at hd
  split at hd
  · cases hd
  · split at hd
    · cases hd
      split <;> exact ⟨rfl, rfl⟩
    · split at hd
      · cases hd
      · rename_i c2 hu
        cases hd
        have := unlink_atlas _ _ hu
        exact this

theorem step_atlas {c c1 : TextureCache} {op : Op} {r : Option Nat}
    (hs : c.step op = .ok (c1, r)) (hnf : op.isFlush = false)
    (hpos : op.sizesPositive = true) :
    (c1.atlas.tree = c.atlas.tree ∧ createdBy c c1 r = none) ∨
    (∃ w h p t, 0 < w ∧ 0 < h ∧ c.atlas.tree.findFreeNode w h = some p ∧
      c1.atlas.tree = c.atlas.tree.splitAt p w h ∧ createdBy c c1 r = some t ∧
      t.rect = ⟨((c.atlas.tree.splitAt p w h).nodeAt p).getX,
                ((c.atlas.tree.splitAt p w h).nodeAt p).getY, w, h⟩) := by
  cases op with
  | getCachedTexture m w h key =>
    simp only [Op.sizesPositive, Bool.and_eq_true, decide_eq_true_eq] at hpos
    rcases getCachedTexture_atlas hs with ⟨hat, hcr⟩ | ⟨p, hp, htree, hr, hread⟩
    · exact Or.inl ⟨by rw [hat], hcr⟩
    · right
      refine ⟨w, h, p, { c.placedTexture w h p with key := key }, hpos.1, hpos.2, hp, htree,
        ?_, rfl⟩
      rw [hr]
      simp only [createdBy, le_refl, if_true]
      exact hread
  | createTexture m w h =>
    simp only [Op.sizesPositive, Bool.and_eq_true, decide_eq_true_eq] at hpos
    rcases createTexture_atlas hs with ⟨hat, hr⟩ | ⟨p, hp, htree, hr, hread⟩
    · exact Or.inl ⟨by rw [hat], by rw [hr]; rfl⟩
    · right
      refine ⟨w, h, p, c.placedTexture w h p, hpos.1, hpos.2, hp, htree, ?_, rfl⟩
      rw [hr]
      simp only [createdBy, le_refl, if_true]
      exact hread
  | destroyTexture t =>
    simp only [TextureCache.step] at hs
    split at hs
    · cases hs
    · rename_i c2 hd
      cases hs
      exact Or.inl ⟨by rw [(destroyTexture_atlas hd).1], rfl⟩
  | flush tex => simp [Op.isFlush] at hnf

theorem run_placed : ∀ (ops : List Op) (c c2 : TextureCache) (log : List Texture)
    (placed : List Rect), AtlasInv c.atlas.tree placed → c.run ops = .ok (c2, log) →
    (∀ op ∈ ops, op.isFlush = false) → (∀ op ∈ ops, op.sizesPositive = true) →
    AtlasInv c2.atlas.tree (placed ++ log.map Texture.rect)
  | [], c, c2, log, placed, hinv, hrun, _, _ => by
    simp only [TextureCache.run] at hrun
    cases hrun
    simpa using hinv
  | op :: ops, c, c2, log, placed, hinv, hrun, hnf, hpos => by
    simp only [TextureCache.run] at hrun
    split at hrun
    · cases hrun
    · rename_i c1 r hs
      split at hrun
      · cases hrun
      · rename_i c3 log1 hrun1
        cases hrun
        have hnf1 : ∀ o ∈ ops, o.isFlush = false := fun o ho => hnf o (List.mem_cons_of_mem _ ho)
        have hpos1 : ∀ o ∈ ops, o.sizesPositive = true :=
          fun o ho => hpos o (List.mem_cons_of_mem _ ho)
        rcases step_atlas hs (hnf op (List.mem_cons_self _ _)) (hpos op (List.mem_cons_self _ _))
          with ⟨htree, hcr⟩ | ⟨w, h, p, t, hw, hh, hp, htree, hcr, hrect⟩
        · rw [hcr]
          rw [← htree] at hinv
          simpa using run_placed ops c1 c2 log1 placed hinv hrun1 hnf1 hpos1
        · rw [hcr]
          have hinv1 := AtlasInv.place hinv hw hh hp
          rw [← hrect, ← htree] at hinv1
          have := run_placed ops c1 c2 log1 _ hinv1 hrun1 hnf1 hpos1
          simpa using this

/-- C1: on a freshly created atlas, for every sequence of calls without a
flush (`getCachedTexture`, `createTexture` and `destroyTexture` in any order)
whose requested sizes are positive, the placement rectangles
`[texX, texX + texW) x [texY, texY + texH)` of any two of the textures created
on the way share no texel, whether or not some of them were destroyed in
between. -/
theorem placements_disjoint (c0 c : TextureCache) (tex : Nat) (sz : Int) (ops : List Op)
    (log : List Texture) (hfresh : c0.atlas = Atlas.new tex sz)
    (hrun : c0.run ops = .ok (c, log))
    (hnf : ∀ op ∈ ops, op.isFlush = false)
    (hpos : ∀ op ∈ ops, op.sizesPositive = true) :
    log.Pairwise (fun t1 t2 => ¬ t1.rect.overlaps t2.rect) := by
  have h0 : AtlasInv c0.atlas.tree [] := by
    rw [hfresh]
    exact AtlasInv.fresh 0 0 sz sz
  have h1 := run_placed ops c0 c log [] h0 hrun hnf hpos
  have h2 : (log.map Texture.rect).Pairwise Rect.sep := by simpa using h1.2.2.1
  rw [List.pairwise_map] at h2
  exact h2.imp (fun hs => Rect.not_overlaps_of_sep hs)

theorem placements_disjoint_witness :
    scenarioLog.length = 3 ∧
    scenarioLog.Pairwise (fun t1 t2 => ¬ t1.rect.overlaps t2.rect) :=
  ⟨by decide,
   placements_disjoint (TextureCache.init 1) scenarioState 1 4096 scenarioOps scenarioLog rfl
     rfl (by decide) (by decide)⟩

/-! ### The linked list -/

theorem Heap.Seg.frame {h h1 : Heap} : ∀ {l : List Nat} {p q : Option Nat},
    (∀ a ∈ l, ∀ t, Heap.read h a = some t →
      ∃ t1, Heap.read h1 a = some t1 ∧ t1.next = t.next) →
    Heap.Seg h p l q → Heap.Seg h1 p l q
  | [], _, _, _, hs => hs
  | a :: l, p, q, hf, hs => by
    obtain ⟨hp, t, ht, hrest⟩ := hs
    obtain ⟨t1, ht1, hn⟩ := hf a (List.mem_cons_self _ _) t ht
    refine ⟨hp, t1, ht1, ?_⟩
    rw [hn]
    exact Heap.Seg.frame (fun b hb => hf b (List.mem_cons_of_mem _ hb)) hrest

theorem Heap.Seg.frame_eq {h h1 : Heap} {l : List Nat} {p q : Option Nat}
    (hf : ∀ a ∈ l, Heap.read h1 a = Heap.read h a) (hs : Heap.Seg h p l q) :
    Heap.Seg h1 p l q :=
  Heap.Seg.frame (fun a ha t ht => ⟨t, by rw [hf a ha, ht], rfl⟩) hs

theorem Heap.Seg.append {h : Heap} : ∀ {A B : List Nat} {p q : Option Nat},
    Heap.Seg h p (A ++ B) q ↔ ∃ m, Heap.Seg h p A m ∧ Heap.Seg h m B q
  | [], B, p, q => by
    constructor
    · intro hs; exact ⟨p, rfl, hs⟩
    · rintro ⟨m, hm, hs⟩
      have : p = m := hm
      subst this
      exact hs
  | a :: A, B, p, q => by
    constructor
    · rintro ⟨hp, t, ht, hrest⟩
      obtain ⟨m, h1, h2⟩ := Heap.Seg.append.mp hrest
      exact ⟨m, ⟨hp, t, ht, h1⟩, h2⟩
    · rintro ⟨m, ⟨hp, t, ht, h1⟩, h2⟩
      exact ⟨hp, t, ht, Heap.Seg.append.mpr ⟨m, h1, h2⟩⟩

theorem Heap.Seg.allocated {h : Heap} : ∀ {l : List Nat} {p q : Option Nat},
    Heap.Seg h p l q → ∀ a ∈ l, ∃ t, Heap.read h a = some t
  | [], _, _, _, a, ha => absurd ha (List.not_mem_nil a)
  | b :: l, p, q, hs, a, ha => by
    obtain ⟨-, t, ht, hrest⟩ := hs
    rcases List.mem_cons.mp ha with rfl | ha
    · exact ⟨t, ht⟩
    · exact Heap.Seg.allocated hrest a ha

theorem Heap.Seg.head_eq {h : Heap} {l : List Nat} {p q : Option Nat}
    (hs : Heap.Seg h p l q) : p = (l.head?).or q := by
  cases l with
  | nil => exact hs
  | cons a l => exact hs.1

theorem nodup_bounded_length {l : List Nat} {n : Nat} (hnd : l.Nodup)
    (hb : ∀ a ∈ l, a < n) : l.length ≤ n := by
  have hsub : l ⊆ List.range n := fun a ha => List.mem_range.mpr (hb a ha)
  simpa using (List.subperm_of_subset hnd hsub).length_le

theorem Heap.walk_of_seg {h : Heap} : ∀ {l : List Nat} {p : Option Nat} {fuel : Nat},
    Heap.Seg h p l none → l.length ≤ fuel → Heap.walk h fuel p = l
  | [], p, fuel, hs, _ => by
    have : p = none := hs
    subst this
    cases fuel <;> rfl
  | a :: l, p, 0, _, hf => by simp at hf
  | a :: l, p, fuel + 1, hs, hf => by
    obtain ⟨hp, t, ht, hrest⟩ := hs
    subst hp
    simp only [Heap.walk, ht]
    rw [Heap.walk_of_seg hrest (by simpa using hf)]

theorem TextureCache.Linked.length_le {c : TextureCache} {l : List Nat} (hl : c.Linked l) :
    l.length ≤ c.heap.length :=
  nodup_bounded_length hl.2.1 (fun a ha => by
    obtain ⟨t, ht⟩ := Heap.Seg.allocated hl.1 a ha
    exact Heap.read_lt ht)

theorem TextureCache.Holds.entries_eq {c : TextureCache} {L : List (Nat × Texture)}
    (hh : c.Holds L) : c.entries = L := by
  obtain ⟨hl, hd⟩ := hh
  unfold TextureCache.entries
  rw [Heap.walk_of_seg hl.1 hl.length_le, List.filterMap_map]
  clear hl
  induction L with
  | nil => rfl
  | cons e L ih =>
    have he := hd e (List.mem_cons_self _ _)
    rw [List.filterMap_cons]
    simp only [Function.comp]
    cases hr : Heap.read c.heap e.1 with
    | none => simp [hr] at he
    | some t =>
      simp only [hr, Option.map_some', Option.some.injEq] at he
      simp only [Option.map_some', he]
      rw [ih (fun x hx => hd x (List.mem_cons_of_mem _ hx))]

theorem init_holds (tex : Nat) : (TextureCache.init tex).Holds [] := by
  refine ⟨⟨rfl, List.nodup_nil, rfl⟩, fun e he => absurd he (List.not_mem_nil e)⟩

theorem findCached_hit {c : TextureCache} {key : Int} {a : Nat} {ta : Texture}
    (ha : Heap.read c.heap a = some ta) (hk : ta.key = key) :
    ∀ (M : List Nat) (fuel : Nat) (prev t : Option Nat), Heap.Seg c.heap t M (some a) →
      (∀ b ∈ M, ∀ tb, Heap.read c.heap b = some tb → tb.key ≠ key) → M.length < fuel →
      c.findCached key fuel prev t = .ok (c.promote ((M.getLast?).or prev) a ta, some a)
  | [], 0, _, _, _, _, hf => by simp at hf
  | [], fuel + 1, prev, t, hs, _, _ => by
    have : t = some a := hs
    subst this
    simp [TextureCache.findCached, ha, hk]
  | b :: M, 0, _, _, _, _, hf => by simp at hf
  | b :: M, fuel + 1, prev, t, hs, hne, hf => by
    obtain ⟨hp, tb, htb, hrest⟩ := hs
    subst hp
    have hkb := hne b (List.mem_cons_self _ _) tb htb
    simp only [TextureCache.findCached, htb, hkb, if_false]
    rw [findCached_hit ha hk M fuel (some b) tb.next hrest
      (fun x hx => hne x (List.mem_cons_of_mem _ hx)) (by simpa using hf)]
    congr 3
    rw [List.getLast?_cons]
    cases M.getLast? <;> rfl

theorem findCached_miss {c : TextureCache} {key : Int} :
    ∀ (M : List Nat) (fuel : Nat) (prev t : Option Nat), Heap.Seg c.heap t M none →
      (∀ b ∈ M, ∀ tb, Heap.read c.heap b = some tb → tb.key ≠ key) → M.length ≤ fuel →
      c.findCached key fuel prev t = .ok (c, none)
  | [], fuel, prev, t, hs, _, _ => by
    have : t = none := hs
    subst this
    cases fuel <;> rfl
  | b :: M, 0, _, _, _, _, hf => by simp at hf
  | b :: M, fuel + 1, prev, t, hs, hne, hf => by
    obtain ⟨hp, tb, htb, hrest⟩ := hs
    subst hp
    have hkb := hne b (List.mem_cons_self _ _) tb htb
    simp only [TextureCache.findCached, htb, hkb, if_false]
    exact findCached_miss M fuel (some b) tb.next hrest
      (fun x hx => hne x (List.mem_cons_of_mem _ hx)) (by simpa using hf)

theorem promote_data (c : TextureCache) (prev : Option Nat) (a : Nat) (t : Texture) (b : Nat) :
    (Heap.read (c.promote prev a t).heap b).map Texture.data =
      (Heap.read c.heap b).map Texture.data := by
  cases prev with
  | none => rfl
  | some p =>
    simp only [TextureCache.promote, Heap.read_modify]
    by_cases hba : b = a
    · subst hba
      by_cases hbp : b = p
      · subst hbp
        cases Heap.read c.heap b <;> simp [Texture.data]
      · simp only [if_true, hbp, if_false]
        cases Heap.read c.heap b <;> simp [Texture.data]
    · simp only [hba, if_false]
      by_cases hbp : b = p
      · subst hbp
        cases Heap.read c.heap b <;> simp [Texture.data]
      · simp only [hbp, if_false]

theorem promote_linked {c : TextureCache} {A R : List Nat} {a p : Nat} {ta : Texture}
    (hl : c.Linked (A ++ p :: a :: R)) (ha : Heap.read c.heap a = some ta) :
    (c.promote (some p) a ta).Linked (a :: (A ++ p :: R)) := by
  obtain ⟨hseg, hnd, htail⟩ := hl
  obtain ⟨m, hA, hp, tp, htp, ha', ta', hta', hR⟩ := Heap.Seg.append.mp hseg
  rw [ha] at hta'
  cases hta'
  have hnd' : (a :: (A ++ p :: R)).Nodup := by
    have hperm : (A ++ p :: a :: R).Perm (a :: (A ++ p :: R)) := by
      have h1 : (A ++ p :: a :: R) = (A ++ [p]) ++ a :: R := by simp
      have h2 : (A ++ p :: R) = (A ++ [p]) ++ R := by simp
      rw [h1, h2]
      exact List.perm_middle
    exact hperm.nodup_iff.mp hnd
  have hap : a ≠ p := by
    intro e
    subst e
    simp at hnd'
  have haA : a ∉ A := fun hm => by simp [hm] at hnd'
  have haR : a ∉ R := fun hm => by simp [hm] at hnd'
  have hpA : p ∉ A := fun hm => by
    have := (List.nodup_cons.mp hnd').2
    rw [List.nodup_append] at this
    exact this.2.2 hm (List.mem_cons_self _ _)
  have hpR : p ∉ R := fun hm => by
    have := (List.nodup_cons.mp hnd').2
    rw [List.nodup_append] at this
    simp [hm] at this
  have hread : ∀ b, b ≠ a → b ≠ p →
      Heap.read (c.promote (some p) a ta).heap b = Heap.read c.heap b := by
    intro b hba hbp
    simp [TextureCache.promote, Heap.read_modify, hba, hbp]
  have hreada : Heap.read (c.promote (some p) a ta).heap a =
      some { ta with next := c._texturesListHead } := by
    simp [TextureCache.promote, Heap.read_modify, hap, ha]
  have hreadp : Heap.read (c.promote (some p) a ta).heap p =
      some { tp with next := ta.next } := by
    have hpa : p ≠ a := fun e => hap e.symm
    simp [TextureCache.promote, Heap.read_modify, hpa, htp]
  refine ⟨?_, hnd', ?_⟩
  · refine ⟨rfl, _, hreada, ?_⟩
    refine Heap.Seg.append.mpr ⟨m, ?_, hp, _, hreadp, ?_⟩
    · exact Heap.Seg.frame_eq (fun b hb => hread b (fun e => haA (e ▸ hb))
        (fun e => hpA (e ▸ hb))) hA
    · exact Heap.Seg.frame_eq (fun b hb => hread b (fun e => haR (e ▸ hb))
        (fun e => hpR (e ▸ hb))) hR
  · show (if some a = c._texturesListTail then some p else c._texturesListTail) = _
    rw [htail]
    cases R with
    | nil =>
      have h1 : (A ++ [p, a]).getLast? = some a := by
        rw [show A ++ [p, a] = (A ++ [p]) ++ [a] by simp, List.getLast?_concat]
      have h2 : (a :: (A ++ [p])).getLast? = some p := by
        rw [show a :: (A ++ [p]) = (a :: A) ++ [p] by simp, List.getLast?_concat]
      rw [h1, h2]
      simp
    | cons r R =>
      have h1 : (A ++ p :: a :: r :: R).getLast? = (r :: R).getLast? := by
        rw [show A ++ p :: a :: r :: R = (A ++ [p, a]) ++ (r :: R) by simp,
          List.getLast?_append_of_ne_nil _ (by simp)]
      have h2 : (a :: (A ++ p :: r :: R)).getLast? = (r :: R).getLast? := by
        rw [show a :: (A ++ p :: r :: R) = (a :: A ++ [p]) ++ (r :: R) by simp,
          List.getLast?_append_of_ne_nil _ (by simp)]
      rw [h1, h2]
      have hne : some a ≠ (r :: R).getLast? := by
        intro e
        have := List.mem_of_getLast?_eq_some e.symm
        exact haR this
      rw [if_neg hne]

theorem Heap.Seg.nil_of_none {h : Heap} {l : List Nat} {q : Option Nat}
    (hs : Heap.Seg h none l q) : l = [] := by
  cases l with
  | nil => rfl
  | cons a l => exact absurd hs.1 (by simp)

theorem TextureCache.Linked.lt {c : TextureCache} {l : List Nat} (hl : c.Linked l) :
    ∀ a ∈ l, a < c.heap.length := fun a ha => by
  obtain ⟨t, ht⟩ := Heap.Seg.allocated hl.1 a ha
  exact Heap.read_lt ht

theorem TextureCache.Linked.grow_heap {c : TextureCache} {l : List Nat} (hl : c.Linked l)
    (x : Option Texture) : TextureCache.Linked { c with heap := c.heap ++ [x] } l := by
  refine ⟨Heap.Seg.frame_eq (fun a ha => ?_) hl.1, hl.2.1, hl.2.2⟩
  exact Heap.read_append_old _ _ (Nat.ne_of_lt (hl.lt a ha))

theorem createTexture_fail (c : TextureCache) (m : Bool) (w h : Int)
    (hf : m = false ∨ c.atlas.tree.findFreeNode w h = none) :
    ∃ x, c.createTexture m w h = .ok ({ c with heap := c.heap ++ [x] }, none) := by
  unfold TextureCache.createTexture
  simp only [scalerFactor, mul_one]
  by_cases hm : m = false
  · exact ⟨none, by rw [if_pos hm]⟩
  · rcases hf with hf | hf
    · exact absurd hf hm
    · rw [if_neg hm, hf]
      exact ⟨_, rfl⟩

theorem createTexture_success {c : TextureCache} {l : List Nat} (hl : c.Linked l)
    {w h : Int} {p : List Bool} (hp : c.atlas.tree.findFreeNode w h = some p) :
    ∃ c1, c.createTexture true w h = .ok (c1, some c.heap.length) ∧
      c1.Linked (l ++ [c.heap.length]) ∧
      Heap.read c1.heap c.heap.length = some (c.placedTexture w h p) ∧
      (∀ b, b ≠ c.heap.length →
        (Heap.read c1.heap b).map Texture.data = (Heap.read c.heap b).map Texture.data) ∧
      c1.atlas = { c.atlas with tree := c.atlas.tree.splitAt p w h } ∧
      c1.maxTexSz = c.maxTexSz ∧ c1.heap.length = c.heap.length + 1 := by
  obtain ⟨hseg, hnd, htail⟩ := hl
  unfold TextureCache.createTexture
  simp only [scalerFactor, mul_one, hp, Bool.true_eq_false, if_false]
  cases hhd : c._texturesListHead with
  | none =>
    rw [hhd] at hseg
    have hnil := Heap.Seg.nil_of_none hseg
    subst hnil
    refine ⟨_, rfl, ⟨?_, by simp, rfl⟩, ?_, ?_, rfl, rfl, ?_⟩
    · refine ⟨rfl, c.placedTexture w h p, ?_, rfl⟩
      simp only [Heap.read_modify, if_true, Heap.read_append_new, Option.map_some']
      rfl
    · simp only [Heap.read_modify, if_true, Heap.read_append_new, Option.map_some']
      rfl
    · intro b hb
      simp only [Heap.read_modify, hb, if_false]
      rw [Heap.read_append_old _ _ hb]
    · simp [Heap.length_modify]
  | some hd =>
    rw [hhd] at hseg
    have hne : l ≠ [] := by
      intro e
      subst e
      exact absurd hseg (by simp [Heap.Seg])
    obtain ⟨l1, tl, rfl⟩ : ∃ l1 tl, l = l1 ++ [tl] := by
      rcases List.eq_nil_or_concat l with e | ⟨l1, tl, e⟩
      · exact absurd e hne
      · exact ⟨l1, tl, by simpa using e⟩
    rw [List.getLast?_concat] at htail
    obtain ⟨mid, hl1, hmid, ttl, httl, hnext⟩ := Heap.Seg.append.mp hseg
    have hnone : ttl.next = none := hnext
    have htl_lt : tl < c.heap.length := Heap.read_lt httl
    have htl_ne : tl ≠ c.heap.length := Nat.ne_of_lt htl_lt
    have hn_ne : c.heap.length ≠ tl := fun e => htl_ne e.symm
    have hlt : ∀ a ∈ l1 ++ [tl], a < c.heap.length := fun a ha => by
      obtain ⟨t, ht⟩ := Heap.Seg.allocated hseg a ha
      exact Heap.read_lt ht
    simp only [htail, Heap.read_append_old _ _ htl_ne, httl]
    refine ⟨_, rfl, ⟨?_, ?_, ?_⟩, ?_, ?_, rfl, rfl, ?_⟩
    · rw [show l1 ++ [tl] ++ [c.heap.length] = l1 ++ [tl, c.heap.length] by simp]
      refine Heap.Seg.append.mpr ⟨mid, ?_, hmid, { ttl with next := some c.heap.length }, ?_,
        rfl, c.placedTexture w h p, ?_, rfl⟩
      · refine Heap.Seg.frame_eq (fun b hb => ?_) hl1
        have hblt := hlt b (List.mem_append_left _ hb)
        have hbn : b ≠ c.heap.length := Nat.ne_of_lt hblt
        have hbtl : b ≠ tl := by
          intro e
          subst e
          rw [List.nodup_append] at hnd
          exact hnd.2.2 hb (List.mem_singleton_self _)
        simp only [Heap.read_modify, hbn, hbtl, if_false]
        exact Heap.read_append_old _ _ hbn
      · simp only [Heap.read_modify, htl_ne, if_false, if_true,
          Heap.read_append_old _ _ htl_ne, httl, Option.map_some']
      · simp only [Heap.read_modify, hn_ne, if_false, if_true, Heap.read_append_new,
          Option.map_some']
        rfl
    · rw [List.nodup_append]
      refine ⟨hnd, List.nodup_singleton _, ?_⟩
      intro a ha hb
      rw [List.mem_singleton] at hb
      subst hb
      exact absurd (hlt _ ha) (Nat.lt_irrefl _)
    · simp
    · simp only [Heap.read_modify, hn_ne, if_false, if_true, Heap.read_append_new,
        Option.map_some']
      rfl
    · intro b hb
      simp only [Heap.read_modify, hb, if_false]
      by_cases hbtl : b = tl
      · subst hbtl
        simp only [if_true, Heap.read_append_old _ _ hb, httl, Option.map_some']
        rfl
      · simp only [hbtl, if_false]
        rw [Heap.read_append_old _ _ hb]
    · simp [Heap.length_modify]

theorem Heap.Seg.next_mem {h : Heap} : ∀ {M : List Nat} {t q : Option Nat},
    Heap.Seg h t M q → ∀ b ∈ M, ∀ tb, Heap.read h b = some tb →
      (∃ x ∈ M, tb.next = some x) ∨ tb.next = q
  | [], _, _, _, b, hb, _, _ => absurd hb (List.not_mem_nil b)
  | x :: M, t, q, hs, b, hb, tb, htb => by
    obtain ⟨-, tx, htx, hrest⟩ := hs
    by_cases hbx : b = x
    · subst hbx
      rw [htx] at htb
      cases htb
      cases M with
      | nil => exact Or.inr hrest
      | cons y M => exact Or.inl ⟨y, by simp, hrest.1⟩
    · have hbM : b ∈ M := by
        rcases List.mem_cons.mp hb with e | e
        · exact absurd e hbx
        · exact e
      rcases Heap.Seg.next_mem hrest b hbM tb htb with ⟨y, hy, e⟩ | e
      · exact Or.inl ⟨y, List.mem_cons_of_mem _ hy, e⟩
      · exact Or.inr e

theorem unlink_found {c : TextureCache} {a p : Nat} {tp ta : Texture}
    (hp : Heap.read c.heap p = some tp) (hpn : tp.next = some a)
    (ha : Heap.read c.heap a = some ta) :
    ∀ (M : List Nat) (fuel : Nat) (t : Option Nat), Heap.Seg c.heap t M (some p) →
      (∀ b ∈ M, ∀ tb, Heap.read c.heap b = some tb → tb.next ≠ some a) → M.length < fuel →
      c.unlink a fuel t =
        .ok { c with heap := Heap.modify c.heap p (fun r => { r with next := ta.next }),
                     _texturesListTail :=
                       if some a = c._texturesListTail then some p
                       else c._texturesListTail }
  | [], 0, _, _, _, hf => by simp at hf
  | [], fuel + 1, t, hs, _, _ => by
    have : t = some p := hs
    subst this
    simp [TextureCache.unlink, hp, hpn, ha]
  | b :: M, 0, _, _, _, hf => by simp at hf
  | b :: M, fuel + 1, t, hs, hne, hf => by
    obtain ⟨ht, tb, htb, hrest⟩ := hs
    subst ht
    have hnb := hne b (List.mem_cons_self _ _) tb htb
    simp only [TextureCache.unlink, htb, hnb, if_false]
    exact unlink_found hp hpn ha M fuel tb.next hrest
      (fun x hx => hne x (List.mem_cons_of_mem _ hx)) (by simpa using hf)

theorem unlink_none {c : TextureCache} {a : Nat} :
    ∀ (M : List Nat) (fuel : Nat) (t : Option Nat), Heap.Seg c.heap t M none →
      (∀ b ∈ M, ∀ tb, Heap.read c.heap b = some tb → tb.next ≠ some a) → M.length ≤ fuel →
      c.unlink a fuel t = .ok c
  | [], fuel, t, hs, _, _ => by
    have : t = none := hs
    subst this
    cases fuel <;> rfl
  | b :: M, 0, _, _, _, hf => by simp at hf
  | b :: M, fuel + 1, t, hs, hne, hf => by
    obtain ⟨ht, tb, htb, hrest⟩ := hs
    subst ht
    have hnb := hne b (List.mem_cons_self _ _) tb htb
    simp only [TextureCache.unlink, htb, hnb, if_false]
    exact unlink_none M fuel tb.next hrest
      (fun x hx => hne x (List.mem_cons_of_mem _ hx)) (by simpa using hf)

theorem filter_ne_of_not_mem {l : List Nat} {a : Nat} (h : a ∉ l) :
    l.filter (fun b => decide (b ≠ a)) = l := by
  rw [List.filter_eq_self]
  intro b hb
  simp only [ne_eq, decide_not, Bool.not_eq_true', decide_eq_false_iff_not]
  exact fun e => h (e ▸ hb)

theorem destroyTexture_linked {c : TextureCache} {l : List Nat} {a : Nat} {ta : Texture}
    (hl : c.Linked l) (ha : Heap.read c.heap a = some ta) :
    ∃ c1, c.destroyTexture a = .ok c1 ∧ c1.Linked (l.filter (fun b => decide (b ≠ a))) ∧
      (∀ b, b ≠ a → Heap.read c1.heap b = Heap.read c.heap b ∨
        ((Heap.read c1.heap b).map Texture.data = (Heap.read c.heap b).map Texture.data ∧
          b ∈ l ∧ a ∈ l)) ∧
      Heap.read c1.heap a = none ∧
      c1.atlas = c.atlas ∧ c1.maxTexSz = c.maxTexSz ∧ c1.heap.length = c.heap.length := by
  obtain ⟨hseg, hnd, htail⟩ := hl
  unfold TextureCache.destroyTexture
  simp only [ha]
  by_cases hmem : a ∈ l
  · obtain ⟨A, R, rfl⟩ := List.append_of_mem hmem
    have haA : a ∉ A := fun hm => by
      rw [List.nodup_append] at hnd
      exact hnd.2.2 hm (List.mem_cons_self _ _)
    have haR : a ∉ R := fun hm => by
      rw [List.nodup_append, List.nodup_cons] at hnd
      exact hnd.2.1.1 hm
    have hfilter : (A ++ a :: R).filter (fun b => decide (b ≠ a)) = A ++ R := by
      rw [List.filter_append, List.filter_cons, filter_ne_of_not_mem haA,
        filter_ne_of_not_mem haR]
      simp
    rw [hfilter]
    obtain ⟨m, hA, hm, ta', hta', hR⟩ := Heap.Seg.append.mp hseg
    rw [ha] at hta'
    cases hta'
    have htailR : ∀ r R', R = r :: R' → some a ≠ c._texturesListTail := by
      intro r R' e
      subst e
      rw [htail, List.getLast?_append_of_ne_nil _ (by simp), List.getLast?_cons_cons]
      intro e
      exact haR (List.mem_of_getLast?_eq_some e.symm)
    cases A with
    | nil =>
      have hhd : c._texturesListHead = some a := hA.trans hm
      simp only [hhd, if_true]
      refine ⟨_, rfl, ⟨?_, ?_, ?_⟩, ?_, ?_, ?_, ?_, ?_⟩
      · have hfr : Heap.Seg (Heap.free c.heap a) ta.next R none :=
          Heap.Seg.frame_eq (fun b hb => by
            have hba : b ≠ a := fun e => haR (e ▸ hb)
            rw [Heap.read_free, if_neg hba]) hR
        split <;> exact hfr
      · simpa using (List.nodup_cons.mp hnd).2
      · cases R with
        | nil =>
          have hnx : ta.next = none := hR
          simp only [List.nil_append, List.getLast?_singleton] at htail
          simp [htail, hnx]
        | cons r R' =>
          have hne := htailR r R' rfl
          simp only [hne, if_false]
          rw [htail]
          simp
      · intro b hb
        left
        split <;> simp [Heap.read_free, hb]
      · split <;> simp [Heap.read_free]
      · split <;> rfl
      · split <;> rfl
      · split <;> simp [Heap.length_free]
    | cons x A' =>
      have hhd : c._texturesListHead = some x := hA.1
      have hxa : x ≠ a := fun e => haA (e ▸ List.mem_cons_self _ _)
      have hne : ¬ (some a = c._texturesListHead) := by
        rw [hhd]
        intro e
        cases e
        exact hxa rfl
      simp only [hne, if_false]
      obtain ⟨A1, p, hAp⟩ : ∃ A1 p, x :: A' = A1 ++ [p] := by
        rcases List.eq_nil_or_concat (x :: A') with e | ⟨A1, p, e⟩
        · cases e
        · exact ⟨A1, p, by simpa using e⟩
      rw [hAp] at hA haA hseg hnd htail ⊢
      obtain ⟨m1, hA1, hm1, tp, htp, hpn⟩ := Heap.Seg.append.mp hA
      have hpn' : tp.next = some a := hpn.trans hm
      subst hm1
      have hpa : p ≠ a := fun e => haA (by rw [← e]; simp)
      have hap : a ≠ p := fun e => hpa e.symm
      have hpA1 : p ∉ A1 := fun hmem1 => by
        rw [List.nodup_append, List.nodup_append] at hnd
        exact hnd.1.2.2 hmem1 (List.mem_singleton_self _)
      have hpR : p ∉ R := fun hmem1 => by
        rw [List.nodup_append] at hnd
        exact hnd.2.2 (by simp) (List.mem_cons_of_mem _ hmem1)
      have hnext : ∀ b ∈ A1, ∀ tb, Heap.read c.heap b = some tb → tb.next ≠ some a := by
        intro b hb tb htb e
        rcases Heap.Seg.next_mem hA1 b hb tb htb with ⟨y, hy, e1⟩ | e1
        · rw [e] at e1
          cases e1
          exact haA (List.mem_append_left _ hy)
        · rw [e] at e1
          cases e1
          exact hpa rfl
      have hA1len : A1.length < c.heap.length := by
        have h1 := nodup_bounded_length hnd (fun b hb => by
          obtain ⟨t, ht⟩ := Heap.Seg.allocated hseg b hb
          exact Heap.read_lt ht)
        simp at h1
        omega
      rw [unlink_found htp hpn' ha A1 c.heap.length c._texturesListHead hA1 hnext hA1len]
      refine ⟨_, rfl, ⟨?_, ?_, ?_⟩, ?_, ?_, rfl, rfl, ?_⟩
      · refine Heap.Seg.append.mpr ⟨ta.next, ?_, ?_⟩
        · refine Heap.Seg.append.mpr ⟨some p, ?_, rfl, { tp with next := ta.next }, ?_, rfl⟩
          · refine Heap.Seg.frame_eq (fun b hb => ?_) hA1
            have hba : b ≠ a := fun e => haA (e ▸ List.mem_append_left _ hb)
            have hbp : b ≠ p := fun e => hpA1 (e ▸ hb)
            simp [Heap.read_free, Heap.read_modify, hba, hbp]
          · simp [Heap.read_free, Heap.read_modify, hpa, htp]
        · refine Heap.Seg.frame_eq (fun b hb => ?_) hR
          have hba : b ≠ a := fun e => haR (e ▸ hb)
          have hbp : b ≠ p := fun e => hpR (e ▸ hb)
          simp [Heap.read_free, Heap.read_modify, hba, hbp]
      · rw [List.nodup_append] at hnd ⊢
        refine ⟨hnd.1, (List.nodup_cons.mp hnd.2.1).2, fun b hb1 hb2 => ?_⟩
        exact hnd.2.2 hb1 (List.mem_cons_of_mem _ hb2)
      · show (if some a = c._texturesListTail then some p else c._texturesListTail) = _
        cases R with
        | nil =>
          rw [show A1 ++ [p] ++ [a] = (A1 ++ [p]) ++ [a] by simp, List.getLast?_concat] at htail
          simp [htail]
        | cons r R' =>
          have hne2 := htailR r R' rfl
          rw [if_neg hne2, htail, List.getLast?_append_of_ne_nil _ (by simp),
            List.getLast?_cons_cons, List.getLast?_append_of_ne_nil _ (by simp)]
      · intro b hb
        by_cases hbp : b = p
        · subst hbp
          right
          refine ⟨?_, by simp, by simp⟩
          simp [Heap.read_free, Heap.read_modify, hb, htp, Texture.data]
        · left
          simp [Heap.read_free, Heap.read_modify, hb, hbp]
      · simp [Heap.read_free]
      · simp [Heap.length_free, Heap.length_modify]
  · rw [filter_ne_of_not_mem hmem]
    have hne : ¬ (some a = c._texturesListHead) := by
      intro e
      cases l with
      | nil =>
        have : c._texturesListHead = none := hseg
        rw [this] at e
        cases e
      | cons x l' =>
        have : c._texturesListHead = some x := hseg.1
        rw [this] at e
        cases e
        exact hmem (List.mem_cons_self _ _)
    simp only [hne, if_false]
    have hnext : ∀ b ∈ l, ∀ tb, Heap.read c.heap b = some tb → tb.next ≠ some a := by
      intro b hb tb htb e
      rcases Heap.Seg.next_mem hseg b hb tb htb with ⟨y, hy, e1⟩ | e1
      · rw [e] at e1
        cases e1
        exact hmem hy
      · rw [e] at e1
        cases e1
    have hlen : l.length ≤ c.heap.length :=
      nodup_bounded_length hnd (fun b hb => by
        obtain ⟨t, ht⟩ := Heap.Seg.allocated hseg b hb
        exact Heap.read_lt ht)
    rw [unlink_none l c.heap.length c._texturesListHead hseg hnext hlen]
    refine ⟨_, rfl, ⟨?_, hnd, htail⟩, ?_, ?_, rfl, rfl, ?_⟩
    · refine Heap.Seg.frame_eq (fun b hb => ?_) hseg
      have hba : b ≠ a := fun e => hmem (e ▸ hb)
      simp [Heap.read_free, hba]
    · intro b hb
      left
      simp [Heap.read_free, hb]
    · simp [Heap.read_free]
    · simp [Heap.length_free]

/-! ### The cache list under the calls -/

theorem TextureCache.Holds.key_of {c : TextureCache} {L : List (Nat × Texture)}
    (hh : c.Holds L) {e : Nat × Texture} (he : e ∈ L) {t : Texture}
    (ht : Heap.read c.heap e.1 = some t) : t.data = e.2 ∧ t.key = e.2.key := by
  have := hh.2 e he
  rw [ht] at this
  simp only [Option.map_some', Option.some.injEq] at this
  exact ⟨this, by rw [← this]; rfl⟩

theorem TextureCache.Holds.read_entry {c : TextureCache} {L : List (Nat × Texture)}
    (hh : c.Holds L) {e : Nat × Texture} (he : e ∈ L) :
    ∃ t, Heap.read c.heap e.1 = some t ∧ t.data = e.2 := by
  have := hh.2 e he
  cases hr : Heap.read c.heap e.1 with
  | none => simp [hr] at this
  | some t =>
    rw [hr] at this
    simp only [Option.map_some', Option.some.injEq] at this
    exact ⟨t, rfl, this⟩

theorem getCachedTexture_hit {c : TextureCache} {A R : List (Nat × Texture)}
    {e : Nat × Texture} {key : Int} (hh : c.Holds (A ++ e :: R))
    (hA : ∀ x ∈ A, x.2.key ≠ key) (he : e.2.key = key) (m : Bool) (w h : Int) :
    ∃ c1, c.getCachedTexture m w h key = .ok (c1, some e.1) ∧ c1.Holds (e :: (A ++ R)) ∧
      c1.atlas = c.atlas ∧ c1.maxTexSz = c.maxTexSz ∧ c1.heap.length = c.heap.length ∧
      ∀ b, (Heap.read c1.heap b).map Texture.data = (Heap.read c.heap b).map Texture.data := by
  have hl := hh.1
  simp only [List.map_append, List.map_cons] at hl
  obtain ⟨te, hte, hted⟩ := hh.read_entry (e := e) (by simp)
  have hkey : te.key = key := by rw [← he, ← hted]; rfl
  obtain ⟨mid, hsegA, hmid, -⟩ := Heap.Seg.append.mp hl.1
  subst hmid
  have hlen := hl.length_le
  have hne : ∀ b ∈ A.map Prod.fst, ∀ tb, Heap.read c.heap b = some tb → tb.key ≠ key := by
    intro b hb tb htb
    obtain ⟨x, hx, rfl⟩ := List.mem_map.mp hb
    rw [(hh.key_of (List.mem_append_left _ hx) htb).2]
    exact hA x hx
  have hfind := findCached_hit hte hkey (A.map Prod.fst) c.heap.length none
    c._texturesListHead hsegA hne (by simp at hlen ⊢; omega)
  unfold TextureCache.getCachedTexture
  rw [hfind]
  refine ⟨_, rfl, ⟨?_, ?_⟩, (promote_frame c _ _ _).1, (promote_frame c _ _ _).2.1,
    (promote_frame c _ _ _).2.2, fun b => promote_data c _ _ _ b⟩
  · rcases List.eq_nil_or_concat A with hnil | ⟨A1, p, hAp⟩
    · subst hnil
      simpa [TextureCache.promote] using hl
    · have hAp' : A = A1 ++ [p] := by simpa using hAp
      subst hAp'
      have hlast : ((A1 ++ [p]).map Prod.fst).getLast?.or none = some p.1 := by
        simp
      rw [hlast]
      have hl2 : c.Linked (A1.map Prod.fst ++ p.1 :: e.1 :: R.map Prod.fst) := by
        simpa using hl
      have := promote_linked hl2 hte
      simpa using this
  · intro x hx
    rw [promote_data]
    exact hh.2 x (by
      simp only [List.mem_cons, List.mem_append] at hx ⊢
      tauto)

theorem findCached_no_match {c : TextureCache} {L : List (Nat × Texture)} {key : Int}
    (hh : c.Holds L) (hL : ∀ x ∈ L, x.2.key ≠ key) :
    c.findCached key c.heap.length none c._texturesListHead = .ok (c, none) := by
  refine findCached_miss (L.map Prod.fst) _ _ _ hh.1.1 ?_ hh.1.length_le
  intro b hb tb htb
  obtain ⟨x, hx, rfl⟩ := List.mem_map.mp hb
  rw [(hh.key_of hx htb).2]
  exact hL x hx

theorem TextureCache.Holds.grow_list {c : TextureCache} {L : List (Nat × Texture)}
    (hh : c.Holds L) (x : Option Texture) :
    TextureCache.Holds { c with heap := c.heap ++ [x] } L := by
  refine ⟨hh.1.grow_heap x, fun e he => ?_⟩
  have hlt : e.1 < c.heap.length := hh.1.lt e.1 (List.mem_map_of_mem _ he)
  show (Heap.read (c.heap ++ [x]) e.1).map Texture.data = some e.2
  rw [Heap.read_append_old _ _ (Nat.ne_of_lt hlt)]
  exact hh.2 e he

theorem createTexture_holds {c : TextureCache} {L : List (Nat × Texture)} (hh : c.Holds L)
    {w h : Int} {p : List Bool} (hp : c.atlas.tree.findFreeNode w h = some p) :
    ∃ c1, c.createTexture true w h = .ok (c1, some c.heap.length) ∧
      c1.Holds (L ++ [(c.heap.length, c.placedTexture w h p)]) ∧
      Heap.read c1.heap c.heap.length = some (c.placedTexture w h p) ∧
      (∀ b, b ≠ c.heap.length →
        (Heap.read c1.heap b).map Texture.data = (Heap.read c.heap b).map Texture.data) ∧
      c1.atlas = { c.atlas with tree := c.atlas.tree.splitAt p w h } ∧
      c1.maxTexSz = c.maxTexSz ∧ c1.heap.length = c.heap.length + 1 := by
  obtain ⟨c1, hc, hl1, hr, hd, hat, hsz, hlen⟩ := createTexture_success hh.1 (w := w) (h := h) hp
  refine ⟨c1, hc, ⟨by simpa using hl1, fun e he => ?_⟩, hr, hd, hat, hsz, hlen⟩
  rcases List.mem_append.mp he with he | he
  · have hlt : e.1 < c.heap.length := hh.1.lt e.1 (List.mem_map_of_mem _ he)
    rw [hd e.1 (Nat.ne_of_lt hlt)]
    exact hh.2 e he
  · simp only [List.mem_singleton] at he
    subst he
    simp only [hr, Option.map_some']
    rfl

theorem getCachedTexture_miss_fail {c : TextureCache} {L : List (Nat × Texture)} {key : Int}
    (hh : c.Holds L) (hL : ∀ x ∈ L, x.2.key ≠ key) (m : Bool) (w h : Int)
    (hf : m = false ∨ c.atlas.tree.findFreeNode w h = none) :
    ∃ x, c.getCachedTexture m w h key = .ok ({ c with heap := c.heap ++ [x] }, none) := by
  obtain ⟨x, hx⟩ := createTexture_fail c m w h hf
  refine ⟨x, ?_⟩
  unfold TextureCache.getCachedTexture
  rw [findCached_no_match hh hL]
  simp only [hx]

theorem getCachedTexture_miss_success {c : TextureCache} {L : List (Nat × Texture)}
    {key : Int} (hh : c.Holds L) (hL : ∀ x ∈ L, x.2.key ≠ key) {w h : Int} {p : List Bool}
    (hp : c.atlas.tree.findFreeNode w h = some p) :
    ∃ c1, c.getCachedTexture true w h key = .ok (c1, some c.heap.length) ∧
      c1.Holds (L ++ [(c.heap.length, { c.placedTexture w h p with key := key })]) ∧
      Heap.read c1.heap c.heap.length = some { c.placedTexture w h p with key := key } ∧
      (∀ b, b ≠ c.heap.length →
        (Heap.read c1.heap b).map Texture.data = (Heap.read c.heap b).map Texture.data) ∧
      c1.atlas = { c.atlas with tree := c.atlas.tree.splitAt p w h } ∧
      c1.maxTexSz = c.maxTexSz ∧ c1.heap.length = c.heap.length + 1 := by
  obtain ⟨c1, hc, hh1, hr, hd, hat, hsz, hlen⟩ := createTexture_holds hh (w := w) (h := h) hp
  unfold TextureCache.getCachedTexture
  rw [findCached_no_match hh hL]
  simp only [hc]
  have hne : ∀ e ∈ L, e.1 ≠ c.heap.length := fun e he =>
    Nat.ne_of_lt (hh.1.lt e.1 (List.mem_map_of_mem _ he))
  have hl1 : c1.Linked (L.map Prod.fst ++ [c.heap.length]) := by simpa using hh1.1
  refine ⟨_, rfl, ⟨?_, fun e he => ?_⟩, ?_, ?_, hat, hsz, ?_⟩
  · rw [List.map_append, List.map_singleton]
    refine ⟨Heap.Seg.frame (fun a ha t ht => ?_) hl1.1, hl1.2.1, hl1.2.2⟩
    show ∃ t1, Heap.read (Heap.modify c1.heap c.heap.length _) a = some t1 ∧ t1.next = t.next
    simp only [Heap.read_modify]
    by_cases hac : a = c.heap.length
    · subst hac
      rw [if_pos rfl, ht]
      exact ⟨{ t with key := key }, rfl, rfl⟩
    · exact ⟨t, by simp [hac, ht], rfl⟩
  · show (Heap.read (Heap.modify c1.heap c.heap.length _) e.1).map Texture.data = some e.2
    rw [Heap.read_modify]
    rcases List.mem_append.mp he with he | he
    · rw [if_neg (hne e he)]
      exact hh1.2 e (List.mem_append_left _ he)
    · simp only [List.mem_singleton] at he
      subst he
      simp only [if_true, hr, Option.map_some']
      rfl
  · show Heap.read (Heap.modify c1.heap c.heap.length _) c.heap.length = _
    rw [Heap.read_modify, if_pos rfl, hr]
    rfl
  · intro b hb
    show (Heap.read (Heap.modify c1.heap c.heap.length _) b).map Texture.data = _
    rw [Heap.read_modify, if_neg hb]
    exact hd b hb
  · show (Heap.modify c1.heap c.heap.length _).length = _
    rw [Heap.length_modify]
    exact hlen

theorem destroyTexture_holds {c : TextureCache} {L : List (Nat × Texture)} {a : Nat}
    {ta : Texture} (hh : c.Holds L) (ha : Heap.read c.heap a = some ta) :
    ∃ c1, c.destroyTexture a = .ok c1 ∧ c1.Holds (L.filter (fun e => decide (e.1 ≠ a))) ∧
      c1.atlas = c.atlas ∧ c1.maxTexSz = c.maxTexSz ∧ c1.heap.length = c.heap.length ∧
      Heap.read c1.heap a = none := by
  obtain ⟨c1, hc, hl1, hd, hra, hat, hsz, hlen⟩ := destroyTexture_linked hh.1 ha
  refine ⟨c1, hc, ⟨?_, fun e he => ?_⟩, hat, hsz, hlen, hra⟩
  · have : (L.filter (fun e => decide (e.1 ≠ a))).map Prod.fst =
        (L.map Prod.fst).filter (fun b => decide (b ≠ a)) := by
      rw [List.filter_map]
      rfl
    rw [this]
    exact hl1
  · obtain ⟨heL, hea⟩ := List.mem_filter.mp he
    simp only [ne_eq, decide_not, Bool.not_eq_true', decide_eq_false_iff_not] at hea
    rcases hd e.1 hea with hd1 | ⟨hd1, -, -⟩
    · rw [hd1]; exact hh.2 e heL
    · rw [hd1]; exact hh.2 e heL

theorem flush_holds {c c1 : TextureCache} {tex : Nat} (hf : c.flush tex = .ok c1) :
    c1.Holds [] ∧ c1.atlas = Atlas.new tex c.maxTexSz ∧ c1.maxTexSz = c.maxTexSz := by
  unfold TextureCache.flush at hf
  split at hf
  · cases hf
  · cases hf
    exact ⟨⟨⟨rfl, List.nodup_nil, rfl⟩, fun e he => absurd he (List.not_mem_nil e)⟩, rfl, rfl⟩

theorem first_key_split (L : List (Nat × Texture)) (key : Int) :
    (∀ x ∈ L, x.2.key ≠ key) ∨
    ∃ A e R, L = A ++ e :: R ∧ (∀ x ∈ A, x.2.key ≠ key) ∧ e.2.key = key := by
  induction L with
  | nil => exact Or.inl (fun x hx => absurd hx (List.not_mem_nil x))
  | cons a L ih =>
    by_cases ha : a.2.key = key
    · exact Or.inr ⟨[], a, L, rfl, fun x hx => absurd hx (List.not_mem_nil x), ha⟩
    · rcases ih with hall | ⟨A, e, R, rfl, hA, he⟩
      · left
        intro x hx
        rcases List.mem_cons.mp hx with rfl | hx
        · exact ha
        · exact hall x hx
      · right
        refine ⟨a :: A, e, R, rfl, ?_, he⟩
        intro x hx
        rcases List.mem_cons.mp hx with rfl | hx
        · exact ha
        · exact hA x hx

theorem createTexture_cases (c : TextureCache) (m : Bool) (w h : Int) :
    (m = false ∨ c.atlas.tree.findFreeNode w h = none) ∨
    (m = true ∧ ∃ p, c.atlas.tree.findFreeNode w h = some p) := by
  cases m with
  | false => exact Or.inl (Or.inl rfl)
  | true =>
    cases hf : c.atlas.tree.findFreeNode w h with
    | none => exact Or.inl (Or.inr rfl)
    | some p => exact Or.inr ⟨rfl, p, rfl⟩

theorem step_holds {c c1 : TextureCache} {op : Op} {r : Option Nat}
    {L : List (Nat × Texture)} (hh : c.Holds L) (hs : c.step op = .ok (c1, r)) :
    (∃ L1, c1.Holds L1) ∧ c1.maxTexSz = c.maxTexSz := by
  cases op with
  | getCachedTexture m w h key =>
    simp only [TextureCache.step] at hs
    rcases first_key_split L key with hall | ⟨A, e, R, rfl, hA, he⟩
    · rcases createTexture_cases c m w h with hf | ⟨rfl, p, hp⟩
      · obtain ⟨x, hx⟩ := getCachedTexture_miss_fail hh hall m w h hf
        rw [hx] at hs
        cases hs
        exact ⟨⟨L, hh.grow_list x⟩, rfl⟩
      · obtain ⟨c2, hc2, hh2, -, -, -, hsz, -⟩ := getCachedTexture_miss_success hh hall hp
        rw [hc2] at hs
        cases hs
        exact ⟨⟨_, hh2⟩, hsz⟩
    · obtain ⟨c2, hc2, hh2, -, hsz, -⟩ := getCachedTexture_hit hh hA he m w h
      rw [hc2] at hs
      cases hs
      exact ⟨⟨_, hh2⟩, hsz⟩
  | createTexture m w h =>
    simp only [TextureCache.step] at hs
    rcases createTexture_cases c m w h with hf | ⟨rfl, p, hp⟩
    · obtain ⟨x, hx⟩ := createTexture_fail c m w h hf
      rw [hx] at hs
      cases hs
      exact ⟨⟨L, hh.grow_list x⟩, rfl⟩
    · obtain ⟨c2, hc2, hh2, -, -, -, hsz, -⟩ := createTexture_holds hh hp
      rw [hc2] at hs
      cases hs
      exact ⟨⟨_, hh2⟩, hsz⟩
  | destroyTexture a =>
    simp only [TextureCache.step] at hs
    cases hr : Heap.read c.heap a with
    | none =>
      simp [TextureCache.destroyTexture, hr] at hs
    | some ta =>
      obtain ⟨c2, hc2, hh2, -, hsz, -⟩ := destroyTexture_holds hh hr
      rw [hc2] at hs
      cases hs
      exact ⟨⟨_, hh2⟩, hsz⟩
  | flush tex =>
    simp only [TextureCache.step] at hs
    split at hs
    · cases hs
    · rename_i c2 hf
      cases hs
      obtain ⟨h1, -, h3⟩ := flush_holds hf
      exact ⟨⟨[], h1⟩, h3⟩

theorem run_holds : ∀ (ops : List Op) {c c2 : TextureCache} {log : List Texture}
    {L : List (Nat × Texture)}, c.Holds L → c.run ops = .ok (c2, log) →
    (∃ L2, c2.Holds L2) ∧ c2.maxTexSz = c.maxTexSz
  | [], c, c2, log, L, hh, hrun => by
    simp only [TextureCache.run] at hrun
    cases hrun
    exact ⟨⟨L, hh⟩, rfl⟩
  | op :: ops, c, c2, log, L, hh, hrun => by
    simp only [TextureCache.run] at hrun
    split at hrun
    · cases hrun
    · rename_i c1 r hs
      split at hrun
      · cases hrun
      · rename_i c3 log1 hrun1
        cases hrun
        obtain ⟨⟨L1, hh1⟩, hsz1⟩ := step_holds hh hs
        obtain ⟨hL2, hsz⟩ := run_holds ops hh1 hrun1
        exact ⟨hL2, hsz.trans hsz1⟩

theorem reachable_holds {tex : Nat} {ops : List Op} {c : TextureCache} {log : List Texture}
    (hrun : (TextureCache.init tex).run ops = .ok (c, log)) :
    (∃ L, c.Holds L) ∧ c.maxTexSz = 4096 :=
  run_holds ops (init_holds tex) hrun

/-- C4: in every state the cache reaches, when no free atlas node fits the
requested size, `createTexture` returns no texture, and so does
`getCachedTexture` when no record of the list carries the key (a miss); in both
cases the list head, the list tail, the entries of the list with their order,
every record in memory and the atlas with its tree are as before the call. -/
theorem no_capacity_leaves_cache (tex : Nat) (ops : List Op) (c : TextureCache)
    (log : List Texture) (hreach : (TextureCache.init tex).run ops = .ok (c, log))
    (m : Bool) (w h key : Int) (hfull : c.atlas.tree.findFreeNode w h = none) :
    (∃ c1, c.createTexture m w h = .ok (c1, none) ∧
      c1._texturesListHead = c._texturesListHead ∧
      c1._texturesListTail = c._texturesListTail ∧ c1.entries = c.entries ∧
      c.heap <+: c1.heap ∧ c1.atlas = c.atlas) ∧
    ((∀ e ∈ c.entries, e.2.key ≠ key) →
      ∃ c1, c.getCachedTexture m w h key = .ok (c1, none) ∧
        c1._texturesListHead = c._texturesListHead ∧
        c1._texturesListTail = c._texturesListTail ∧ c1.entries = c.entries ∧
        c.heap <+: c1.heap ∧ c1.atlas = c.atlas) := by
  obtain ⟨⟨L, hh⟩, -⟩ := reachable_holds hreach
  have hent := hh.entries_eq
  constructor
  · obtain ⟨x, hx⟩ := createTexture_fail c m w h (Or.inr hfull)
    refine ⟨_, hx, rfl, rfl, ?_, List.prefix_append _ _, rfl⟩
    rw [hent]
    exact (hh.grow_list x).entries_eq
  · intro hmiss
    rw [hent] at hmiss
    obtain ⟨x, hx⟩ := getCachedTexture_miss_fail hh hmiss m w h (Or.inr hfull)
    refine ⟨_, hx, rfl, rfl, ?_, List.prefix_append _ _, rfl⟩
    rw [hent]
    exact (hh.grow_list x).entries_eq

theorem no_capacity_leaves_cache_witness :
    (∃ c1, fullCache.createTexture true 1 1 = .ok (c1, none) ∧
      c1._texturesListHead = fullCache._texturesListHead ∧
      c1._texturesListTail = fullCache._texturesListTail ∧ c1.entries = fullCache.entries ∧
      fullCache.heap <+: c1.heap ∧ c1.atlas = fullCache.atlas) ∧
    ((∀ e ∈ fullCache.entries, e.2.key ≠ 7) →
      ∃ c1, fullCache.getCachedTexture true 1 1 7 = .ok (c1, none) ∧
        c1._texturesListHead = fullCache._texturesListHead ∧
        c1._texturesListTail = fullCache._texturesListTail ∧ c1.entries = fullCache.entries ∧
        fullCache.heap <+: c1.heap ∧ c1.atlas = fullCache.atlas) :=
  no_capacity_leaves_cache 1 [.getCachedTexture true 4096 4096 1] fullCache
    (fullCache.heap.filterMap id) rfl true 1 1 7 (by decide)

/-! ### Cache identity -/

theorem find_key_of_split {A R : List (Nat × Texture)} {e : Nat × Texture} {key : Int}
    (hA : ∀ x ∈ A, x.2.key ≠ key) (he : e.2.key = key) :
    (A ++ e :: R).find? (fun x => decide (x.2.key = key)) = some e := by
  rw [List.find?_eq_some]
  refine ⟨by simp [he], A, R, rfl, fun x hx => ?_⟩
  simp [hA x hx]

theorem find_filter {α : Type} (p q : α → Bool) {e : α} :
    ∀ (L : List α), L.find? p = some e → q e = true → (L.filter q).find? p = some e
  | [], h, _ => by simp at h
  | x :: L, h, hq => by
    rw [List.find?_cons] at h
    cases hpx : p x with
    | true =>
      rw [hpx] at h
      cases h
      rw [List.filter_cons, hq]
      simp [List.find?_cons, hpx]
    | false =>
      rw [hpx] at h
      have ih := find_filter p q L h hq
      rw [List.filter_cons]
      cases hqx : q x with
      | true => simp [List.find?_cons, hpx, ih]
      | false => simpa using ih

theorem FirstWithKey.read_record {c : TextureCache} {key : Int} {a : Nat} {d : Texture}
    (hf : FirstWithKey c key a d) :
    ∃ t, Heap.read c.heap a = some t ∧ t.data = d := by
  obtain ⟨L, hh, hfind⟩ := hf
  exact hh.read_entry (e := (a, d)) (List.mem_of_find?_eq_some hfind)

theorem FirstWithKey.hit {c : TextureCache} {key : Int} {a : Nat} {d : Texture}
    (hf : FirstWithKey c key a d) (m : Bool) (w h : Int) :
    ∃ c1, c.getCachedTexture m w h key = .ok (c1, some a) ∧ FirstWithKey c1 key a d ∧
      c1.atlas = c.atlas := by
  obtain ⟨L, hh, hfind⟩ := hf
  obtain ⟨hp, A, R, rfl, hA⟩ := List.find?_eq_some.mp hfind
  have hA' : ∀ x ∈ A, x.2.key ≠ key := fun x hx => by simpa using hA x hx
  have he : (a, d).2.key = key := by simpa using hp
  obtain ⟨c1, hc, hh1, hat, -⟩ := getCachedTexture_hit hh hA' he m w h
  refine ⟨c1, hc, ⟨_, hh1, ?_⟩, hat⟩
  rw [List.find?_cons, hp]

theorem FirstWithKey.first {c c1 : TextureCache} {L : List (Nat × Texture)} {key : Int}
    {a : Nat} {m : Bool} {w h : Int} (hh : c.Holds L)
    (hc : c.getCachedTexture m w h key = .ok (c1, some a)) :
    ∃ d, FirstWithKey c1 key a d := by
  rcases first_key_split L key with hall | ⟨A, e, R, rfl, hA, he⟩
  · rcases createTexture_cases c m w h with hf | ⟨rfl, p, hp⟩
    · obtain ⟨x, hx⟩ := getCachedTexture_miss_fail hh hall m w h hf
      rw [hx] at hc
      cases hc
    · obtain ⟨c2, hc2, hh2, -⟩ := getCachedTexture_miss_success hh hall hp
      rw [hc2] at hc
      cases hc
      exact ⟨_, _, hh2, find_key_of_split hall rfl⟩
  · obtain ⟨c2, hc2, hh2, -⟩ := getCachedTexture_hit hh hA he m w h
    rw [hc2] at hc
    cases hc
    refine ⟨e.2, _, hh2, ?_⟩
    rw [List.find?_cons]
    simp [he]

theorem FirstWithKey.step {c c1 : TextureCache} {key : Int} {a : Nat} {d : Texture}
    {op : Op} {r : Option Nat} (hf : FirstWithKey c key a d)
    (hs : c.step op = .ok (c1, r)) (hk : op.keeps a = true) : FirstWithKey c1 key a d := by
  obtain ⟨L, hh, hfind⟩ := hf
  cases op with
  | getCachedTexture m w h key1 =>
    simp only [TextureCache.step] at hs
    rcases first_key_split L key1 with hall | ⟨A, e, R, rfl, hA, he⟩
    · rcases createTexture_cases c m w h with hfl | ⟨rfl, p, hp⟩
      · obtain ⟨x, hx⟩ := getCachedTexture_miss_fail hh hall m w h hfl
        rw [hx] at hs
        cases hs
        exact ⟨L, hh.grow_list x, hfind⟩
      · obtain ⟨c2, hc2, hh2, -⟩ := getCachedTexture_miss_success hh hall hp
        rw [hc2] at hs
        cases hs
        refine ⟨_, hh2, ?_⟩
        rw [List.find?_append, hfind]
        rfl
    · obtain ⟨c2, hc2, hh2, -⟩ := getCachedTexture_hit hh hA he m w h
      rw [hc2] at hs
      cases hs
      refine ⟨_, hh2, ?_⟩
      by_cases hkk : key1 = key
      · subst hkk
        rw [find_key_of_split hA he] at hfind
        cases hfind
        have hd : decide (d.key = key1) = true := by simpa using he
        rw [List.find?_cons]
        simp only [hd]
      · have hpe : (decide (e.2.key = key)) = false := by
          simp only [decide_eq_false_iff_not]
          rw [he]
          exact hkk
        rw [List.find?_append, List.find?_cons, hpe] at hfind
        rw [List.find?_cons, hpe, List.find?_append]
        exact hfind
  | createTexture m w h =>
    simp only [TextureCache.step] at hs
    rcases createTexture_cases c m w h with hfl | ⟨rfl, p, hp⟩
    · obtain ⟨x, hx⟩ := createTexture_fail c m w h hfl
      rw [hx] at hs
      cases hs
      exact ⟨L, hh.grow_list x, hfind⟩
    · obtain ⟨c2, hc2, hh2, -⟩ := createTexture_holds hh hp
      rw [hc2] at hs
      cases hs
      refine ⟨_, hh2, ?_⟩
      rw [List.find?_append, hfind]
      rfl
  | destroyTexture b =>
    simp only [TextureCache.step] at hs
    simp only [Op.keeps, decide_eq_true_eq] at hk
    cases hr : Heap.read c.heap b with
    | none => simp [TextureCache.destroyTexture, hr] at hs
    | some tb =>
      obtain ⟨c2, hc2, hh2, -⟩ := destroyTexture_holds hh hr
      rw [hc2] at hs
      cases hs
      refine ⟨_, hh2, find_filter _ _ L hfind ?_⟩
      simp only [decide_eq_true_eq]
      exact fun e => hk e.symm
  | flush tex => simp [Op.keeps] at hk

theorem FirstWithKey.run {key : Int} {a : Nat} {d : Texture} :
    ∀ (ops : List Op) {c c2 : TextureCache} {log : List Texture}, FirstWithKey c key a d →
      c.run ops = .ok (c2, log) → (∀ op ∈ ops, op.keeps a = true) → FirstWithKey c2 key a d
  | [], c, c2, log, hf, hrun, _ => by
    simp only [TextureCache.run] at hrun
    cases hrun
    exact hf
  | op :: ops, c, c2, log, hf, hrun, hk => by
    simp only [TextureCache.run] at hrun
    split at hrun
    · cases hrun
    · rename_i c1 r hs
      split at hrun
      · cases hrun
      · rename_i c3 log1 hrun1
        cases hrun
        exact FirstWithKey.run ops (hf.step hs (hk op (List.mem_cons_self _ _))) hrun1
          (fun o ho => hk o (List.mem_cons_of_mem _ ho))

/-- C3: in every state the cache reaches, once `getCachedTexture` with the key
`key` has returned the record at address `a`, then after any further calls
that neither flush the cache nor destroy that record (`getCachedTexture` with
any key, `createTexture`, `destroyTexture` of other records), a call of
`getCachedTexture` with the same key returns the same record `a`; all fields of
the record other than its link (among them `texX`, `texY`, `texW`, `texH`,
`x`, `y`, `u`, `v`) are what they were after the first call, and the call
leaves the atlas with its tree unchanged. -/
theorem cache_identity (tex : Nat) (ops0 : List Op) (c0 : TextureCache) (log0 : List Texture)
    (hreach : (TextureCache.init tex).run ops0 = .ok (c0, log0))
    (m : Bool) (w h key : Int) (c1 : TextureCache) (a : Nat)
    (hfirst : c0.getCachedTexture m w h key = .ok (c1, some a))
    (ops : List Op) (c2 : TextureCache) (log : List Texture)
    (hrun : c1.run ops = .ok (c2, log)) (hkeep : ∀ op ∈ ops, op.keeps a = true)
    (m1 : Bool) (w1 h1 : Int) :
    ∃ c3 t1 t3, c2.getCachedTexture m1 w1 h1 key = .ok (c3, some a) ∧
      Heap.read c1.heap a = some t1 ∧ Heap.read c3.heap a = some t3 ∧
      t3.data = t1.data ∧ c3.atlas = c2.atlas := by
  obtain ⟨⟨L0, hh0⟩, -⟩ := reachable_holds hreach
  obtain ⟨d, hf1⟩ := FirstWithKey.first hh0 hfirst
  have hf2 := FirstWithKey.run ops hf1 hrun hkeep
  obtain ⟨c3, hc3, hf3, hat⟩ := hf2.hit m1 w1 h1
  obtain ⟨t1, ht1, hd1⟩ := hf1.read_record
  obtain ⟨t3, ht3, hd3⟩ := hf3.read_record
  exact ⟨c3, t1, t3, hc3, ht1, ht3, hd3.trans hd1.symm, hat⟩

theorem cache_identity_witness :
    ∃ c3 t1 t3, identityLater.getCachedTexture false 8 8 1 = .ok (c3, some 0) ∧
      Heap.read identityFirst.heap 0 = some t1 ∧ Heap.read c3.heap 0 = some t3 ∧
      t3.data = t1.data ∧ c3.atlas = identityLater.atlas :=
  cache_identity 1 [] (TextureCache.init 1) [] rfl true 64 64 1 identityFirst 0 rfl
    identityOps identityLater identityLog rfl (by decide) false 8 8

/-! ### The flat job buffer -/

theorem getElem?_eq_getD {vertices : List Vertex} {i : Nat} (h : i < vertices.length) :
    vertices[i]? = some (vertices.getD i ⟨0, 0, 0⟩) := by
  rw [List.getD_eq_getElem?_getD, List.getElem?_eq_getElem h]
  rfl

theorem flatLoop_spec (vertices : List Vertex) (r g b a : GLfloat) :
    ∀ (n i : Nat) (s : Render), 1 ≤ i → i + n ≤ vertices.length → s.JobCount ≤ MAX_JOBS →
      Render.flatLoop vertices r g b a (List.range' i n) s =
        .ok { s with
          JobList := fun j =>
            if s.JobCount ≤ j ∧ j < min (s.JobCount + n) MAX_JOBS then
              fanTriangleAt vertices r g b a (i + (j - s.JobCount))
            else s.JobList j,
          JobCount := min (s.JobCount + n) MAX_JOBS,
          warnings := s.warnings ++ (if s.JobCount + n > MAX_JOBS then [.tooManyJobs] else []) }
  | 0, i, s, _, _, hc => by
    simp only [List.range', Render.flatLoop]
    congr 1
    obtain ⟨isB, cache, pcm, JL, JC, TJL, TJC, ws, ds⟩ := s
    simp only [Render.mk.injEq, true_and, and_true, Nat.add_zero] at *
    refine ⟨?_, ?_, ?_⟩
    · funext j
      rw [if_neg]
      omega
    · omega
    · rw [if_neg (by omega)]
      simp
  | n + 1, i, s, hi, hlen, hc => by
    simp only [List.range', Render.flatLoop]
    have hM : MAX_JOBS = 4096 := rfl
    by_cases hfull : s.JobCount = MAX_JOBS
    · have h1 : (s.JobCount + 1) % 2 ^ 32 > MAX_JOBS := by
        rw [hfull, hM]; decide
      rw [if_pos h1]
      congr 1
      obtain ⟨isB, cache, pcm, JL, JC, TJL, TJC, ws, ds⟩ := s
      simp only [Render.warning, Render.mk.injEq, true_and, and_true] at *
      refine ⟨?_, ?_, ?_⟩
      · funext j
        rw [if_neg]
        omega
      · omega
      · rw [if_pos (by omega)]
    · have hlt : s.JobCount < MAX_JOBS := by omega
      have h1 : ¬ ((s.JobCount + 1) % 2 ^ 32 > MAX_JOBS) := by
        rw [Nat.mod_eq_of_lt (by rw [hM] at hlt; omega)]
        omega
      rw [if_neg h1]
      simp only [getElem?_eq_getD (show 0 < vertices.length by omega),
        getElem?_eq_getD (show i - 1 < vertices.length by omega),
        getElem?_eq_getD (show i < vertices.length by omega), hlt, if_true]
      rw [Nat.mod_eq_of_lt (by rw [hM] at hlt; omega)]
      rw [flatLoop_spec vertices r g b a n (i + 1) _ (by omega) (by omega) (by simp; omega)]
      congr 1
      obtain ⟨isB, cache, pcm, JL, JC, TJL, TJC, ws, ds⟩ := s
      simp only [Render.mk.injEq, true_and, and_true] at *
      refine ⟨?_, ?_, ?_⟩
      · funext j
        by_cases hj : j = JC
        · subst hj
          rw [if_neg (by omega), if_pos rfl, if_pos (by omega)]
          simp [fanTriangleAt, JobVertex.setJob]
        · rw [if_neg hj]
          by_cases hin : JC + 1 ≤ j ∧ j < min (JC + 1 + n) MAX_JOBS
          · rw [if_pos hin, if_pos (by omega)]
            congr 1
            omega
          · rw [if_neg hin, if_neg (by omega)]
      · omega
      · by_cases hov : JC + 1 + n > MAX_JOBS
        · rw [if_pos hov, if_pos (by omega)]
        · rw [if_neg hov, if_neg (by omega)]

theorem range_getElem? (n m : Nat) : (List.range n)[m]? = if m < n then some m else none := by
  by_cases h : m < n
  · rw [if_pos h, List.getElem?_range h]
  · rw [if_neg h, List.getElem?_eq_none (by simpa using h)]

theorem drawPolygonFlat_batched (s : Render) (k : FlatColors) (vertices : List Vertex)
    (color : Int) (hB : s.isBatching ≠ 0) (hc : s.JobCount ≤ MAX_JOBS) :
    s.drawPolygonFlat k vertices vertices.length color =
      .ok { s with
        JobList := fun j =>
          if s.JobCount ≤ j ∧ j < min (s.JobCount + (vertices.length - 2)) MAX_JOBS then
            fanTriangleAt vertices (s.flatColor k color).1.1 (s.flatColor k color).1.2.1
              (s.flatColor k color).1.2.2.1 (s.flatColor k color).1.2.2.2
              (2 + (j - s.JobCount))
          else s.JobList j,
        JobCount := min (s.JobCount + (vertices.length - 2)) MAX_JOBS,
        warnings := s.warnings ++ (s.flatColor k color).2.toList ++
          (if s.JobCount + (vertices.length - 2) > MAX_JOBS then [.tooManyJobs] else []) } := by
  unfold Render.drawPolygonFlat
  rw [if_neg hB]
  have hn : ((vertices.length : Int) - 2).toNat = vertices.length - 2 := by omega
  simp only [hn]
  by_cases hN : vertices.length ≤ 2
  · have h0 : vertices.length - 2 = 0 := by omega
    simp only [h0, List.range', Render.flatLoop, Nat.add_zero]
    congr 1
    obtain ⟨isB, cache, pcm, JL, JC, TJL, TJC, ws, ds⟩ := s
    simp only at hc
    cases hw : (Render.flatColor ⟨isB, cache, pcm, JL, JC, TJL, TJC, ws, ds⟩ k color).2 <;>
    · simp only [Render.warning, Render.mk.injEq, true_and, and_true]
      refine ⟨?_, ?_, ?_⟩
      · funext j
        rw [if_neg]
        omega
      · omega
      · rw [if_neg (by omega)]
        simp
  · cases hw : (s.flatColor k color).2 with
    | none =>
      simp only []
      rw [flatLoop_spec vertices _ _ _ _ (vertices.length - 2) 2 s (by omega) (by omega) hc]
      simp
    | some w =>
      simp only []
      rw [flatLoop_spec vertices _ _ _ _ (vertices.length - 2) 2 (s.warning w) (by omega)
        (by omega) hc]
      simp [Render.warning]

theorem flatBuffer_after {s s1 : Render} {vertices : List Vertex} {r g b a : GLfloat}
    (hc : s.JobCount ≤ MAX_JOBS)
    (hJC : s1.JobCount = min (s.JobCount + (vertices.length - 2)) MAX_JOBS)
    (hJL : ∀ j, s1.JobList j =
      if s.JobCount ≤ j ∧ j < min (s.JobCount + (vertices.length - 2)) MAX_JOBS then
        fanTriangleAt vertices r g b a (2 + (j - s.JobCount))
      else s.JobList j) :
    s1.flatBuffer =
      s.flatBuffer ++ (fanTriangles vertices r g b a).take (MAX_JOBS - s.JobCount) := by
  apply List.ext_getElem?
  intro j
  simp only [Render.flatBuffer, fanTriangles, List.getElem?_map, List.getElem?_append,
    List.getElem?_take, range_getElem?, List.length_map, List.length_range, hJC]
  by_cases h1 : j < s.JobCount
  · rw [if_pos (by omega), if_pos h1, if_pos h1]
    simp only [Option.map_some', hJL, Option.some.injEq]
    rw [if_neg (by omega)]
  · rw [if_neg h1]
    by_cases h2 : j < min (s.JobCount + (vertices.length - 2)) MAX_JOBS
    · rw [if_pos h2, if_pos (by omega), if_pos (by omega)]
      simp only [Option.map_some', hJL, Option.some.injEq]
      rw [if_pos (by omega)]
      congr 1
      omega
    · rw [if_neg h2]
      by_cases h3 : j - s.JobCount < MAX_JOBS - s.JobCount
      · rw [if_pos h3, if_neg (by omega)]
        rfl
      · rw [if_neg h3]
        rfl

/-- C6: when batching is active and the flat buffer has room for `N - 2` more
triangles, `drawPolygonFlat` on a polygon of `N >= 3` vertices appends exactly
`N - 2` triangles behind the buffered ones (which stay as they are).  The
`t`-th appended triangle (`t = 0 .. N - 3`) is written out field by field: its
three job vertices have the positions `(x, y, z)` of the vertices `0`, `t + 1`
and `t + 2` of the polygon, and all three carry the one colour `(r, g, b, a)`
the call selected. -/
theorem fan_triangulation (s : Render) (k : FlatColors) (vertices : List Vertex) (color : Int)
    (hB : s.isBatching ≠ 0) (hN : 3 ≤ vertices.length)
    (hroom : s.JobCount + (vertices.length - 2) ≤ MAX_JOBS) :
    ∃ s1 r g b a, s.drawPolygonFlat k vertices vertices.length color = .ok s1 ∧
      (s.flatColor k color).1 = (r, g, b, a) ∧
      s1.JobCount = s.JobCount + (vertices.length - 2) ∧
      (∀ j, j < s.JobCount → s1.JobList j = s.JobList j) ∧
      ∀ t, t < vertices.length - 2 →
        ∃ p0 p1 p2, vertices[0]? = some p0 ∧ vertices[t + 1]? = some p1 ∧
          vertices[t + 2]? = some p2 ∧
          s1.JobList (s.JobCount + t) =
            JobTriangle.mk
              (JobVertex.mk (p0.x : ℚ) (p0.y : ℚ) (p0.z : ℚ) r g b a)
              (JobVertex.mk (p1.x : ℚ) (p1.y : ℚ) (p1.z : ℚ) r g b a)
              (JobVertex.mk (p2.x : ℚ) (p2.y : ℚ) (p2.z : ℚ) r g b a) := by
  have hc : s.JobCount ≤ MAX_JOBS := by omega
  refine ⟨_, _, _, _, _, drawPolygonFlat_batched s k vertices color hB hc, rfl, ?_, ?_, ?_⟩
  · show min (s.JobCount + (vertices.length - 2)) MAX_JOBS = _
    omega
  · intro j hj
    show (if _ then _ else _) = _
    rw [if_neg (by omega)]
  · intro t ht
    refine ⟨_, _, _, getElem?_eq_getD (by omega), getElem?_eq_getD (by omega),
      getElem?_eq_getD (by omega), ?_⟩
    show (if _ then _ else _) = _
    rw [if_pos (by omega)]
    simp only [fanTriangleAt]
    have e1 : 2 + (s.JobCount + t - s.JobCount) - 1 = t + 1 := by omega
    have e2 : 2 + (s.JobCount + t - s.JobCount) = t + 2 := by omega
    rw [e1, e2]

theorem fan_triangulation_witness :
    ∃ s1 r g b a,
      flatStart.drawPolygonFlat demoColors pentagon pentagon.length 512 = .ok s1 ∧
      (flatStart.flatColor demoColors 512).1 = (r, g, b, a) ∧
      s1.JobCount = flatStart.JobCount + (pentagon.length - 2) ∧
      (∀ j, j < flatStart.JobCount → s1.JobList j = flatStart.JobList j) ∧
      ∀ t, t < pentagon.length - 2 →
        ∃ p0 p1 p2, pentagon[0]? = some p0 ∧ pentagon[t + 1]? = some p1 ∧
          pentagon[t + 2]? = some p2 ∧
          s1.JobList (flatStart.JobCount + t) =
            JobTriangle.mk
              (JobVertex.mk (p0.x : ℚ) (p0.y : ℚ) (p0.z : ℚ) r g b a)
              (JobVertex.mk (p1.x : ℚ) (p1.y : ℚ) (p1.z : ℚ) r g b a)
              (JobVertex.mk (p2.x : ℚ) (p2.y : ℚ) (p2.z : ℚ) r g b a) :=
  fan_triangulation flatStart demoColors pentagon 512 (by decide) (by decide) (by decide)

theorem flatColor_congr {s1 s2 : Render} (h : s1._pixelColorMap = s2._pixelColorMap)
    (k : FlatColors) (color : Int) : s1.flatColor k color = s2.flatColor k color := by
  unfold Render.flatColor
  rw [h]

theorem fanOf_congr {s1 s2 : Render} (h : s1._pixelColorMap = s2._pixelColorMap)
    (k : FlatColors) (call : FlatCall) : s1.fanOf k call = s2.fanOf k call := by
  unfold Render.fanOf
  rw [flatColor_congr h]

theorem fansOf_congr {s1 s2 : Render} (h : s1._pixelColorMap = s2._pixelColorMap)
    (k : FlatColors) (calls : List FlatCall) : s1.fansOf k calls = s2.fansOf k calls := by
  unfold Render.fansOf
  congr 2
  funext call
  exact fanOf_congr h k call

theorem fanTriangles_length (vertices : List Vertex) (r g b a : GLfloat) :
    (fanTriangles vertices r g b a).length = vertices.length - 2 := by
  simp [fanTriangles]

theorem flatBuffer_length (s : Render) : s.flatBuffer.length = s.JobCount := by
  simp [Render.flatBuffer]

theorem drawPolygonFlat_buffer (s : Render) (k : FlatColors) (call : FlatCall)
    (hB : s.isBatching ≠ 0) (hc : s.JobCount ≤ MAX_JOBS) :
    ∃ s1, s.drawPolygonFlat k call.vertices call.vertices.length call.color = .ok s1 ∧
      s1.isBatching = s.isBatching ∧ s1._pixelColorMap = s._pixelColorMap ∧
      s1.JobCount ≤ MAX_JOBS ∧
      s1.flatBuffer = s.flatBuffer ++ (s.fanOf k call).take (MAX_JOBS - s.JobCount) ∧
      s1.warnings = s.warnings ++ s.colorWarnings k call ++
        (if s.JobCount + (s.fanOf k call).length > MAX_JOBS then [.tooManyJobs] else []) := by
  refine ⟨_, drawPolygonFlat_batched s k call.vertices call.color hB hc, rfl, rfl, ?_, ?_, ?_⟩
  · show min _ _ ≤ _
    omega
  · exact flatBuffer_after hc rfl (fun j => rfl)
  · show _ ++ _ ++ _ = _
    rw [Render.fanOf, fanTriangles_length]
    rfl

theorem drawFlatCalls_buffer (k : FlatColors) :
    ∀ (calls : List FlatCall) (s : Render), s.isBatching ≠ 0 → s.JobCount ≤ MAX_JOBS →
      ∃ s1, s.drawFlatCalls k calls = .ok s1 ∧ s1.isBatching = s.isBatching ∧
        s1._pixelColorMap = s._pixelColorMap ∧ s1.JobCount ≤ MAX_JOBS ∧
        s1.flatBuffer = s.flatBuffer ++ (s.fansOf k calls).take (MAX_JOBS - s.JobCount)
  | [], s, _, hc => ⟨s, rfl, rfl, rfl, hc, by simp [Render.fansOf]⟩
  | call :: calls, s, hB, hc => by
    obtain ⟨s1, h1, hB1, hP1, hc1, hbuf1, -⟩ := drawPolygonFlat_buffer s k call hB hc
    obtain ⟨s2, h2, hB2, hP2, hc2, hbuf2⟩ :=
      drawFlatCalls_buffer k calls s1 (by rw [hB1]; exact hB) hc1
    refine ⟨s2, ?_, hB2.trans hB1, hP2.trans hP1, hc2, ?_⟩
    · simp only [Render.drawFlatCalls, h1, h2]
    · rw [hbuf2, hbuf1, fansOf_congr hP1]
      have hlen : s1.JobCount = s.JobCount + ((s.fanOf k call).take (MAX_JOBS - s.JobCount)).length := by
        have := congrArg List.length hbuf1
        simpa [flatBuffer_length] using this
      have hfans : s.fansOf k (call :: calls) = s.fanOf k call ++ s.fansOf k calls := by
        simp [Render.fansOf]
      rw [hfans, List.take_append_eq_append_take, List.append_assoc]
      congr 2
      rw [hlen, List.length_take]
      congr 1
      omega

/-- C7: after `setupJobList`, for every sequence of batched `drawPolygonFlat`
calls `pre` and every further call, the calls return, the flat buffer holds
before the further call the first `min(T, MAX_JOBS)` triangles of the fan
triangulations of `pre` in submission order and after it the first
`min(T', MAX_JOBS)` triangles of the fan triangulations of `pre` and the call,
and the call reports the overflow warning exactly once when at least one of
its triangles is dropped (fewer triangles were appended than it submitted) and
not at all otherwise.  The fan triangulation of a call (`fanTriangles`,
`fanTriangleAt`) is written out field by field: the triangles with the
positions of the vertices `(0, i - 1, i)` for `i = 2 .. N - 1`, every vertex in
the colour of the call. -/
theorem flat_overflow_boundary (s : Render) (k : FlatColors) (pre : List FlatCall)
    (call : FlatCall) :
    ∃ sb sa, (s.setupJobList).drawFlatCalls k pre = .ok sb ∧
      sb.drawPolygonFlat k call.vertices call.vertices.length call.color = .ok sa ∧
      sb.flatBuffer = (s.fansOf k pre).take MAX_JOBS ∧
      sa.flatBuffer = (s.fansOf k (pre ++ [call])).take MAX_JOBS ∧
      sa.warnings = sb.warnings ++ s.colorWarnings k call ++
        (if sa.flatBuffer.length < sb.flatBuffer.length + (s.fanOf k call).length then
           [.tooManyJobs]
         else []) := by
  have hB0 : (s.setupJobList).isBatching ≠ 0 := by simp [Render.setupJobList]
  have hc0 : (s.setupJobList).JobCount ≤ MAX_JOBS := by simp [Render.setupJobList]
  have hP0 : (s.setupJobList)._pixelColorMap = s._pixelColorMap := rfl
  obtain ⟨sb, hb, hBb, hPb, hcb, hbufb⟩ := drawFlatCalls_buffer k pre _ hB0 hc0
  obtain ⟨sa, ha, -, -, -, hbufa, hwa⟩ :=
    drawPolygonFlat_buffer sb k call (by rw [hBb]; exact hB0) hcb
  have hbuf0 : (s.setupJobList).flatBuffer = [] := by simp [Render.flatBuffer, Render.setupJobList]
  have hJ0 : (s.setupJobList).JobCount = 0 := rfl
  rw [hbuf0, hJ0, fansOf_congr hP0] at hbufb
  simp only [List.nil_append, Nat.sub_zero] at hbufb
  have hPs : sb._pixelColorMap = s._pixelColorMap := hPb.trans hP0
  have hJb : sb.JobCount = min MAX_JOBS (s.fansOf k pre).length := by
    have := congrArg List.length hbufb
    simpa [flatBuffer_length] using this
  have hJa : sa.flatBuffer.length =
      sb.JobCount + min (MAX_JOBS - sb.JobCount) (s.fanOf k call).length := by
    rw [hbufa, fanOf_congr hPs]
    simp [flatBuffer_length]
  refine ⟨sb, sa, hb, ha, hbufb, ?_, ?_⟩
  · rw [hbufa, hbufb, fanOf_congr hPs]
    have hfans : s.fansOf k (pre ++ [call]) = s.fansOf k pre ++ s.fanOf k call := by
      simp [Render.fansOf]
    rw [hfans, List.take_append_eq_append_take]
    congr 2
    rw [hJb]
    omega
  · rw [hwa, fanOf_congr hPs]
    have hcw : sb.colorWarnings k call = s.colorWarnings k call := by
      unfold Render.colorWarnings
      rw [flatColor_congr hPs]
    rw [hcw, hJa, flatBuffer_length]
    congr 1
    by_cases hov : sb.JobCount + (s.fanOf k call).length > MAX_JOBS
    · rw [if_pos hov, if_pos (by omega)]
    · rw [if_neg hov, if_neg (by omega)]

/-! ### The textured job buffers -/

theorem quadCache_read : Heap.read quadCache.heap 0 = some quadTexture := by rfl

theorem quadCache_hit : quadCache.getCachedTexture true 64 64 7 = .ok (quadCache, some 0) := rfl

theorem texStart_quadState : QuadState texStart 0 := ⟨by decide, rfl, rfl, rfl⟩

theorem texturedLoop_quad (s : Render) (tex job : Nat) (p0 p1 p2 p3 : Vertex)
    (a0 a1 a2 a3 a4 a5 a6 a7 : GLfloat) :
    Render.texturedLoop tex [p0, p1, p2, p3] [a0, a1, a2, a3, a4, a5, a6, a7] [2, 3] job s =
      if job + 1 < MAX_JOBS then
        .ok { s with TexturedJobList := fun a j =>
                if a = tex ∧ j = job + 1 then
                  ⟨TexturedJobVertex.setJob p0 a0 a1, TexturedJobVertex.setJob p2 a4 a5,
                   TexturedJobVertex.setJob p3 a6 a7⟩
                else if a = tex ∧ j = job then
                  ⟨TexturedJobVertex.setJob p0 a0 a1, TexturedJobVertex.setJob p1 a2 a3,
                   TexturedJobVertex.setJob p2 a4 a5⟩
                else s.TexturedJobList a j }
      else .error (.outOfBounds .TexturedJobList) := by
  simp only [Render.texturedLoop, List.getElem?_cons_zero, List.getElem?_cons_succ]
  by_cases h1 : job + 1 < MAX_JOBS
  · have h0 : job < MAX_JOBS := by omega
    simp [h0, h1]
  · by_cases h0 : job < MAX_JOBS
    · simp [h0, h1]
    · simp [h0, h1]

theorem quadState_step {s : Render} {m : Nat} (hs : QuadState s m) :
    s.drawPolygonTexture quadCall.vertices quadCall.vertices.length quadCall.primitive
        quadCall.texW quadCall.texH quadCall.texKey quadCall.mallocOk =
      if m + 1 < MAX_JOBS then
        .ok { s with
          _textureCache := quadCache,
          TexturedJobList := fun a j =>
            if a = 0 ∧ j = m + 1 then
              ⟨TexturedJobVertex.setJob ⟨0, 0, 0⟩ quadTexture.x quadTexture.y,
               TexturedJobVertex.setJob ⟨1, 1, 0⟩ quadTexture.u quadTexture.v,
               TexturedJobVertex.setJob ⟨0, 1, 0⟩ quadTexture.x quadTexture.v⟩
            else if a = 0 ∧ j = m then
              ⟨TexturedJobVertex.setJob ⟨0, 0, 0⟩ quadTexture.x quadTexture.y,
               TexturedJobVertex.setJob ⟨1, 0, 0⟩ quadTexture.u quadTexture.y,
               TexturedJobVertex.setJob ⟨1, 1, 0⟩ quadTexture.u quadTexture.v⟩
            else s.TexturedJobList a j,
          TexturedJobCount := fun j => if j = 0 then m + 2 else s.TexturedJobCount j }
      else .error (.outOfBounds .TexturedJobList) := by
  obtain ⟨hB, hget, h0, h1⟩ := hs
  have hM : MAX_JOBS = 4096 := rfl
  have hid : quadTexture.id = 1 := rfl
  have huv : uvLayout quadTexture 0 = some [quadTexture.x, quadTexture.y, quadTexture.u,
      quadTexture.y, quadTexture.u, quadTexture.v, quadTexture.x, quadTexture.v] := rfl
  have hq : quad = [⟨0, 0, 0⟩, ⟨1, 0, 0⟩, ⟨1, 1, 0⟩, ⟨0, 1, 0⟩] := rfl
  have hlen : (quad.length : Int) = 4 := rfl
  have ha1 : ¬ (¬ (1 ≤ MAX_ATLASES)) := by decide
  have ha2 : ¬ (¬ (1 < MAX_ATLASES)) := by decide
  have ha3 : 0 < MAX_ATLASES := by decide
  have hw : ¬ (¬ ((64 : Int) > 0 ∧ (64 : Int) > 0)) := by decide
  have hn : ¬ (¬ ((4 : Int) ≥ 4)) := by decide
  have htest : ¬ (((0 : Nat) : Int) + (4 - 2)) % 2 ^ 32 > (MAX_JOBS : Int) := by decide
  have htex : (1 + 2 ^ 32 - 1) % 2 ^ 32 = 0 := by decide
  have hrange : List.range' 2 ((4 : Int) - 2).toNat = [2, 3] := by decide
  simp only [Render.drawPolygonTexture, quadCall, hB, if_false, hget, quadCache_read, hid, hlen,
    h1, huv, ha1, ha2, hw, hn, htest, htex, Render.emitTexturedTriangles, ha3, if_true, hrange]
  rw [hq, texturedLoop_quad]
  simp only [h0]
  by_cases hm : m + 1 < MAX_JOBS
  · simp only [hm, if_true]
    congr 2
    funext j
    by_cases hj : j = 0
    · simp only [hj, if_true]
      rw [hM] at hm
      omega
    · simp only [hj, if_false]
  · simp only [hm, if_false]

theorem quadState_next {s : Render} {m : Nat} (hs : QuadState s m) (hm : m + 1 < MAX_JOBS) :
    ∃ s1, s.drawPolygonTexture quadCall.vertices quadCall.vertices.length quadCall.primitive
        quadCall.texW quadCall.texH quadCall.texKey quadCall.mallocOk = .ok s1 ∧
      QuadState s1 (m + 2) := by
  rw [quadState_step hs, if_pos hm]
  exact ⟨_, rfl, hs.1, quadCache_hit, rfl, hs.2.2.2⟩

theorem quad_run_ok : ∀ (j : Nat) (s : Render) (m : Nat), QuadState s m →
    m + 2 * j ≤ MAX_JOBS →
    ∃ s1, s.drawTexturedCalls (List.replicate j quadCall) = .ok s1 ∧ QuadState s1 (m + 2 * j)
  | 0, s, m, hs, _ => ⟨s, rfl, hs⟩
  | j + 1, s, m, hs, hm => by
    obtain ⟨s1, h1, hs1⟩ := quadState_next hs (by omega)
    obtain ⟨s2, h2, hs2⟩ := quad_run_ok j s1 (m + 2) hs1 (by omega)
    refine ⟨s2, ?_, ?_⟩
    · simp only [List.replicate, Render.drawTexturedCalls, h1, h2]
    · have e : m + 2 * (j + 1) = m + 2 + 2 * j := by omega
      rw [e]
      exact hs2

theorem drawTexturedCalls_append : ∀ (l : List TexturedCall) (s s1 : Render)
    (l2 : List TexturedCall), s.drawTexturedCalls l = .ok s1 →
    s.drawTexturedCalls (l ++ l2) = s1.drawTexturedCalls l2
  | [], s, s1, l2, h => by
    simp only [Render.drawTexturedCalls] at h
    cases h
    rfl
  | c :: l, s, s1, l2, h => by
    cases hd : s.drawPolygonTexture c.vertices c.vertices.length c.primitive c.texW c.texH
        c.texKey c.mallocOk with
    | error e => simp [Render.drawTexturedCalls, hd] at h
    | ok s2 =>
      simp only [Render.drawTexturedCalls, hd] at h
      simp only [List.cons_append, Render.drawTexturedCalls, hd]
      exact drawTexturedCalls_append l s2 s1 l2 h

theorem quad_run_overflow (j : Nat) (s : Render) (m : Nat) (hs : QuadState s m)
    (hm : m + 2 * j = MAX_JOBS) :
    s.drawTexturedCalls (List.replicate (j + 1) quadCall) =
      .error (.outOfBounds .TexturedJobList) := by
  obtain ⟨s1, h1, hs1⟩ := quad_run_ok j s m hs (by omega)
  rw [List.replicate_succ', drawTexturedCalls_append _ s s1 [quadCall] h1]
  simp only [Render.drawTexturedCalls]
  rw [quadState_step hs1, if_neg (by omega)]

/-- C8 (failing input): after `setupTexJobList`, 2048 textured quads whose
texture has the GL name 1 fill the slot 0 to `MAX_JOBS` triangles while the
count the capacity test reads (`TexturedJobCount[1]`) stays 0; the 2049th such
call passes the test and writes `TexturedJobList[0][4096]`, outside the
array. -/
theorem textured_slot_overflow :
    (∃ s1, texStart.drawTexturedCalls (List.replicate 2048 quadCall) = .ok s1 ∧
      s1.TexturedJobCount 0 = MAX_JOBS ∧ s1.TexturedJobCount 1 = 0) ∧
    texStart.drawTexturedCalls (List.replicate 2049 quadCall) =
      .error (.outOfBounds .TexturedJobList) := by
  constructor
  · obtain ⟨s1, h1, hs1⟩ := quad_run_ok 2048 texStart 0 texStart_quadState (by decide)
    exact ⟨s1, h1, hs1.2.2.1, hs1.2.2.2⟩
  · exact quad_run_overflow 2048 texStart 0 texStart_quadState (by decide)

theorem drawPolygonTexture_no_texture (s : Render) (vertices : List Vertex)
    (verticesCount primitive texW texH texKey : Int) (m : Bool) (c : TextureCache)
    (hB : s.isBatching ≠ 0) (hW : 0 < texW) (hH : 0 < texH) (hN : 4 ≤ verticesCount)
    (hget : s._textureCache.getCachedTexture m texW texH texKey = .ok (c, none)) :
    s.drawPolygonTexture vertices verticesCount primitive texW texH texKey m =
      .error .nullDeref := by
  have hw : ¬ (¬ (texW > 0 ∧ texH > 0)) := by
    intro h
    exact h ⟨hW, hH⟩
  have hn : ¬ (¬ (verticesCount ≥ 4)) := fun h => h hN
  simp only [Render.drawPolygonTexture, hB, if_false, hw, hn, hget]

/-- C5 (failing input): with batching active, a textured quad whose
4096 by 4096 bitmap fills the atlas is buffered, and the next textured quad,
for whose 1 by 1 bitmap no free atlas node is left, makes
`getCachedTexture` return no texture; `drawPolygonTexture` then reads `t->id`
through the null pointer instead of skipping the draw. -/
theorem missing_texture_null_deref :
    (∃ s1 c, texStart.drawTexturedCalls (exhaustingCalls.take 1) = .ok s1 ∧
      s1._textureCache.getCachedTexture true 1 1 2 = .ok (c, none)) ∧
    texStart.drawTexturedCalls exhaustingCalls = .error .nullDeref := by
  have h1 : texStart.drawTexturedCalls (exhaustingCalls.take 1) = .ok exhaustedState := rfl
  have h2 : exhaustedState._textureCache.getCachedTexture true 1 1 2 =
      .ok (exhaustedCache, none) := rfl
  refine ⟨⟨_, _, h1, h2⟩, ?_⟩
  have h3 : exhaustingCalls = exhaustingCalls.take 1 ++
      [{ vertices := quad, primitive := 0, texW := 1, texH := 1, texKey := 2,
         mallocOk := true }] := rfl
  rw [h3, drawTexturedCalls_append _ _ _ _ h1]
  simp only [Render.drawTexturedCalls]
  rw [drawPolygonTexture_no_texture exhaustedState quad _ 0 1 1 2 true exhaustedCache
    (by decide) (by decide) (by decide) (by decide) h2]

theorem drawPolygonTexture_test_fails (s : Render) (vertices : List Vertex)
    (primitive texW texH texKey : Int) (m : Bool) (cache : TextureCache) (a : Nat) (t : Texture)
    (hB : s.isBatching ≠ 0) (hW : 0 < texW) (hH : 0 < texH) (hN : 4 ≤ vertices.length)
    (hint : vertices.length < 2 ^ 31)
    (hget : s._textureCache.getCachedTexture m texW texH texKey = .ok (cache, some a))
    (hread : Heap.read cache.heap a = some t) (hid : t.id < MAX_ATLASES)
    (hc : s.TexturedJobCount t.id ≤ MAX_JOBS)
    (hover : MAX_JOBS < s.TexturedJobCount t.id + (vertices.length - 2)) :
    s.drawPolygonTexture vertices vertices.length primitive texW texH texKey m =
      .ok ({ s with _textureCache := cache }.warning .cannotAllocateJob) := by
  have hw : ¬ (¬ (texW > 0 ∧ texH > 0)) := fun h => h ⟨hW, hH⟩
  have hn : ¬ (¬ ((vertices.length : Int) ≥ 4)) := fun h => h (by omega)
  have ha1 : ¬ (¬ (t.id ≤ MAX_ATLASES)) := fun h => h (by omega)
  have ha2 : ¬ (¬ (t.id < MAX_ATLASES)) := fun h => h hid
  have hM : MAX_JOBS = 4096 := rfl
  have htest : ((s.TexturedJobCount t.id : Int) + ((vertices.length : Int) - 2)) % 2 ^ 32 >
      (MAX_JOBS : Int) := by
    rw [hM] at hc hover ⊢
    rw [Int.emod_eq_of_lt (by omega) (by omega)]
    omega
  simp only [Render.drawPolygonTexture, hB, if_false, hw, hn, hget, hread, ha1, ha2, htest,
    if_true]

theorem bigPolygon_length : bigPolygon.length = 4099 := by
  unfold bigPolygon
  rw [List.length_map, List.length_range]

theorem texStart_counts (i : Nat) : texStart.TexturedJobCount i = 0 := by
  simp only [texStart, Render.setupTexJobList, MAX_ATLASES, Render.new]
  simp [List.range_succ]

/-- C9 (counterexample): in a fresh renderer after `setupTexJobList` every
slot holds `c = 0` triangles; a batched `drawPolygonTexture` call with a
polygon of 4099 vertices submits `N - 2 = 4097` triangles, so
`c <= MAX_JOBS < c + N - 2`.  The call returns with the warning, and instead of
the first `MAX_JOBS - c = 4096` triangles being appended every slot count is
still 0 and no buffer entry has changed. -/
theorem textured_overflow_counterexample :
    bigPolygon.length = 4099 ∧ (∀ i, texStart.TexturedJobCount i = 0) ∧
    ∃ s1, texStart.drawPolygonTexture bigPolygon bigPolygon.length 0 64 64 7 true = .ok s1 ∧
      (∀ i, s1.TexturedJobCount i = 0) ∧
      s1.TexturedJobList = texStart.TexturedJobList ∧
      s1.warnings = [.cannotAllocateJob] := by
  refine ⟨bigPolygon_length, texStart_counts, _,
    drawPolygonTexture_test_fails texStart bigPolygon 0 64 64 7 true
      quadCache 0 quadTexture (by decide) (by decide) (by decide)
      (by rw [bigPolygon_length]; decide) (by rw [bigPolygon_length]; decide)
      texStart_quadState.2.1 quadCache_read (by decide) (by decide)
      (by rw [bigPolygon_length]; decide), fun i => texStart_counts i, rfl, rfl⟩

/-- C9 (amended): when batching is active and the capacity test of
`drawPolygonTexture` fails, that is the slot count `c` the test reads
satisfies `c <= MAX_JOBS < c + N - 2`, the whole polygon is dropped: the call
returns with exactly one warning more, and no triangle buffer, no triangle
count and nothing else but the texture cache (by the lookup) has changed. -/
theorem textured_overflow_drops_call (s : Render) (vertices : List Vertex)
    (primitive texW texH texKey : Int) (m : Bool) (cache : TextureCache) (a : Nat) (t : Texture)
    (hB : s.isBatching ≠ 0) (hW : 0 < texW) (hH : 0 < texH) (hN : 4 ≤ vertices.length)
    (hint : vertices.length < 2 ^ 31)
    (hget : s._textureCache.getCachedTexture m texW texH texKey = .ok (cache, some a))
    (hread : Heap.read cache.heap a = some t) (hid : t.id < MAX_ATLASES)
    (hc : s.TexturedJobCount t.id ≤ MAX_JOBS)
    (hover : MAX_JOBS < s.TexturedJobCount t.id + (vertices.length - 2)) :
    ∃ s1, s.drawPolygonTexture vertices vertices.length primitive texW texH texKey m = .ok s1 ∧
      s1.TexturedJobList = s.TexturedJobList ∧ s1.TexturedJobCount = s.TexturedJobCount ∧
      s1.warnings = s.warnings ++ [.cannotAllocateJob] ∧ s1._textureCache = cache ∧
      s1.JobList = s.JobList ∧ s1.JobCount = s.JobCount ∧ s1.isBatching = s.isBatching ∧
      s1.draws = s.draws :=
  ⟨_, drawPolygonTexture_test_fails s vertices primitive texW texH texKey m cache a t hB hW hH
    hN hint hget hread hid hc hover, rfl, rfl, rfl, rfl, rfl, rfl, rfl, rfl⟩

theorem textured_overflow_drops_call_witness :
    ∃ s1, texStart.drawPolygonTexture bigPolygon bigPolygon.length 0 64 64 7 true = .ok s1 ∧
      s1.TexturedJobList = texStart.TexturedJobList ∧
      s1.TexturedJobCount = texStart.TexturedJobCount ∧
      s1.warnings = texStart.warnings ++ [.cannotAllocateJob] ∧
      s1._textureCache = quadCache ∧
      s1.JobList = texStart.JobList ∧ s1.JobCount = texStart.JobCount ∧
      s1.isBatching = texStart.isBatching ∧ s1.draws = texStart.draws :=
  textured_overflow_drops_call texStart bigPolygon 0 64 64 7 true quadCache 0 quadTexture
    (by decide) (by decide) (by decide) (by simp [bigPolygon_length])
    (by simp [bigPolygon_length]) rfl rfl (by decide) (by decide)
    (by simp [bigPolygon_length, texStart_counts, MAX_JOBS])

theorem flushJobList_fields (s : Render) :
    (s.flushJobList).JobCount = s.JobCount ∧ (s.flushJobList).isBatching = 0 := by
  unfold Render.flushJobList
  split <;> exact ⟨rfl, rfl⟩

theorem flushTexJobList_fold (f : Render → Nat → Render)
    (hf : ∀ s i, (f s i).TexturedJobCount i = 0 ∧
      ∀ j, j ≠ i → (f s i).TexturedJobCount j = s.TexturedJobCount j) :
    ∀ (n : Nat) (s : Render) (i : Nat), i < n →
      ((List.range n).foldl f s).TexturedJobCount i = 0
  | 0, _, _, h => absurd h (Nat.not_lt_zero _)
  | n + 1, s, i, h => by
    rw [List.range_succ, List.foldl_append]
    simp only [List.foldl_cons, List.foldl_nil]
    by_cases hin : i = n
    · subst hin
      exact (hf _ _).1
    · rw [(hf _ n).2 i hin]
      exact flushTexJobList_fold f hf n s i (by omega)

theorem flushTexJobList_fields (s : Render) :
    (∀ i, i < MAX_ATLASES → (s.flushTexJobList).TexturedJobCount i = 0) ∧
    (s.flushTexJobList).isBatching = 0 := by
  refine ⟨fun i hi => ?_, rfl⟩
  unfold Render.flushTexJobList
  refine flushTexJobList_fold _ (fun s i => ?_) MAX_ATLASES s i hi
  by_cases h0 : s.TexturedJobCount i ≠ 0
  · rw [if_pos h0]
    exact ⟨by simp, fun j hj => by simp [hj]⟩
  · have h0' : s.TexturedJobCount i = 0 := by simpa using h0
    rw [if_neg h0]
    exact ⟨h0', fun j _ => rfl⟩

/-- C10 (failing input): after `setupJobList` and one batched flat quad, the
flat buffer holds two triangles; `flushJobList` clears `isBatching` but leaves
`JobCount` at 2, and a second `flushJobList` submits the same two triangles
once more. -/
theorem flushJobList_keeps_count :
    ∃ s1, flatStart.drawPolygonFlat demoColors quad quad.length 512 = .ok s1 ∧
      s1.JobCount = 2 ∧ (s1.flushJobList).JobCount = 2 ∧ (s1.flushJobList).isBatching = 0 ∧
      (s1.flushJobList).draws.length = 1 ∧
      ((s1.flushJobList).flushJobList).draws.length = 2 := by
  refine ⟨_, drawPolygonFlat_batched flatStart demoColors quad 512 (by decide) (by decide),
    ?_, ?_, ?_, ?_, ?_⟩ <;> rfl

/-! ### Single splits -/

theorem wrapInt_eq {z : Int} (h0 : -2 ^ 31 ≤ z) (h1 : z < 2 ^ 31) : wrapInt z = z := by
  unfold wrapInt
  rw [Int.emod_eq_of_lt (by omega) (by omega)]
  omega

theorem splitNode32_eq (occ x y W H : Int) (c0 c1 : AtlasNode) (w h : Int)
    (hx0 : -2 ^ 31 ≤ x + w) (hx1 : x + w < 2 ^ 31) (hy0 : -2 ^ 31 ≤ y + h)
    (hy1 : y + h < 2 ^ 31) (hw0 : -2 ^ 31 ≤ W - w) (hw1 : W - w < 2 ^ 31)
    (hh0 : -2 ^ 31 ≤ H - h) (hh1 : H - h < 2 ^ 31) :
    (AtlasNode.node occ x y W H c0 c1).splitNode32 w h =
      (AtlasNode.node occ x y W H c0 c1).splitNode w h := by
  simp only [AtlasNode.splitNode32, AtlasNode.splitNode, wrapInt_eq hx0 hx1, wrapInt_eq hy0 hy1,
    wrapInt_eq hw0 hw1, wrapInt_eq hh0 hh1]

theorem splitNode32_sizes (occ x y W H : Int) (c0 c1 : AtlasNode) (w h : Int)
    (hw0 : -2 ^ 31 ≤ W - w) (hw1 : W - w < 2 ^ 31)
    (hh0 : -2 ^ 31 ≤ H - h) (hh1 : H - h < 2 ^ 31) :
    (AtlasNode.node occ x y W H c0 c1).splitNode32 w h =
      if W - w > H - h then
        .node 1 x y w h (AtlasNode.mk (wrapInt (x + w)) y (W - w) h)
          (AtlasNode.mk x (wrapInt (y + h)) W (H - h))
      else
        .node 1 x y w h (AtlasNode.mk x (wrapInt (y + h)) w (H - h))
          (AtlasNode.mk (wrapInt (x + w)) y (W - w) H) := by
  simp only [AtlasNode.splitNode32, wrapInt_eq hw0 hw1, wrapInt_eq hh0 hh1]

theorem splitNode_partition_exact (x y W H : Int) (c0 c1 : AtlasNode) (w h : Int)
    (hw0 : 0 ≤ w) (hw : w ≤ W) (hh0 : 0 ≤ h) (hh : h ≤ H) :
    ∃ a b, (AtlasNode.node 0 x y W H c0 c1).splitNode w h = .node 1 x y w h a b ∧
      (∃ ax ay aw ah, a = .node 0 ax ay aw ah .null .null) ∧
      (∃ bx bz bw bh, b = .node 0 bx bz bw bh .null .null) ∧
      ¬ (Rect.mk x y w h).overlaps a.rect ∧ ¬ (Rect.mk x y w h).overlaps b.rect ∧
      ¬ a.rect.overlaps b.rect ∧
      ∀ px py, (Rect.mk x y W H).contains px py ↔
        ((Rect.mk x y w h).contains px py ∨ a.rect.contains px py ∨ b.rect.contains px py) := by
  by_cases hd : W - w > H - h
  · refine ⟨AtlasNode.mk (x + w) y (W - w) h, AtlasNode.mk x (y + h) W (H - h), ?_,
      ⟨_, _, _, _, rfl⟩, ⟨_, _, _, _, rfl⟩, ?_, ?_, ?_, ?_⟩
    · simp [AtlasNode.splitNode, hd]
    · rintro ⟨px, py, h1, h2⟩
      simp only [AtlasNode.mk, AtlasNode.rect, Rect.contains] at h1 h2
      omega
    · rintro ⟨px, py, h1, h2⟩
      simp only [AtlasNode.mk, AtlasNode.rect, Rect.contains] at h1 h2
      omega
    · rintro ⟨px, py, h1, h2⟩
      simp only [AtlasNode.mk, AtlasNode.rect, Rect.contains] at h1 h2
      omega
    · intro px py
      simp only [AtlasNode.mk, AtlasNode.rect, Rect.contains]
      omega
  · refine ⟨AtlasNode.mk x (y + h) w (H - h), AtlasNode.mk (x + w) y (W - w) H, ?_,
      ⟨_, _, _, _, rfl⟩, ⟨_, _, _, _, rfl⟩, ?_, ?_, ?_, ?_⟩
    · simp [AtlasNode.splitNode, hd]
    · rintro ⟨px, py, h1, h2⟩
      simp only [AtlasNode.mk, AtlasNode.rect, Rect.contains] at h1 h2
      omega
    · rintro ⟨px, py, h1, h2⟩
      simp only [AtlasNode.mk, AtlasNode.rect, Rect.contains] at h1 h2
      omega
    · rintro ⟨px, py, h1, h2⟩
      simp only [AtlasNode.mk, AtlasNode.rect, Rect.contains] at h1 h2
      omega
    · intro px py
      simp only [AtlasNode.mk, AtlasNode.rect, Rect.contains]
      omega

/-- C14 (counterexample): the node `(0, 0, 2147483647, 10)` and
`splitNode(-1, 0)`.  The difference `dw = 2147483647 - (-1)` does not fit an
`int` and comes out as `-2147483648`, the branch `dw <= dh` is taken, and the
children are `(0, 0, -1, 10)` and `(-1, 0, -2147483648, 10)`: their areas add up
to `-21474836490`, not to `W * H - w * h = 21474836470`. -/
theorem splitNode32_area_counterexample :
    (AtlasNode.node 0 0 0 2147483647 10 .null .null).splitNode32 (-1) 0 =
      .node 1 0 0 (-1) 0 (AtlasNode.mk 0 0 (-1) 10) (AtlasNode.mk (-1) 0 (-2147483648) 10) ∧
    (AtlasNode.mk 0 0 (-1) 10).area + (AtlasNode.mk (-1) 0 (-2147483648) 10).area =
      -21474836490 ∧
    (2147483647 : Int) * 10 - (-1) * 0 = 21474836470 := by
  refine ⟨by decide, by decide, by decide⟩

/-- C14 (amended): for every node of size `W` by `H` (whatever its position,
occupancy and children) and every `(w, h)` for which the differences `W - w`
and `H - h` fit an `int`, `splitNode(w, h)` leaves the node with two children
whose areas add up to `W * H - w * h`, in the branch `dw > dh` and in the
branch `dw <= dh`. -/
theorem splitNode32_area (occ x y W H : Int) (c0 c1 : AtlasNode) (w h : Int)
    (hw0 : -2 ^ 31 ≤ W - w) (hw1 : W - w < 2 ^ 31)
    (hh0 : -2 ^ 31 ≤ H - h) (hh1 : H - h < 2 ^ 31) :
    ∃ a b, (AtlasNode.node occ x y W H c0 c1).splitNode32 w h = .node 1 x y w h a b ∧
      a.area + b.area = W * H - w * h ∧
      (W - w > H - h → a.area = (W - w) * h ∧ b.area = W * (H - h)) ∧
      (¬ W - w > H - h → a.area = w * (H - h) ∧ b.area = (W - w) * H) := by
  rw [splitNode32_sizes occ x y W H c0 c1 w h hw0 hw1 hh0 hh1]
  by_cases hd : W - w > H - h
  · rw [if_pos hd]
    refine ⟨_, _, rfl, ?_, fun _ => ⟨rfl, rfl⟩, fun h1 => absurd hd h1⟩
    simp only [AtlasNode.mk, AtlasNode.area]
    ring
  · rw [if_neg hd]
    refine ⟨_, _, rfl, ?_, fun h1 => absurd h1 hd, fun _ => ⟨rfl, rfl⟩⟩
    simp only [AtlasNode.mk, AtlasNode.area]
    ring

theorem splitNode32_area_witness :
    ∃ a b, (AtlasNode.node 0 0 0 4096 4096 .null .null).splitNode32 64 32 =
        .node 1 0 0 64 32 a b ∧
      a.area + b.area = 4096 * 4096 - 64 * 32 ∧
      ((4096 : Int) - 64 > 4096 - 32 → a.area = (4096 - 64) * 32 ∧ b.area = 4096 * (4096 - 32)) ∧
      (¬ (4096 : Int) - 64 > 4096 - 32 →
        a.area = 64 * (4096 - 32) ∧ b.area = (4096 - 64) * 4096) :=
  splitNode32_area 0 0 0 4096 4096 .null .null 64 32 (by decide) (by decide) (by decide)
    (by decide)

/-- C15 (counterexample): the unoccupied node `(2147483647, 0, 10, 10)` and
`splitNode(5, 5)`, with `0 <= 5 <= 10`.  The sum `x + w` does not fit an `int`
and comes out as `-2147483644`, so the children are `(2147483647, 5, 5, 5)` and
`(-2147483644, 0, 5, 10)`: the texel `(2147483653, 0)` of the original
rectangle lies in none of the three rectangles, and the texel
`(-2147483644, 0)` of the second child does not lie in the original
rectangle. -/
theorem splitNode32_partition_counterexample :
    (AtlasNode.node 0 2147483647 0 10 10 .null .null).splitNode32 5 5 =
      .node 1 2147483647 0 5 5 (AtlasNode.mk 2147483647 5 5 5)
        (AtlasNode.mk (-2147483644) 0 5 10) ∧
    (Rect.mk 2147483647 0 10 10).contains 2147483653 0 ∧
    ¬ (Rect.mk 2147483647 0 5 5).contains 2147483653 0 ∧
    ¬ (AtlasNode.mk 2147483647 5 5 5).rect.contains 2147483653 0 ∧
    ¬ (AtlasNode.mk (-2147483644) 0 5 10).rect.contains 2147483653 0 ∧
    (AtlasNode.mk (-2147483644) 0 5 10).rect.contains (-2147483644) 0 ∧
    ¬ (Rect.mk 2147483647 0 10 10).contains (-2147483644) 0 := by
  refine ⟨by decide, ?_, ?_, ?_, ?_, ?_, ?_⟩ <;>
    simp [Rect.contains, AtlasNode.mk, AtlasNode.rect]

/-- C15 (amended): for every unoccupied node whose rectangle `(x, y, W, H)`
has its corners `x`, `y`, `x + W`, `y + H` and its sizes `W`, `H` in the range
of `int`, and every `(w, h)` with `0 <= w <= W` and `0 <= h <= H`,
`splitNode(w, h)` leaves the node occupied with the rectangle `(x, y, w, h)` and
with two children that are unoccupied nodes without children; the three
rectangles share no texel with each other, and a texel lies in the original
rectangle exactly when it lies in one of the three. -/
theorem splitNode32_partition (x y W H : Int) (c0 c1 : AtlasNode) (w h : Int)
    (hw0 : 0 ≤ w) (hw : w ≤ W) (hh0 : 0 ≤ h) (hh : h ≤ H)
    (hx : -2 ^ 31 ≤ x) (hxW : x + W < 2 ^ 31) (hy : -2 ^ 31 ≤ y) (hyH : y + H < 2 ^ 31)
    (hWr : W < 2 ^ 31) (hHr : H < 2 ^ 31) :
    ∃ a b, (AtlasNode.node 0 x y W H c0 c1).splitNode32 w h = .node 1 x y w h a b ∧
      (∃ ax ay aw ah, a = .node 0 ax ay aw ah .null .null) ∧
      (∃ bx bz bw bh, b = .node 0 bx bz bw bh .null .null) ∧
      ¬ (Rect.mk x y w h).overlaps a.rect ∧ ¬ (Rect.mk x y w h).overlaps b.rect ∧
      ¬ a.rect.overlaps b.rect ∧
      ∀ px py, (Rect.mk x y W H).contains px py ↔
        ((Rect.mk x y w h).contains px py ∨ a.rect.contains px py ∨ b.rect.contains px py) := by
  rw [splitNode32_eq 0 x y W H c0 c1 w h (by omega) (by omega) (by omega) (by omega) (by omega)
    (by omega) (by omega) (by omega)]
  exact splitNode_partition_exact x y W H c0 c1 w h hw0 hw hh0 hh

theorem splitNode32_partition_witness :
    ∃ a b, (AtlasNode.node 0 0 0 4096 4096 .null .null).splitNode32 64 32 =
        .node 1 0 0 64 32 a b ∧
      (∃ ax ay aw ah, a = .node 0 ax ay aw ah .null .null) ∧
      (∃ bx bz bw bh, b = .node 0 bx bz bw bh .null .null) ∧
      ¬ (Rect.mk 0 0 64 32).overlaps a.rect ∧ ¬ (Rect.mk 0 0 64 32).overlaps b.rect ∧
      ¬ a.rect.overlaps b.rect ∧
      ∀ px py, (Rect.mk 0 0 4096 4096).contains px py ↔
        ((Rect.mk 0 0 64 32).contains px py ∨ a.rect.contains px py ∨
          b.rect.contains px py) :=
  splitNode32_partition 0 0 4096 4096 .null .null 64 32 (by decide) (by decide) (by decide)
    (by decide) (by decide) (by decide) (by decide) (by decide) (by decide) (by decide)

/-! ### The frustum tests -/

theorem quadPlanes_iff (_frustum : Nat → Vertex4f) (p : Vertex) :
    ∀ (l : List Nat), quadPlanes _frustum p l = true ↔ ∀ i ∈ l, planeTest (_frustum i) p > 0
  | [] => by simp [quadPlanes]
  | i :: l => by
    simp only [quadPlanes, List.mem_cons, forall_eq_or_imp]
    by_cases h : planeTest (_frustum i) p ≤ 0
    · simp only [h, if_true]
      constructor
      · intro h1; cases h1
      · intro h1; exact absurd h1.1 (not_lt.mpr h)
    · simp only [h, if_false, quadPlanes_iff _frustum p l]
      constructor
      · intro h1; exact ⟨lt_of_not_le h, h1⟩
      · intro h1; exact h1.2

theorem quadLoop_true (_frustum : Nat → Vertex4f) (vertices : List Vertex) :
    ∀ (count k : Nat), quadLoop _frustum vertices count k true = .ok true
  | 0, _ => rfl
  | _ + 1, _ => rfl

theorem quadLoop_spec (_frustum : Nat → Vertex4f) (vertices : List Vertex) :
    ∀ (count k : Nat), k + count ≤ vertices.length →
      ∃ b, quadLoop _frustum vertices count k false = .ok b ∧
        (b = true ↔ ∃ j, k ≤ j ∧ j < k + count ∧ ∃ p, vertices[j]? = some p ∧
          ∀ i, i < 6 → planeTest (_frustum i) p > 0)
  | 0, k, _ => ⟨false, rfl, by
      constructor
      · intro h; cases h
      · rintro ⟨j, h1, h2, -⟩; omega⟩
  | count + 1, k, hlen => by
    have hk : k < vertices.length := by omega
    simp only [quadLoop, Bool.false_eq_true, if_false, List.getElem?_eq_getElem hk]
    cases hq : quadPlanes _frustum vertices[k] (List.range 6) with
    | true =>
      refine ⟨true, quadLoop_true _ _ _ _, ?_⟩
      simp only [true_iff]
      refine ⟨k, le_refl _, by omega, vertices[k], List.getElem?_eq_getElem hk, ?_⟩
      intro i hi
      exact (quadPlanes_iff _frustum _ _).mp hq i (List.mem_range.mpr hi)
    | false =>
      obtain ⟨b, hb, hiff⟩ := quadLoop_spec _frustum vertices count (k + 1) (by omega)
      refine ⟨b, hb, ?_⟩
      rw [hiff]
      constructor
      · rintro ⟨j, h1, h2, h3⟩
        exact ⟨j, by omega, by omega, h3⟩
      · rintro ⟨j, h1, h2, p, hp, hall⟩
        by_cases hjk : j = k
        · subst hjk
          rw [List.getElem?_eq_getElem hk] at hp
          cases hp
          have : quadPlanes _frustum vertices[j] (List.range 6) = true :=
            (quadPlanes_iff _frustum _ _).mpr (fun i hi => hall i (List.mem_range.mp hi))
          rw [this] at hq
          cases hq
        · exact ⟨j, by omega, by omega, p, hp, hall⟩

/-- C12: with exact numbers, `isQuadInFrustrum` on four points returns, and it
returns true exactly when at least one of the four points `p` has
`plane.x * p.x + plane.y * p.y + plane.z * p.z + plane.w > 0` for all six
planes. -/
theorem isQuadInFrustrum_iff (_frustum : Nat → Vertex4f) (p0 p1 p2 p3 : Vertex) :
    ∃ b, isQuadInFrustrum _frustum [p0, p1, p2, p3] 4 = .ok b ∧
      (b = true ↔ ∃ p ∈ [p0, p1, p2, p3], ∀ i, i < 6 →
        (_frustum i).x * (p.x : ℚ) + (_frustum i).y * (p.y : ℚ) + (_frustum i).z * (p.z : ℚ) +
          (_frustum i).w > 0) := by
  obtain ⟨b, hb, hiff⟩ := quadLoop_spec _frustum [p0, p1, p2, p3] 4 0 (by simp)
  refine ⟨b, ?_, ?_⟩
  · simpa [isQuadInFrustrum] using hb
  · rw [hiff]
    constructor
    · rintro ⟨j, -, -, p, hp, hall⟩
      exact ⟨p, List.getElem?_mem hp, hall⟩
    · rintro ⟨p, hp, hall⟩
      obtain ⟨j, hj, hpj⟩ := List.getElem_of_mem hp
      refine ⟨j, Nat.zero_le _, by simpa using hj, p, ?_, hall⟩
      rw [List.getElem?_eq_getElem hj, hpj]

theorem boxPoints_spec (f : Vertex4f) (vertices : List Vertex) :
    ∀ (l : List Nat), (∀ j ∈ l, j < vertices.length) →
      ∃ b, boxPoints f vertices l = .ok b ∧
        (b = true ↔ ∃ j ∈ l, ∃ p, vertices[j]? = some p ∧ planeTest f p > 0)
  | [], _ => ⟨false, rfl, by simp⟩
  | j :: l, hl => by
    have hj : j < vertices.length := hl j (List.mem_cons_self _ _)
    simp only [boxPoints, List.getElem?_eq_getElem hj]
    by_cases hp : planeTest f vertices[j] > 0
    · rw [if_pos hp]
      refine ⟨true, rfl, ?_⟩
      simp only [true_iff]
      exact ⟨j, List.mem_cons_self _ _, vertices[j], List.getElem?_eq_getElem hj, hp⟩
    · rw [if_neg hp]
      obtain ⟨b, hb, hiff⟩ := boxPoints_spec f vertices l
        (fun x hx => hl x (List.mem_cons_of_mem _ hx))
      refine ⟨b, hb, ?_⟩
      rw [hiff]
      constructor
      · rintro ⟨x, hx, h3⟩
        exact ⟨x, List.mem_cons_of_mem _ hx, h3⟩
      · rintro ⟨x, hx, p, hpx, hpos⟩
        rcases List.mem_cons.mp hx with rfl | hx
        · rw [List.getElem?_eq_getElem hj] at hpx
          cases hpx
          exact absurd hpos hp
        · exact ⟨x, hx, p, hpx, hpos⟩

theorem boxPlanes_spec (_frustum : Nat → Vertex4f) (vertices : List Vertex) :
    ∀ (l : List Nat),
      ∃ b, boxPlanes _frustum vertices vertices.length l = .ok b ∧
        (b = true ↔ ∀ i ∈ l, ∃ p ∈ vertices, planeTest (_frustum i) p > 0)
  | [] => ⟨true, rfl, by simp⟩
  | i :: l => by
    obtain ⟨b1, hb1, hiff1⟩ := boxPoints_spec (_frustum i) vertices
      (List.range vertices.length) (fun j hj => List.mem_range.mp hj)
    have hmem : (∃ j ∈ List.range vertices.length, ∃ p, vertices[j]? = some p ∧
        planeTest (_frustum i) p > 0) ↔ ∃ p ∈ vertices, planeTest (_frustum i) p > 0 := by
      constructor
      · rintro ⟨j, -, p, hp, hpos⟩
        exact ⟨p, List.getElem?_mem hp, hpos⟩
      · rintro ⟨p, hp, hpos⟩
        obtain ⟨j, hj, hpj⟩ := List.getElem_of_mem hp
        exact ⟨j, List.mem_range.mpr hj, p, by rw [List.getElem?_eq_getElem hj, hpj], hpos⟩
    rw [hmem] at hiff1
    simp only [boxPlanes, hb1]
    cases b1 with
    | false =>
      refine ⟨false, rfl, ?_⟩
      constructor
      · intro h; cases h
      · intro hall
        have := hiff1.mpr (hall i (List.mem_cons_self _ _))
        cases this
    | true =>
      obtain ⟨b, hb, hiff⟩ := boxPlanes_spec _frustum vertices l
      refine ⟨b, hb, ?_⟩
      rw [hiff]
      constructor
      · intro hall x hx
        rcases List.mem_cons.mp hx with rfl | hx
        · exact hiff1.mp rfl
        · exact hall x hx
      · intro hall x hx
        exact hall x (List.mem_cons_of_mem _ hx)

/-- C13: with exact numbers, `isBoxInFrustrum` on eight points returns, and it
returns true exactly when for every one of the six planes at least one of the
eight points `p` has
`plane.x * p.x + plane.y * p.y + plane.z * p.z + plane.w > 0`. -/
theorem isBoxInFrustrum_iff (_frustum : Nat → Vertex4f) (p0 p1 p2 p3 p4 p5 p6 p7 : Vertex) :
    ∃ b, isBoxInFrustrum _frustum [p0, p1, p2, p3, p4, p5, p6, p7] 8 = .ok b ∧
      (b = true ↔ ∀ i, i < 6 → ∃ p ∈ [p0, p1, p2, p3, p4, p5, p6, p7],
        (_frustum i).x * (p.x : ℚ) + (_frustum i).y * (p.y : ℚ) + (_frustum i).z * (p.z : ℚ) +
          (_frustum i).w > 0) := by
  obtain ⟨b, hb, hiff⟩ := boxPlanes_spec _frustum [p0, p1, p2, p3, p4, p5, p6, p7]
    (List.range 6)
  refine ⟨b, ?_, ?_⟩
  · simpa [isBoxInFrustrum] using hb
  · rw [hiff]
    constructor
    · intro hall i hi
      exact hall i (List.mem_range.mpr hi)
    · intro hall i hi
      exact hall i (List.mem_range.mp hi)

theorem isBoxInFrustrum_of_length (_frustum : Nat → Vertex4f) (vertices : List Vertex)
    (hlen : vertices.length = 8) :
    ∃ b, isBoxInFrustrum _frustum vertices 8 = .ok b ∧
      (b = true ↔ ∀ i, i < 6 → ∃ p ∈ vertices, planeTest (_frustum i) p > 0) := by
  obtain ⟨b, hb, hiff⟩ := boxPlanes_spec _frustum vertices (List.range 6)
  rw [hlen] at hb
  refine ⟨b, ?_, ?_⟩
  · simpa [isBoxInFrustrum] using hb
  · rw [hiff]
    constructor
    · intro hall i hi
      exact hall i (List.mem_range.mpr hi)
    · intro hall i hi
      exact hall i (List.mem_range.mp hi)

theorem planeTest_combination (f : Vertex4f) (p : Fin 8 → Vertex) (lam : Fin 8 → ℝ)
    (hsum : ∑ j, lam j = 1) :
    ∑ j, lam j * ((planeTest f (p j) : ℚ) : ℝ) =
      (f.x : ℝ) * (∑ j, lam j * ((p j).x : ℝ)) + (f.y : ℝ) * (∑ j, lam j * ((p j).y : ℝ)) +
        (f.z : ℝ) * (∑ j, lam j * ((p j).z : ℝ)) + (f.w : ℝ) := by
  have hterm : ∀ j, lam j * ((planeTest f (p j) : ℚ) : ℝ) =
      (f.x : ℝ) * (lam j * ((p j).x : ℝ)) + (f.y : ℝ) * (lam j * ((p j).y : ℝ)) +
        (f.z : ℝ) * (lam j * ((p j).z : ℝ)) + (f.w : ℝ) * lam j := by
    intro j
    simp only [planeTest]
    push_cast
    ring
  simp only [hterm, Finset.sum_add_distrib, ← Finset.mul_sum, hsum, mul_one]

/-- C20: with exact numbers, for every six planes and every eight points, if
some convex combination of the eight points (weights `lam j >= 0` with sum 1;
in particular one of the points itself) lies strictly on the positive side of
all six planes, then `isBoxInFrustrum` returns true. -/
theorem isBoxInFrustrum_conservative (_frustum : Nat → Vertex4f) (p : Fin 8 → Vertex)
    (lam : Fin 8 → ℝ) (hnn : ∀ j, 0 ≤ lam j) (hsum : ∑ j, lam j = 1)
    (hin : ∀ i, i < 6 →
      ((_frustum i).x : ℝ) * (∑ j, lam j * ((p j).x : ℝ)) +
        ((_frustum i).y : ℝ) * (∑ j, lam j * ((p j).y : ℝ)) +
        ((_frustum i).z : ℝ) * (∑ j, lam j * ((p j).z : ℝ)) + ((_frustum i).w : ℝ) > 0) :
    isBoxInFrustrum _frustum (List.ofFn p) 8 = .ok true := by
  obtain ⟨b, hb, hiff⟩ := isBoxInFrustrum_of_length _frustum (List.ofFn p) (by simp)
  have hb1 : b = true := by
    rw [hiff]
    intro i hi
    by_contra hnone
    have hall : ∀ j, planeTest (_frustum i) (p j) ≤ 0 := by
      intro j
      by_contra hj
      exact hnone ⟨p j, (List.mem_ofFn _ _).mpr ⟨j, rfl⟩, lt_of_not_le hj⟩
    have hle : ∑ j, lam j * ((planeTest (_frustum i) (p j) : ℚ) : ℝ) ≤ 0 := by
      apply Finset.sum_nonpos
      intro j _
      have h1 : ((planeTest (_frustum i) (p j) : ℚ) : ℝ) ≤ 0 := by exact_mod_cast hall j
      exact mul_nonpos_iff.mpr (Or.inl ⟨hnn j, h1⟩)
    rw [planeTest_combination _ p lam hsum] at hle
    exact absurd (hin i hi) (not_lt.mpr hle)
  rw [hb, hb1]

theorem isBoxInFrustrum_conservative_witness :
    isBoxInFrustrum demoFrustum (List.ofFn demoBox) 8 = .ok true :=
  isBoxInFrustrum_conservative demoFrustum demoBox (fun j => if j = 1 then 1 else 0)
    (fun j => by beta_reduce; split_ifs <;> simp)
    (by simp [Fin.sum_univ_eight])
    (fun i _ => by simp [Fin.sum_univ_eight, demoFrustum, demoBox])

/-! ### Sentinel key, unhandled colour, unhandled primitive -/

/-- C11 (failing input): in a fresh cache `createTexture` makes the anonymous
320 by 200 overlay texture, which gets the key -1; a following
`getCachedTexture` for a 64 by 64 bitmap with the key -1 returns that record
and creates nothing (the state is unchanged).  Likewise a second
`getCachedTexture` with the key -1 returns the record the first one made. -/
theorem anonymous_key_is_looked_up :
    ((TextureCache.init 1).createTexture true 320 200 = .ok (overlayCache, some 0) ∧
      overlayCache.getCachedTexture true 64 64 (-1) = .ok (overlayCache, some 0) ∧
      (Heap.read overlayCache.heap 0).map Texture.rect = some ⟨0, 0, 320, 200⟩) ∧
    ((TextureCache.init 1).getCachedTexture true 64 64 (-1) = .ok (anonymousCache, some 0) ∧
      anonymousCache.getCachedTexture true 32 32 (-1) = .ok (anonymousCache, some 0)) :=
  ⟨⟨rfl, rfl, rfl⟩, rfl, rfl⟩

theorem flatColor_unhandled (s : Render) (k : FlatColors) (color : Int)
    (h1 : color ≠ k.kFlatColorRed) (h2 : color ≠ k.kFlatColorGreen)
    (h3 : color ≠ k.kFlatColorYellow) (h4 : color ≠ k.kFlatColorBlue)
    (h5 : color ≠ k.kFlatColorShadow) (h6 : color ≠ k.kFlatColorLight)
    (hr : ¬ (0 ≤ color ∧ color < 256)) :
    s.flatColor k color = ((0, 0, 0, 1), some (.unhandledColor color)) := by
  simp only [Render.flatColor, h1, h2, h3, h4, h5, h6, hr, if_false]

/-- C18 (counterexample): after `setupJobList`, `drawPolygonFlat` on a quad
with the colour index 999 (none of the named colours, not in 0..255) reports
the warning and appends the two triangles of the quad: the triangle count goes
from 0 to 2. -/
theorem unhandled_colour_counterexample :
    flatStart.JobCount = 0 ∧
    ∃ s1, flatStart.drawPolygonFlat demoColors quad quad.length 999 = .ok s1 ∧
      s1.warnings = [.unhandledColor 999] ∧ s1.JobCount = 2 ∧
      s1.flatBuffer = fanTriangles quad 0 0 0 1 := by
  refine ⟨rfl, _, drawPolygonFlat_batched flatStart demoColors quad 999 (by decide) (by decide),
    rfl, rfl, rfl⟩

/-- C18 (amended): when batching is active and the colour is none of the named
flat colours and not in 0..255, `drawPolygonFlat` reports the warning and then
buffers the polygon like any other: its fan triangles are appended to the flat
buffer, as far as the buffer has room, with every vertex in the colour
`(0, 0, 0, 1)`; the overflow warning follows when a triangle is dropped. -/
theorem unhandled_colour_still_draws (s : Render) (k : FlatColors) (vertices : List Vertex)
    (color : Int) (hB : s.isBatching ≠ 0) (hc : s.JobCount ≤ MAX_JOBS)
    (h1 : color ≠ k.kFlatColorRed) (h2 : color ≠ k.kFlatColorGreen)
    (h3 : color ≠ k.kFlatColorYellow) (h4 : color ≠ k.kFlatColorBlue)
    (h5 : color ≠ k.kFlatColorShadow) (h6 : color ≠ k.kFlatColorLight)
    (hr : ¬ (0 ≤ color ∧ color < 256)) :
    ∃ s1, s.drawPolygonFlat k vertices vertices.length color = .ok s1 ∧
      s1.flatBuffer = s.flatBuffer ++ (fanTriangles vertices 0 0 0 1).take (MAX_JOBS - s.JobCount) ∧
      s1.warnings = s.warnings ++ [.unhandledColor color] ++
        (if s.JobCount + (vertices.length - 2) > MAX_JOBS then [.tooManyJobs] else []) := by
  have hcol := flatColor_unhandled s k color h1 h2 h3 h4 h5 h6 hr
  obtain ⟨s1, hs1, -, -, -, hbuf, hw⟩ := drawPolygonFlat_buffer s k ⟨vertices, color⟩ hB hc
  refine ⟨s1, hs1, ?_, ?_⟩
  · rw [hbuf]
    simp only [Render.fanOf, hcol]
  · rw [hw]
    simp only [Render.colorWarnings, Render.fanOf, hcol, fanTriangles_length, Option.toList]

theorem unhandled_colour_still_draws_witness :
    ∃ s1, flatStart.drawPolygonFlat demoColors pentagon pentagon.length (-3) = .ok s1 ∧
      s1.flatBuffer = flatStart.flatBuffer ++
        (fanTriangles pentagon 0 0 0 1).take (MAX_JOBS - flatStart.JobCount) ∧
      s1.warnings = flatStart.warnings ++ [.unhandledColor (-3)] ++
        (if flatStart.JobCount + (pentagon.length - 2) > MAX_JOBS then [.tooManyJobs] else []) :=
  unhandled_colour_still_draws flatStart demoColors pentagon (-3) (by decide) (by decide)
    (by decide) (by decide) (by decide) (by decide) (by decide) (by decide) (by decide)

/-- C19 (failing input): after `setupTexJobList`, `drawPolygonTexture` on a
quad with the primitive 11 returns with the counts of all
MAX_ATLASES slots still 0, the slot arrays untouched and without
any warning, while the same call with batching inactive (the immediate path
`_drawPolygonTexture`) reports the unhandled-primitive warning. -/
theorem unhandled_primitive_is_silent :
    (∃ s1, texStart.drawPolygonTexture quad quad.length 11 64 64 7 true = .ok s1 ∧
      s1.warnings = [] ∧
      (List.range MAX_ATLASES).map s1.TexturedJobCount = [0, 0, 0, 0] ∧
      s1.TexturedJobList = texStart.TexturedJobList) ∧
    ∃ s2, (Render.new 1).drawPolygonTexture quad quad.length 11 64 64 7 true = .ok s2 ∧
      s2.warnings = [.unhandledPrimitive 11] :=
  ⟨⟨_, rfl, rfl, rfl, rfl⟩, _, rfl, rfl⟩

/-! ### Flush -/

theorem Heap.freeList_seg : ∀ (l : List Nat) (h : Heap) (p : Option Nat) (fuel : Nat),
    Heap.Seg h p l none → l.Nodup → l.length ≤ fuel →
    ∃ h1, Heap.freeList h fuel p = .ok h1 ∧ h1.length = h.length
  | [], h, p, fuel, hs, _, _ => by
    have hp : p = none := hs
    subst hp
    cases fuel <;> exact ⟨h, by simp [Heap.freeList], rfl⟩
  | a :: l, h, p, fuel, hs, hnd, hlen => by
    obtain ⟨hp, t, ht, hrest⟩ := hs
    subst hp
    cases fuel with
    | zero => simp at hlen
    | succ f =>
      have hnd2 := List.nodup_cons.mp hnd
      have hseg : Heap.Seg (Heap.free h a) t.next l none := by
        refine Heap.Seg.frame_eq (fun b hb => ?_) hrest
        rw [Heap.read_free, if_neg]
        rintro rfl
        exact hnd2.1 hb
      obtain ⟨h1, hf, hl1⟩ := Heap.freeList_seg l (Heap.free h a) t.next f hseg hnd2.2
        (by simpa using hlen)
      refine ⟨h1, ?_, ?_⟩
      · simp only [Heap.freeList, ht]
        exact hf
      · rw [hl1, Heap.length_free]

theorem flush_total {c : TextureCache} {L : List (Nat × Texture)} (hh : c.Holds L) (tex : Nat) :
    ∃ c1, c.flush tex = .ok c1 ∧ c1.Holds [] ∧ c1.atlas = Atlas.new tex c.maxTexSz ∧
      c1.maxTexSz = c.maxTexSz ∧ c1._texturesListHead = none ∧ c1._texturesListTail = none := by
  obtain ⟨h1, hf, -⟩ := Heap.freeList_seg _ c.heap c._texturesListHead c.heap.length
    hh.1.1 hh.1.2.1 hh.1.length_le
  have hfl : ∃ c1, c.flush tex = .ok c1 ∧ c1._texturesListHead = none ∧
      c1._texturesListTail = none := by
    simp only [TextureCache.flush, hf]
    exact ⟨_, rfl, rfl, rfl⟩
  obtain ⟨c1, hfl, hhd, htl⟩ := hfl
  obtain ⟨h2, h3, h4⟩ := flush_holds hfl
  exact ⟨c1, hfl, h2, h3, h4, hhd, htl⟩

theorem findFreeNode_fresh (x y s w h : Int) (hw : w ≤ s) (hh : h ≤ s) :
    (AtlasNode.mk x y s s).findFreeNode w h = some [] := by
  simp [AtlasNode.mk, AtlasNode.findFreeNode, hw, hh]

theorem placedTexture_fresh {c : TextureCache} {tex : Nat} (hat : c.atlas = Atlas.new tex c.maxTexSz)
    (w h : Int) : (c.placedTexture w h []).rect = ⟨0, 0, w, h⟩ := by
  simp only [TextureCache.placedTexture, hat, Atlas.new, AtlasNode.mk, AtlasNode.splitAt,
    AtlasNode.splitNode, AtlasNode.nodeAt, Texture.rect]
  split <;> rfl

/-- C16: in every state the cache reaches, `flush` returns, and afterwards the
cache list is empty (head and tail are null) and the atlas tree is the single
unoccupied root `(0, 0, maxTexSz, maxTexSz)`.  Hence a free node of the full
size `maxTexSz` by `maxTexSz` is found, and for every size `w, h <= maxTexSz`
(in particular the full size) the next `createTexture`, and the next
`getCachedTexture` under any key, succeeds and places its record at
`(0, 0)` as the only entry of the list. -/
theorem flush_resets_capacity (tex : Nat) (ops : List Op) (c : TextureCache)
    (log : List Texture) (hreach : (TextureCache.init tex).run ops = .ok (c, log))
    (tex1 : Nat) :
    ∃ c1, c.flush tex1 = .ok c1 ∧ c1.entries = [] ∧ c1._texturesListHead = none ∧
      c1._texturesListTail = none ∧ c1.maxTexSz = c.maxTexSz ∧
      c1.atlas.tree = AtlasNode.mk 0 0 c1.maxTexSz c1.maxTexSz ∧
      c1.atlas.tree.nodes = [⟨[], 0, 0, 0, c1.maxTexSz, c1.maxTexSz⟩] ∧
      c1.atlas.tree.findFreeNode c1.maxTexSz c1.maxTexSz = some [] ∧
      ∀ w h key, w ≤ c1.maxTexSz → h ≤ c1.maxTexSz →
        (∃ c2 t, c1.createTexture true w h = .ok (c2, some c1.heap.length) ∧
          Heap.read c2.heap c1.heap.length = some t ∧ t.rect = ⟨0, 0, w, h⟩ ∧
          c2.entries = [(c1.heap.length, t.data)]) ∧
        (∃ c2 t, c1.getCachedTexture true w h key = .ok (c2, some c1.heap.length) ∧
          Heap.read c2.heap c1.heap.length = some t ∧ t.rect = ⟨0, 0, w, h⟩ ∧
          t.key = key ∧ c2.entries = [(c1.heap.length, t.data)]) := by
  obtain ⟨⟨L, hL⟩, -⟩ := reachable_holds hreach
  obtain ⟨c1, hfl, hh1, hat, hsz, hhd, htl⟩ := flush_total hL tex1
  have hat1 : c1.atlas = Atlas.new tex1 c1.maxTexSz := by rw [hat, hsz]
  have htree : c1.atlas.tree = AtlasNode.mk 0 0 c1.maxTexSz c1.maxTexSz := by
    rw [hat1]
    rfl
  refine ⟨c1, hfl, hh1.entries_eq, hhd, htl, hsz, htree, ?_, ?_, ?_⟩
  · rw [htree]
    rfl
  · rw [htree]
    exact findFreeNode_fresh 0 0 _ _ _ le_rfl le_rfl
  · intro w h key hw hh
    have hp : c1.atlas.tree.findFreeNode w h = some [] := by
      rw [htree]
      exact findFreeNode_fresh 0 0 _ w h hw hh
    constructor
    · obtain ⟨c2, hc2, hh2, hr2, -⟩ := createTexture_holds hh1 hp
      refine ⟨c2, _, hc2, hr2, placedTexture_fresh hat1 w h, ?_⟩
      rw [hh2.entries_eq]
      rfl
    · obtain ⟨c2, hc2, hh2, hr2, -⟩ :=
        getCachedTexture_miss_success hh1 (fun x hx => absurd hx (List.not_mem_nil x)) hp
      refine ⟨c2, _, hc2, hr2, placedTexture_fresh hat1 w h, rfl, ?_⟩
      rw [hh2.entries_eq]
      rfl

theorem flush_resets_capacity_witness :
    ∃ c1, scenarioState.flush 2 = .ok c1 ∧ c1.entries = [] ∧ c1._texturesListHead = none ∧
      c1._texturesListTail = none ∧ c1.maxTexSz = scenarioState.maxTexSz ∧
      c1.atlas.tree = AtlasNode.mk 0 0 c1.maxTexSz c1.maxTexSz ∧
      c1.atlas.tree.nodes = [⟨[], 0, 0, 0, c1.maxTexSz, c1.maxTexSz⟩] ∧
      c1.atlas.tree.findFreeNode c1.maxTexSz c1.maxTexSz = some [] ∧
      ∀ w h key, w ≤ c1.maxTexSz → h ≤ c1.maxTexSz →
        (∃ c2 t, c1.createTexture true w h = .ok (c2, some c1.heap.length) ∧
          Heap.read c2.heap c1.heap.length = some t ∧ t.rect = ⟨0, 0, w, h⟩ ∧
          c2.entries = [(c1.heap.length, t.data)]) ∧
        (∃ c2 t, c1.getCachedTexture true w h key = .ok (c2, some c1.heap.length) ∧
          Heap.read c2.heap c1.heap.length = some t ∧ t.rect = ⟨0, 0, w, h⟩ ∧
          t.key = key ∧ c2.entries = [(c1.heap.length, t.data)]) :=
  flush_resets_capacity 1 scenarioOps scenarioState scenarioLog rfl 2

/-! ### Keys and rectangles of the cached records -/

theorem keysUnique_symm :
    Symmetric (fun (e1 e2 : Nat × Texture) => e1.2.key = e2.2.key → e1.2.key = -1) := by
  intro a b hab hba
  rw [hba]
  exact hab hba.symm

theorem init_good (tex : Nat) : (TextureCache.init tex).Good [] [] :=
  ⟨init_holds tex, List.Pairwise.nil, AtlasInv.fresh 0 0 4096 4096,
    fun e he => absurd he (List.not_mem_nil e)⟩

theorem TextureCache.Good.grow_good {c : TextureCache} {L : List (Nat × Texture)}
    {placed : List Rect} (hg : c.Good L placed) (x : Option Texture) :
    TextureCache.Good { c with heap := c.heap ++ [x] } L placed :=
  ⟨hg.1.grow_list x, hg.2.1, hg.2.2.1, hg.2.2.2⟩

theorem TextureCache.Good.add {c c1 : TextureCache} {L : List (Nat × Texture)}
    {placed : List Rect} {w h : Int} {p : List Bool} {key : Int} (hg : c.Good L placed)
    (hw : 0 < w) (hh : 0 < h) (hp : c.atlas.tree.findFreeNode w h = some p)
    (hh1 : c1.Holds (L ++ [(c.heap.length, { c.placedTexture w h p with key := key })]))
    (hat : c1.atlas = { c.atlas with tree := c.atlas.tree.splitAt p w h })
    (hkey : ∀ x ∈ L, x.2.key = key → key = -1) :
    c1.Good (L ++ [(c.heap.length, { c.placedTexture w h p with key := key })])
      (placed ++ [({ c.placedTexture w h p with key := key } : Texture).rect]) := by
  obtain ⟨-, hku, hinv, hrect⟩ := hg
  refine ⟨hh1, ?_, ?_, ?_⟩
  · refine List.pairwise_append.mpr ⟨hku, List.pairwise_singleton _ _, ?_⟩
    intro a ha b hb hab
    rw [List.mem_singleton] at hb
    subst hb
    have := hkey a ha hab
    rw [hab]
    exact this
  · rw [hat]
    exact hinv.place hw hh hp
  · intro e he
    rcases List.mem_append.mp he with he | he
    · exact List.mem_append_left _ (hrect e he)
    · rw [List.mem_singleton] at he
      subst he
      exact List.mem_append_right _ (List.mem_singleton_self _)

theorem step_good {c c1 : TextureCache} {op : Op} {r : Option Nat}
    {L : List (Nat × Texture)} {placed : List Rect} (hg : c.Good L placed)
    (hpos : op.sizesPositive = true) (hs : c.step op = .ok (c1, r)) :
    ∃ L1 placed1, c1.Good L1 placed1 ∧
      (op.isFlush = false → ∀ x ∈ placed, x ∈ placed1) ∧
      (∀ K : Int, K ≠ -1 → op.avoids K = true → (∀ e ∈ L, e.2.key ≠ K) →
        ∀ e ∈ L1, e.2.key ≠ K) := by
  have hh := hg.1
  cases op with
  | getCachedTexture m w h key =>
    simp only [Op.sizesPositive, Bool.and_eq_true, decide_eq_true_eq] at hpos
    simp only [TextureCache.step] at hs
    rcases first_key_split L key with hall | ⟨A, e, R, rfl, hA, he⟩
    · rcases createTexture_cases c m w h with hf | ⟨rfl, p, hp⟩
      · obtain ⟨x, hx⟩ := getCachedTexture_miss_fail hh hall m w h hf
        rw [hx] at hs
        cases hs
        exact ⟨L, placed, hg.grow_good x, fun _ x hx => hx, fun K _ _ hK => hK⟩
      · obtain ⟨c2, hc2, hh2, -, -, hat, -, -⟩ := getCachedTexture_miss_success hh hall hp
        rw [hc2] at hs
        cases hs
        refine ⟨_, _, hg.add hpos.1 hpos.2 hp hh2 hat (fun x hx hk => absurd hk (hall x hx)),
          fun _ x hx => List.mem_append_left _ hx, ?_⟩
        intro K _ hav hK e he
        rcases List.mem_append.mp he with he | he
        · exact hK e he
        · rw [List.mem_singleton] at he
          subst he
          simpa [Op.avoids] using hav
    · obtain ⟨c2, hc2, hh2, hat, -, -⟩ := getCachedTexture_hit hh hA he m w h
      rw [hc2] at hs
      cases hs
      have hperm : List.Perm (e :: (A ++ R)) (A ++ e :: R) := List.perm_middle.symm
      refine ⟨_, placed, ⟨hh2, ?_, ?_, ?_⟩, fun _ x hx => hx, ?_⟩
      · exact (hperm.pairwise_iff (fun {a b} hab => keysUnique_symm hab)).mpr hg.2.1
      · rw [hat]
        exact hg.2.2.1
      · intro x hx
        exact hg.2.2.2 x (hperm.mem_iff.mp hx)
      · intro K _ _ hK x hx
        exact hK x (hperm.mem_iff.mp hx)
  | createTexture m w h =>
    simp only [Op.sizesPositive, Bool.and_eq_true, decide_eq_true_eq] at hpos
    simp only [TextureCache.step] at hs
    rcases createTexture_cases c m w h with hf | ⟨rfl, p, hp⟩
    · obtain ⟨x, hx⟩ := createTexture_fail c m w h hf
      rw [hx] at hs
      cases hs
      exact ⟨L, placed, hg.grow_good x, fun _ x hx => hx, fun K _ _ hK => hK⟩
    · obtain ⟨c2, hc2, hh2, -, -, hat, -, -⟩ := createTexture_holds hh hp
      rw [hc2] at hs
      cases hs
      have hh3 : c1.Holds
          (L ++ [(c.heap.length, ({ c.placedTexture w h p with key := -1 } : Texture))]) := hh2
      have hadd := hg.add hpos.1 hpos.2 hp hh3 hat (fun _ _ _ => rfl)
      refine ⟨_, _, hadd, fun _ x hx => List.mem_append_left _ hx, ?_⟩
      intro K hK1 _ hK e he
      rcases List.mem_append.mp he with he | he
      · exact hK e he
      · rw [List.mem_singleton] at he
        subst he
        exact fun hk => hK1 hk.symm
  | destroyTexture a =>
    simp only [TextureCache.step] at hs
    cases hr : Heap.read c.heap a with
    | none =>
      simp [TextureCache.destroyTexture, hr] at hs
    | some ta =>
      obtain ⟨c2, hc2, hh2, hat, -, -⟩ := destroyTexture_holds hh hr
      rw [hc2] at hs
      cases hs
      refine ⟨_, placed, ⟨hh2, hg.2.1.sublist (List.filter_sublist _), ?_, ?_⟩,
        fun _ x hx => hx, ?_⟩
      · rw [hat]
        exact hg.2.2.1
      · intro x hx
        exact hg.2.2.2 x (List.mem_of_mem_filter hx)
      · intro K _ _ hK x hx
        exact hK x (List.mem_of_mem_filter hx)
  | flush tex =>
    simp only [TextureCache.step] at hs
    split at hs
    · cases hs
    · rename_i c2 hf
      cases hs
      obtain ⟨h1, h2, -⟩ := flush_holds hf
      refine ⟨[], [], ⟨h1, List.Pairwise.nil, ?_, fun e he => absurd he (List.not_mem_nil e)⟩,
        fun hfl => by simp [Op.isFlush] at hfl, fun K _ _ _ e he => absurd he (List.not_mem_nil e)⟩
      rw [h2]
      exact AtlasInv.fresh 0 0 _ _

theorem Op.not_flush_of_avoids {op : Op} {K : Int} (h : op.avoids K = true) :
    op.isFlush = false := by
  cases op <;> simp [Op.avoids, Op.isFlush] at h ⊢

theorem run_good : ∀ (ops : List Op) {c c2 : TextureCache} {log : List Texture}
    {L : List (Nat × Texture)} {placed : List Rect}, c.Good L placed →
    c.run ops = .ok (c2, log) → (∀ op ∈ ops, op.sizesPositive = true) →
    ∃ L2 placed2, c2.Good L2 placed2
  | [], c, c2, log, L, placed, hg, hrun, _ => by
    simp only [TextureCache.run] at hrun
    cases hrun
    exact ⟨L, placed, hg⟩
  | op :: ops, c, c2, log, L, placed, hg, hrun, hpos => by
    simp only [TextureCache.run] at hrun
    split at hrun
    · cases hrun
    · rename_i c1 r hs
      split at hrun
      · cases hrun
      · rename_i c3 log1 hrun1
        cases hrun
        obtain ⟨L1, placed1, hg1, -, -⟩ := step_good hg (hpos op (List.mem_cons_self _ _)) hs
        exact run_good ops hg1 hrun1 (fun o ho => hpos o (List.mem_cons_of_mem _ ho))

theorem run_good_avoids {K : Int} (hK : K ≠ -1) : ∀ (ops : List Op) {c c2 : TextureCache}
    {log : List Texture} {L : List (Nat × Texture)} {placed : List Rect}, c.Good L placed →
    c.run ops = .ok (c2, log) → (∀ op ∈ ops, op.sizesPositive = true) →
    (∀ op ∈ ops, op.avoids K = true) → (∀ e ∈ L, e.2.key ≠ K) →
    ∃ L2 placed2, c2.Good L2 placed2 ∧ (∀ x ∈ placed, x ∈ placed2) ∧ ∀ e ∈ L2, e.2.key ≠ K
  | [], c, c2, log, L, placed, hg, hrun, _, _, hL => by
    simp only [TextureCache.run] at hrun
    cases hrun
    exact ⟨L, placed, hg, fun x hx => hx, hL⟩
  | op :: ops, c, c2, log, L, placed, hg, hrun, hpos, hav, hL => by
    simp only [TextureCache.run] at hrun
    split at hrun
    · cases hrun
    · rename_i c1 r hs
      split at hrun
      · cases hrun
      · rename_i c3 log1 hrun1
        cases hrun
        have hav1 := hav op (List.mem_cons_self _ _)
        obtain ⟨L1, placed1, hg1, hsub, hkeys⟩ :=
          step_good hg (hpos op (List.mem_cons_self _ _)) hs
        obtain ⟨L2, placed2, hg2, hsub2, hkeys2⟩ := run_good_avoids hK ops hg1 hrun1
          (fun o ho => hpos o (List.mem_cons_of_mem _ ho))
          (fun o ho => hav o (List.mem_cons_of_mem _ ho)) (hkeys K hK hav1 hL)
        exact ⟨L2, placed2, hg2,
          fun x hx => hsub2 x (hsub (Op.not_flush_of_avoids hav1) x hx), hkeys2⟩

theorem Rect.not_overlaps_of_empty {r s : Rect} (h : ¬ (0 < r.w ∧ 0 < r.h)) :
    ¬ r.overlaps s := by
  rintro ⟨px, py, hr, -⟩
  unfold Rect.contains at hr
  omega

theorem TextureCache.Good.destroy {c c1 : TextureCache} {L : List (Nat × Texture)}
    {placed : List Rect} (hg : c.Good L placed) {e : Nat × Texture} (he : e ∈ L)
    (hK : e.2.key ≠ -1) (hh1 : c1.Holds (L.filter (fun x => decide (x.1 ≠ e.1))))
    (hat : c1.atlas = c.atlas) :
    c1.Good (L.filter (fun x => decide (x.1 ≠ e.1))) placed ∧
      ∀ x ∈ L.filter (fun x => decide (x.1 ≠ e.1)), x.2.key ≠ e.2.key := by
  refine ⟨⟨hh1, hg.2.1.sublist (List.filter_sublist _), ?_, ?_⟩, ?_⟩
  · rw [hat]
    exact hg.2.2.1
  · intro x hx
    exact hg.2.2.2 x (List.mem_of_mem_filter hx)
  · intro x hx hk
    have hx1 : x ∈ L := List.mem_of_mem_filter hx
    have hx2 : x.1 ≠ e.1 := by simpa using (List.mem_filter.mp hx).2
    have hne : x ≠ e := fun h => hx2 (by rw [h])
    have := hg.2.1.forall keysUnique_symm hx1 he hne hk
    exact hK (by rw [← hk]; exact this)

/-- C17 (counterexample): in a fresh cache a 4096 by 4096 texture is cached
under the key 1 (record at address 0, filling the atlas) and destroyed; the
next `getCachedTexture` with the key 1 is a miss but creates no record: it
returns the null pointer and the list stays empty. -/
theorem destroyed_key_counterexample :
    (TextureCache.init 1).getCachedTexture true 4096 4096 1 = .ok (fullCache, some 0) ∧
    (Heap.read fullCache.heap 0).map Texture.key = some 1 ∧
    fullCache.destroyTexture 0 = .ok fullDestroyed ∧
    ∃ c2, fullDestroyed.getCachedTexture true 4096 4096 1 = .ok (c2, none) ∧
      c2.entries = [] :=
  ⟨rfl, rfl, rfl, _, rfl, rfl⟩

/-- C17 (amended): in every state the cache reaches through calls that all
ask for positive sizes, let `a` be a record of the list with the key `K`, `K`
not -1.  `destroyTexture` on it returns, and after any further calls that ask
for positive sizes and neither flush nor ask for the key `K` (in particular
directly afterwards) no entry of the list has the key `K`, so
`getCachedTexture` with the key `K` is a miss: when
the allocation fails or no free atlas node fits it returns the null pointer
and leaves list and atlas as they are; otherwise it creates a new record, at
an address that was not allocated, with the key `K` and a rectangle of the
requested size that does not overlap the destroyed record's rectangle, and
appends it to the list. -/
theorem destroyed_key_is_missed (tex : Nat) (ops : List Op) (c : TextureCache)
    (log : List Texture) (hreach : (TextureCache.init tex).run ops = .ok (c, log))
    (hpos : ∀ op ∈ ops, op.sizesPositive = true) (a : Nat) (K : Int) (hK : K ≠ -1)
    (ha : a ∈ c.entries.map Prod.fst)
    (hkey : (Heap.read c.heap a).map Texture.key = some K)
    (ops2 : List Op) (hpos2 : ∀ op ∈ ops2, op.sizesPositive = true)
    (hav : ∀ op ∈ ops2, op.avoids K = true) :
    ∃ c1 ta, Heap.read c.heap a = some ta ∧ c.destroyTexture a = .ok c1 ∧
      ∀ c2 log2, c1.run ops2 = .ok (c2, log2) →
        (∀ e ∈ c2.entries, e.2.key ≠ K) ∧
        ∀ (m : Bool) (w h : Int),
          ((m = false ∨ c2.atlas.tree.findFreeNode w h = none) →
            ∃ c3, c2.getCachedTexture m w h K = .ok (c3, none) ∧
              c3.entries = c2.entries ∧ c3.atlas = c2.atlas) ∧
          (m = true → ∀ p, c2.atlas.tree.findFreeNode w h = some p →
            ∃ c3 t, c2.getCachedTexture m w h K = .ok (c3, some c2.heap.length) ∧
              Heap.read c2.heap c2.heap.length = none ∧
              Heap.read c3.heap c2.heap.length = some t ∧
              t.key = K ∧ t.texW = w ∧ t.texH = h ∧ ¬ t.rect.overlaps ta.rect ∧
              c3.entries = c2.entries ++ [(c2.heap.length, t.data)]) := by
  obtain ⟨L, placed, hg⟩ := run_good ops (init_good tex) hreach hpos
  rw [hg.1.entries_eq] at ha
  obtain ⟨e, heL, rfl⟩ := List.mem_map.mp ha
  obtain ⟨ta, hta, hdata⟩ := hg.1.read_entry heL
  have hkey1 : ta.key = K := by simpa [hta] using hkey
  have hek : e.2.key = K := by rw [← hdata]; exact hkey1
  have hrect : ta.rect ∈ placed := by
    have := hg.2.2.2 e heL
    rw [← hdata] at this
    exact this
  obtain ⟨c1, hc1, hh1, hat1, -, -⟩ := destroyTexture_holds hg.1 hta
  obtain ⟨hg1, hno1⟩ := hg.destroy heL (by rw [hek]; exact hK) hh1 hat1
  rw [hek] at hno1
  refine ⟨c1, ta, hta, hc1, ?_⟩
  intro c2 log2 hrun2
  obtain ⟨L2, placed2, hg2, hsub, hno2⟩ := run_good_avoids hK ops2 hg1 hrun2 hpos2 hav hno1
  have hent : c2.entries = L2 := hg2.1.entries_eq
  refine ⟨by rw [hent]; exact hno2, ?_⟩
  intro m w h
  constructor
  · intro hf
    obtain ⟨x, hx⟩ := getCachedTexture_miss_fail hg2.1 hno2 m w h hf
    refine ⟨_, hx, ?_, rfl⟩
    rw [hent, (hg2.1.grow_list x).entries_eq]
  · rintro rfl p hp
    obtain ⟨c3, hc3, hh3, hr3, -, -, -, -⟩ := getCachedTexture_miss_success hg2.1 hno2 hp
    refine ⟨c3, _, hc3, ?_, hr3, rfl, rfl, rfl, ?_, ?_⟩
    · cases hr : Heap.read c2.heap c2.heap.length with
      | none => rfl
      | some t => exact absurd (Heap.read_lt hr) (lt_irrefl _)
    · by_cases hwh : 0 < w ∧ 0 < h
      · have hinv := hg2.2.2.1.place hwh.1 hwh.2 hp
        have hsep := (List.pairwise_append.mp hinv.2.2.1).2.2 ta.rect (hsub _ hrect) _
          (List.mem_singleton_self _)
        exact Rect.not_overlaps_of_sep (Rect.sep_symm hsep)
      · exact Rect.not_overlaps_of_empty hwh
    · rw [hent, hh3.entries_eq]
      rfl

theorem destroyed_key_is_missed_witness :
    ∃ c1 ta, Heap.read twoKeysState.heap 0 = some ta ∧
      twoKeysState.destroyTexture 0 = .ok c1 ∧
      ∀ c2 log2, c1.run otherKeysOps = .ok (c2, log2) →
        (∀ e ∈ c2.entries, e.2.key ≠ 1) ∧
        ∀ (m : Bool) (w h : Int),
          ((m = false ∨ c2.atlas.tree.findFreeNode w h = none) →
            ∃ c3, c2.getCachedTexture m w h 1 = .ok (c3, none) ∧
              c3.entries = c2.entries ∧ c3.atlas = c2.atlas) ∧
          (m = true → ∀ p, c2.atlas.tree.findFreeNode w h = some p →
            ∃ c3 t, c2.getCachedTexture m w h 1 = .ok (c3, some c2.heap.length) ∧
              Heap.read c2.heap c2.heap.length = none ∧
              Heap.read c3.heap c2.heap.length = some t ∧
              t.key = 1 ∧ t.texW = w ∧ t.texH = h ∧ ¬ t.rect.overlaps ta.rect ∧
              c3.entries = c2.entries ++ [(c2.heap.length, t.data)]) :=
  destroyed_key_is_missed 1 twoKeysOps twoKeysState twoKeysLog rfl (by decide) 0 1 (by decide)
    (List.Mem.head _) rfl otherKeysOps (by decide) (by decide)

/-! ### Key uniqueness -/

theorem keysUnique_append {L : List (Nat × Texture)} (hk : KeysUnique L) (e : Nat × Texture)
    (hkey : ∀ x ∈ L, x.2.key = e.2.key → e.2.key = -1) : KeysUnique (L ++ [e]) := by
  refine List.pairwise_append.mpr ⟨hk, List.pairwise_singleton _ _, ?_⟩
  intro a ha b hb hab
  rw [List.mem_singleton] at hb
  subst hb
  rw [hab]
  exact hkey a ha hab

theorem step_keys {c c1 : TextureCache} {op : Op} {r : Option Nat}
    {L : List (Nat × Texture)} (hh : c.Holds L) (hk : KeysUnique L)
    (hs : c.step op = .ok (c1, r)) : ∃ L1, c1.Holds L1 ∧ KeysUnique L1 := by
  cases op with
  | getCachedTexture m w h key =>
    simp only [TextureCache.step] at hs
    rcases first_key_split L key with hall | ⟨A, e, R, rfl, hA, he⟩
    · rcases createTexture_cases c m w h with hf | ⟨rfl, p, hp⟩
      · obtain ⟨x, hx⟩ := getCachedTexture_miss_fail hh hall m w h hf
        rw [hx] at hs
        cases hs
        exact ⟨L, hh.grow_list x, hk⟩
      · obtain ⟨c2, hc2, hh2, -⟩ := getCachedTexture_miss_success hh hall hp
        rw [hc2] at hs
        cases hs
        exact ⟨_, hh2, keysUnique_append hk _ (fun x hx hkx => absurd hkx (hall x hx))⟩
    · obtain ⟨c2, hc2, hh2, -⟩ := getCachedTexture_hit hh hA he m w h
      rw [hc2] at hs
      cases hs
      have hperm : List.Perm (e :: (A ++ R)) (A ++ e :: R) := List.perm_middle.symm
      exact ⟨_, hh2, (hperm.pairwise_iff (fun {a b} hab => keysUnique_symm hab)).mpr hk⟩
  | createTexture m w h =>
    simp only [TextureCache.step] at hs
    rcases createTexture_cases c m w h with hf | ⟨rfl, p, hp⟩
    · obtain ⟨x, hx⟩ := createTexture_fail c m w h hf
      rw [hx] at hs
      cases hs
      exact ⟨L, hh.grow_list x, hk⟩
    · obtain ⟨c2, hc2, hh2, -⟩ := createTexture_holds hh hp
      rw [hc2] at hs
      cases hs
      exact ⟨_, hh2, keysUnique_append hk _ (fun _ _ _ => rfl)⟩
  | destroyTexture a =>
    simp only [TextureCache.step] at hs
    cases hr : Heap.read c.heap a with
    | none =>
      simp [TextureCache.destroyTexture, hr] at hs
    | some ta =>
      obtain ⟨c2, hc2, hh2, -⟩ := destroyTexture_holds hh hr
      rw [hc2] at hs
      cases hs
      exact ⟨_, hh2, hk.sublist (List.filter_sublist _)⟩
  | flush tex =>
    simp only [TextureCache.step] at hs
    split at hs
    · cases hs
    · rename_i c2 hf
      cases hs
      exact ⟨[], (flush_holds hf).1, List.Pairwise.nil⟩

theorem run_keys : ∀ (ops : List Op) {c c2 : TextureCache} {log : List Texture}
    {L : List (Nat × Texture)}, c.Holds L → KeysUnique L → c.run ops = .ok (c2, log) →
    ∃ L2, c2.Holds L2 ∧ KeysUnique L2
  | [], c, c2, log, L, hh, hk, hrun => by
    simp only [TextureCache.run] at hrun
    cases hrun
    exact ⟨L, hh, hk⟩
  | op :: ops, c, c2, log, L, hh, hk, hrun => by
    simp only [TextureCache.run] at hrun
    split at hrun
    · cases hrun
    · rename_i c1 r hs
      split at hrun
      · cases hrun
      · rename_i c3 log1 hrun1
        cases hrun
        obtain ⟨L1, hh1, hk1⟩ := step_keys hh hk hs
        exact run_keys ops hh1 hk1 hrun1

theorem pairwise_length_le_one {α : Type} {R : α → α → Prop} :
    ∀ {l : List α}, l.Pairwise R → (∀ x ∈ l, ∀ y ∈ l, ¬ R x y) → l.length ≤ 1
  | [], _, _ => by simp
  | [_], _, _ => by simp
  | x :: y :: l, hp, hn => by
    exfalso
    exact hn x (List.mem_cons_self _ _) y (List.mem_cons_of_mem _ (List.mem_cons_self _ _))
      ((List.pairwise_cons.mp hp).1 y (List.mem_cons_self _ _))

theorem keysUnique_count {L : List (Nat × Texture)} (hk : KeysUnique L) {K : Int}
    (hK : K ≠ -1) : (L.filter (fun e => decide (e.2.key = K))).length ≤ 1 := by
  refine pairwise_length_le_one (hk.sublist (List.filter_sublist _)) ?_
  intro x hx y hy hxy
  have hx1 : x.2.key = K := by simpa using (List.mem_filter.mp hx).2
  have hy1 : y.2.key = K := by simpa using (List.mem_filter.mp hy).2
  exact hK (hx1.symm.trans (hxy (hx1.trans hy1.symm)))

/-- C26: in every state the cache reaches from a fresh cache by
`getCachedTexture`, `createTexture`, `destroyTexture` and `flush` calls, for
every key `K` other than -1 at most one entry of the cache list has the key
`K`: the entries with that key number at most one, and two entries with that
key are the same entry. -/
theorem keys_are_unique (tex : Nat) (ops : List Op) (c : TextureCache) (log : List Texture)
    (hreach : (TextureCache.init tex).run ops = .ok (c, log)) (K : Int) (hK : K ≠ -1) :
    (c.entries.filter (fun e => decide (e.2.key = K))).length ≤ 1 ∧
    ∀ e1 ∈ c.entries, ∀ e2 ∈ c.entries, e1.2.key = K → e2.2.key = K → e1 = e2 := by
  obtain ⟨L, hh, hk⟩ := run_keys ops (init_holds tex) List.Pairwise.nil hreach
  rw [hh.entries_eq]
  refine ⟨keysUnique_count hk hK, ?_⟩
  intro e1 h1 e2 h2 hk1 hk2
  by_contra hne
  have := hk.forall keysUnique_symm h1 h2 hne (hk1.trans hk2.symm)
  exact hK (hk1.symm.trans this)

theorem keys_are_unique_witness :
    (scenarioState.entries.filter (fun e => decide (e.2.key = 1))).length ≤ 1 ∧
    ∀ e1 ∈ scenarioState.entries, ∀ e2 ∈ scenarioState.entries,
      e1.2.key = 1 → e2.2.key = 1 → e1 = e2 :=
  keys_are_unique 1 scenarioOps scenarioState scenarioLog rfl 1 (by decide)

/-! ### Hits and misses -/

theorem find_key_split {L : List (Nat × Texture)} {key : Int} {e : Nat × Texture}
    (hf : L.find? (fun x => decide (x.2.key = key)) = some e) :
    e.2.key = key ∧ ∃ A R, L = A ++ e :: R ∧ ∀ x ∈ A, x.2.key ≠ key := by
  rcases first_key_split L key with hall | ⟨A, e1, R, rfl, hA, he⟩
  · have hmem := List.mem_of_find?_eq_some hf
    have hk : e.2.key = key := by simpa using List.find?_some hf
    exact absurd hk (hall e hmem)
  · rw [find_key_of_split hA he] at hf
    cases hf
    exact ⟨he, A, R, rfl, hA⟩

theorem find_key_none {L : List (Nat × Texture)} {key : Int}
    (hf : L.find? (fun x => decide (x.2.key = key)) = none) : ∀ x ∈ L, x.2.key ≠ key := by
  intro x hx
  simpa using List.find?_eq_none.mp hf x hx

/-- C23: in every state the cache reaches, when the list has an entry with the
key (the first such entry `e`, at address `a`, after the entries `A` and in
front of the entries `R`), `getCachedTexture` returns `a` and the list
afterwards is `e` followed by `A` and `R`: same length, same entries with the
same fields, head `a`, tail the last entry.  Nothing is created: no record is
allocated, the fields other than the link of every record in memory are
unchanged, and the atlas with its tree is unchanged. -/
theorem hit_promotes_entry (tex : Nat) (ops : List Op) (c : TextureCache) (log : List Texture)
    (hreach : (TextureCache.init tex).run ops = .ok (c, log)) (key : Int) (a : Nat)
    (hfind : (c.entries.find? (fun x => decide (x.2.key = key))).map Prod.fst = some a)
    (m : Bool) (w h : Int) :
    ∃ c1 e A R, c.entries = A ++ e :: R ∧ (∀ x ∈ A, x.2.key ≠ key) ∧ e.2.key = key ∧
      e.1 = a ∧ c.getCachedTexture m w h key = .ok (c1, some a) ∧
      c1.entries = e :: (A ++ R) ∧ c1.entries.length = c.entries.length ∧
      c1._texturesListHead = some a ∧
      c1._texturesListTail = (c1.entries.map Prod.fst).getLast? ∧
      c1.atlas = c.atlas ∧ c1.heap.length = c.heap.length ∧
      ∀ b, (Heap.read c1.heap b).map Texture.data = (Heap.read c.heap b).map Texture.data := by
  obtain ⟨⟨L, hh⟩, -⟩ := reachable_holds hreach
  rw [hh.entries_eq] at hfind ⊢
  cases hf : L.find? (fun x => decide (x.2.key = key)) with
  | none => simp [hf] at hfind
  | some e =>
    rw [hf] at hfind
    have hea : e.1 = a := by simpa using hfind
    obtain ⟨he, A, R, rfl, hA⟩ := find_key_split hf
    obtain ⟨c1, hc1, hh1, hat, -, hlen, hdata⟩ := getCachedTexture_hit hh hA he m w h
    have hent : c1.entries = e :: (A ++ R) := hh1.entries_eq
    refine ⟨c1, e, A, R, rfl, hA, he, hea, by rw [← hea]; exact hc1, hent, ?_, ?_, ?_, hat, hlen,
      hdata⟩
    · rw [hent]
      simp
      omega
    · have := hh1.1.1.head_eq
      rw [this, ← hea]
      rfl
    · rw [hent]
      exact hh1.1.2.2

theorem hit_promotes_entry_witness :
    ∃ c1 e A R, twoKeysState.entries = A ++ e :: R ∧ (∀ x ∈ A, x.2.key ≠ 2) ∧ e.2.key = 2 ∧
      e.1 = 1 ∧ twoKeysState.getCachedTexture false 8 8 2 = .ok (c1, some 1) ∧
      c1.entries = e :: (A ++ R) ∧ c1.entries.length = twoKeysState.entries.length ∧
      c1._texturesListHead = some 1 ∧
      c1._texturesListTail = (c1.entries.map Prod.fst).getLast? ∧
      c1.atlas = twoKeysState.atlas ∧ c1.heap.length = twoKeysState.heap.length ∧
      ∀ b, (Heap.read c1.heap b).map Texture.data =
        (Heap.read twoKeysState.heap b).map Texture.data :=
  hit_promotes_entry 1 twoKeysOps twoKeysState twoKeysLog rfl 2 1 rfl false 8 8

/-- C24: in every state the cache reaches (after any `getCachedTexture`,
`createTexture`, `destroyTexture` and `flush` calls), when no entry of the list
has the key, the allocation succeeds and `findFreeNode` finds a node,
`getCachedTexture` returns a new record, at an address that was not allocated,
which carries the requested key; the list afterwards is the old list followed
by the new record, and the tail pointer is the new record. -/
theorem miss_appends_at_tail (tex : Nat) (ops : List Op) (c : TextureCache)
    (log : List Texture) (hreach : (TextureCache.init tex).run ops = .ok (c, log))
    (key : Int) (hmiss : c.entries.find? (fun x => decide (x.2.key = key)) = none)
    (w h : Int) (p : List Bool) (hp : c.atlas.tree.findFreeNode w h = some p) :
    ∃ c1 t, c.getCachedTexture true w h key = .ok (c1, some c.heap.length) ∧
      Heap.read c.heap c.heap.length = none ∧
      Heap.read c1.heap c.heap.length = some t ∧ t.key = key ∧
      c1.entries = c.entries ++ [(c.heap.length, t.data)] ∧
      c1._texturesListTail = some c.heap.length ∧
      c1._texturesListHead = ((c.entries.map Prod.fst).head?).or (some c.heap.length) := by
  obtain ⟨⟨L, hh⟩, -⟩ := reachable_holds hreach
  rw [hh.entries_eq] at hmiss ⊢
  obtain ⟨c1, hc1, hh1, hr1, -⟩ := getCachedTexture_miss_success hh (find_key_none hmiss) hp
  refine ⟨c1, _, hc1, ?_, hr1, rfl, ?_, ?_, ?_⟩
  · cases hr : Heap.read c.heap c.heap.length with
    | none => rfl
    | some t => exact absurd (Heap.read_lt hr) (lt_irrefl _)
  · rw [hh1.entries_eq]
    rfl
  · rw [hh1.1.2.2]
    simp
  · rw [hh1.1.1.head_eq]
    cases L <;> simp

theorem miss_appends_at_tail_witness :
    ∃ c1 t, tailState.getCachedTexture true 32 32 9 = .ok (c1, some tailState.heap.length) ∧
      Heap.read tailState.heap tailState.heap.length = none ∧
      Heap.read c1.heap tailState.heap.length = some t ∧ t.key = 9 ∧
      c1.entries = tailState.entries ++ [(tailState.heap.length, t.data)] ∧
      c1._texturesListTail = some tailState.heap.length ∧
      c1._texturesListHead =
        ((tailState.entries.map Prod.fst).head?).or (some tailState.heap.length) :=
  miss_appends_at_tail 1 tailOps tailState tailLog rfl 9 rfl 32 32 _ rfl

/-! ### Destroying a record -/

theorem split_keeps_occupied {t : AtlasNode} {w h : Int} {p : List Bool} (hfl : t.FreeLeaves)
    (hfind : t.findFreeNode w h = some p) :
    (t.splitAt p w h).FreeLeaves ∧
    (∀ r : Rect, (∃ n ∈ t.nodes, n.occupied ≠ 0 ∧ n.rect = r) →
      ∃ n ∈ (t.splitAt p w h).nodes, n.occupied ≠ 0 ∧ n.rect = r) ∧
    ∃ n ∈ (t.splitAt p w h).nodes, n.occupied ≠ 0 ∧
      n.rect = ⟨((t.splitAt p w h).nodeAt p).getX, ((t.splitAt p w h).nodeAt p).getY, w, h⟩ := by
  obtain ⟨L1, L2, f, n, c0, c1, hn, hn1, hsh, hfl1, hx, hy⟩ := split_nodes t w h p hfl hfind
  obtain ⟨hf0, -, -, hn1o, hnr, -⟩ := hsh
  refine ⟨hfl1, ?_, ?_⟩
  · rintro r ⟨m, hm, hmo, hmr⟩
    refine ⟨m, ?_, hmo, hmr⟩
    rw [hn] at hm
    rw [hn1]
    rcases List.mem_append.mp hm with hm | hm
    · exact List.mem_append_left _ hm
    · rcases List.mem_cons.mp hm with rfl | hm
      · exact absurd hf0 hmo
      · simp [hm]
  · refine ⟨n, by rw [hn1]; simp, by rw [hn1o]; decide, ?_⟩
    rw [hnr, hx, hy]

theorem TextureCache.Occupied.add_entry {c c1 : TextureCache} {L : List (Nat × Texture)}
    {w h : Int} {p : List Bool} {key : Int} (ho : c.Occupied L)
    (hp : c.atlas.tree.findFreeNode w h = some p)
    (hat : c1.atlas = { c.atlas with tree := c.atlas.tree.splitAt p w h }) :
    c1.Occupied (L ++ [(c.heap.length, { c.placedTexture w h p with key := key })]) := by
  obtain ⟨hfl1, hkeep, hnew⟩ := split_keeps_occupied ho.1 hp
  refine ⟨by rw [hat]; exact hfl1, ?_⟩
  intro e he
  rw [hat]
  rcases List.mem_append.mp he with he | he
  · exact hkeep _ (ho.2 e he)
  · rw [List.mem_singleton] at he
    subst he
    exact hnew

theorem step_occupied {c c1 : TextureCache} {op : Op} {r : Option Nat}
    {L : List (Nat × Texture)} (hh : c.Holds L) (ho : c.Occupied L)
    (hs : c.step op = .ok (c1, r)) : ∃ L1, c1.Holds L1 ∧ c1.Occupied L1 := by
  cases op with
  | getCachedTexture m w h key =>
    simp only [TextureCache.step] at hs
    rcases first_key_split L key with hall | ⟨A, e, R, rfl, hA, he⟩
    · rcases createTexture_cases c m w h with hf | ⟨rfl, p, hp⟩
      · obtain ⟨x, hx⟩ := getCachedTexture_miss_fail hh hall m w h hf
        rw [hx] at hs
        cases hs
        exact ⟨L, hh.grow_list x, ho⟩
      · obtain ⟨c2, hc2, hh2, -, -, hat, -⟩ := getCachedTexture_miss_success hh hall hp
        rw [hc2] at hs
        cases hs
        exact ⟨_, hh2, ho.add_entry hp hat⟩
    · obtain ⟨c2, hc2, hh2, hat, -⟩ := getCachedTexture_hit hh hA he m w h
      rw [hc2] at hs
      cases hs
      have hperm : List.Perm (e :: (A ++ R)) (A ++ e :: R) := List.perm_middle.symm
      refine ⟨_, hh2, by rw [hat]; exact ho.1, fun x hx => ?_⟩
      rw [hat]
      exact ho.2 x (hperm.mem_iff.mp hx)
  | createTexture m w h =>
    simp only [TextureCache.step] at hs
    rcases createTexture_cases c m w h with hf | ⟨rfl, p, hp⟩
    · obtain ⟨x, hx⟩ := createTexture_fail c m w h hf
      rw [hx] at hs
      cases hs
      exact ⟨L, hh.grow_list x, ho⟩
    · obtain ⟨c2, hc2, hh2, -, -, hat, -⟩ := createTexture_holds hh hp
      rw [hc2] at hs
      cases hs
      have hocc : c1.Occupied
          (L ++ [(c.heap.length, ({ c.placedTexture w h p with key := -1 } : Texture))]) :=
        ho.add_entry hp hat
      exact ⟨_, hh2, hocc⟩
  | destroyTexture a =>
    simp only [TextureCache.step] at hs
    cases hr : Heap.read c.heap a with
    | none =>
      simp [TextureCache.destroyTexture, hr] at hs
    | some ta =>
      obtain ⟨c2, hc2, hh2, hat, -⟩ := destroyTexture_holds hh hr
      rw [hc2] at hs
      cases hs
      refine ⟨_, hh2, by rw [hat]; exact ho.1, fun x hx => ?_⟩
      rw [hat]
      exact ho.2 x (List.mem_of_mem_filter hx)
  | flush tex =>
    simp only [TextureCache.step] at hs
    split at hs
    · cases hs
    · rename_i c2 hf
      cases hs
      obtain ⟨h1, h2, -⟩ := flush_holds hf
      refine ⟨[], h1, ?_, fun e he => absurd he (List.not_mem_nil e)⟩
      rw [h2]
      simp [Atlas.new, AtlasNode.mk, AtlasNode.FreeLeaves]

theorem run_occupied : ∀ (ops : List Op) {c c2 : TextureCache} {log : List Texture}
    {L : List (Nat × Texture)}, c.Holds L → c.Occupied L → c.run ops = .ok (c2, log) →
    ∃ L2, c2.Holds L2 ∧ c2.Occupied L2
  | [], c, c2, log, L, hh, ho, hrun => by
    simp only [TextureCache.run] at hrun
    cases hrun
    exact ⟨L, hh, ho⟩
  | op :: ops, c, c2, log, L, hh, ho, hrun => by
    simp only [TextureCache.run] at hrun
    split at hrun
    · cases hrun
    · rename_i c1 r hs
      split at hrun
      · cases hrun
      · rename_i c3 log1 hrun1
        cases hrun
        obtain ⟨L1, hh1, ho1⟩ := step_occupied hh ho hs
        exact run_occupied ops hh1 ho1 hrun1

theorem init_occupied (tex : Nat) : (TextureCache.init tex).Occupied [] :=
  ⟨by simp [TextureCache.init, Atlas.new, AtlasNode.mk, AtlasNode.FreeLeaves],
    fun e he => absurd he (List.not_mem_nil e)⟩

theorem filter_fst_split {A R : List (Nat × Texture)} {e : Nat × Texture}
    (hnd : ((A ++ e :: R).map Prod.fst).Nodup) :
    (A ++ e :: R).filter (fun x => decide (x.1 ≠ e.1)) = A ++ R := by
  rw [List.map_append, List.map_cons, List.nodup_append] at hnd
  obtain ⟨-, hR, hdis⟩ := hnd
  have hA : ∀ x ∈ A, x.1 ≠ e.1 := fun x hx hxe =>
    hdis (List.mem_map_of_mem Prod.fst hx) (by rw [hxe]; exact List.mem_cons_self _ _)
  have hR1 : ∀ x ∈ R, x.1 ≠ e.1 := fun x hx hxe =>
    (List.nodup_cons.mp hR).1 (by rw [← hxe]; exact List.mem_map_of_mem Prod.fst hx)
  rw [List.filter_append, List.filter_cons]
  simp only [ne_eq, not_true_eq_false, decide_False, Bool.false_eq_true, if_false]
  rw [List.filter_eq_self.mpr (fun x hx => by simpa using hA x hx),
    List.filter_eq_self.mpr (fun x hx => by simpa using hR1 x hx)]

/-- C21: in every state the cache reaches, for every record `a` of the cache
list (the entry `e`, after the entries `A` and in front of the entries `R`),
`destroyTexture` returns, and the list afterwards is `A` followed by `R`: the
other entries with their fields, in their order.  The head and the tail pointer
are the first and the last record of that list, the record `a` is freed, and the
atlas with its tree is unchanged, so that the tree still has an occupied node
with the rectangle of the destroyed record. -/
theorem destroy_removes_entry (tex : Nat) (ops : List Op) (c : TextureCache)
    (log : List Texture) (hreach : (TextureCache.init tex).run ops = .ok (c, log))
    (a : Nat) (ha : a ∈ c.entries.map Prod.fst) :
    ∃ c1 e A R, c.entries = A ++ e :: R ∧ e.1 = a ∧ c.destroyTexture a = .ok c1 ∧
      c1.entries = A ++ R ∧
      c1._texturesListHead = (c1.entries.map Prod.fst).head? ∧
      c1._texturesListTail = (c1.entries.map Prod.fst).getLast? ∧
      Heap.read c1.heap a = none ∧ c1.atlas = c.atlas ∧
      ∃ n ∈ c1.atlas.tree.nodes, n.occupied ≠ 0 ∧ n.rect = e.2.rect := by
  obtain ⟨L, hh, ho⟩ := run_occupied ops (init_holds tex) (init_occupied tex) hreach
  rw [hh.entries_eq] at ha ⊢
  obtain ⟨e, heL, rfl⟩ := List.mem_map.mp ha
  obtain ⟨A, R, rfl⟩ := List.append_of_mem heL
  obtain ⟨ta, hta, -⟩ := hh.read_entry heL
  obtain ⟨c1, hc1, hh1, hat, -, -, hfree⟩ := destroyTexture_holds hh hta
  rw [filter_fst_split hh.1.2.1] at hh1
  have hent : c1.entries = A ++ R := hh1.entries_eq
  refine ⟨c1, e, A, R, rfl, rfl, hc1, hent, ?_, ?_, hfree, hat, ?_⟩
  · rw [hent, hh1.1.1.head_eq]
    simp
  · rw [hent]
    exact hh1.1.2.2
  · rw [hat]
    exact ho.2 e heL

theorem destroy_removes_entry_witness :
    ∃ c1 e A R, tailState.entries = A ++ e :: R ∧ e.1 = 0 ∧
      tailState.destroyTexture 0 = .ok c1 ∧ c1.entries = A ++ R ∧
      c1._texturesListHead = (c1.entries.map Prod.fst).head? ∧
      c1._texturesListTail = (c1.entries.map Prod.fst).getLast? ∧
      Heap.read c1.heap 0 = none ∧ c1.atlas = tailState.atlas ∧
      ∃ n ∈ c1.atlas.tree.nodes, n.occupied ≠ 0 ∧ n.rect = e.2.rect :=
  destroy_removes_entry 1 tailOps tailState tailLog rfl 0
    (List.Mem.tail _ (List.Mem.head _))

/-! ### Placements lie inside the atlas -/

theorem split_inside {t : AtlasNode} {w h S : Int} {p : List Bool} (hfl : t.FreeLeaves)
    (hin : ∀ n ∈ t.nodes, n.rect.within ⟨0, 0, S, S⟩) (hw : 0 ≤ w) (hh : 0 ≤ h)
    (hfind : t.findFreeNode w h = some p) :
    (t.splitAt p w h).FreeLeaves ∧
    (∀ n ∈ (t.splitAt p w h).nodes, n.rect.within ⟨0, 0, S, S⟩) ∧
    0 ≤ ((t.splitAt p w h).nodeAt p).getX ∧ ((t.splitAt p w h).nodeAt p).getX + w ≤ S ∧
    0 ≤ ((t.splitAt p w h).nodeAt p).getY ∧ ((t.splitAt p w h).nodeAt p).getY + h ≤ S := by
  obtain ⟨L1, L2, f, n, c0, c1, hn, hn1, hsh, hfl1, hx, hy⟩ := split_nodes t w h p hfl hfind
  obtain ⟨-, hfw, hfh, -, hnr, -, -, hch⟩ := hsh
  have hf : f.rect.within ⟨0, 0, S, S⟩ := hin f (by rw [hn]; simp)
  simp only [Rect.within, NodeInfo.rect] at hf
  refine ⟨hfl1, ?_, by rw [hx]; omega, by rw [hx]; omega, by rw [hy]; omega, by rw [hy]; omega⟩
  intro m hm
  rw [hn1] at hm
  have hold : ∀ x, x ∈ L1 ∨ x ∈ L2 → x.rect.within ⟨0, 0, S, S⟩ := by
    intro x hx1
    apply hin
    rw [hn]
    rcases hx1 with hx1 | hx1
    · exact List.mem_append_left _ hx1
    · exact List.mem_append_right _ (List.mem_cons_of_mem _ hx1)
  simp only [List.mem_append, List.mem_cons] at hm
  rcases hm with hm | rfl | rfl | rfl | hm
  · exact hold m (Or.inl hm)
  · rw [hnr]
    simp only [Rect.within]
    omega
  · rcases hch with ⟨h0, -⟩ | ⟨h0, -⟩ <;>
    · rw [h0]
      simp only [Rect.within]
      omega
  · rcases hch with ⟨-, h1⟩ | ⟨-, h1⟩ <;>
    · rw [h1]
      simp only [Rect.within]
      omega
  · exact hold m (Or.inr hm)

theorem placedTexture_inSurface {c : TextureCache} {w h : Int} {p : List Bool}
    (hS : 0 < c.maxTexSz) (hw : 0 ≤ w) (hh : 0 ≤ h)
    (hx0 : 0 ≤ ((c.atlas.tree.splitAt p w h).nodeAt p).getX)
    (hx1 : ((c.atlas.tree.splitAt p w h).nodeAt p).getX + w ≤ c.maxTexSz)
    (hy0 : 0 ≤ ((c.atlas.tree.splitAt p w h).nodeAt p).getY)
    (hy1 : ((c.atlas.tree.splitAt p w h).nodeAt p).getY + h ≤ c.maxTexSz) (key : Int) :
    Texture.InSurface c.maxTexSz { c.placedTexture w h p with key := key } := by
  have hSq : (0 : ℚ) < (c.maxTexSz : ℚ) := by exact_mod_cast hS
  have hwq : (0 : ℚ) ≤ (w : ℚ) := by exact_mod_cast hw
  have hhq : (0 : ℚ) ≤ (h : ℚ) := by exact_mod_cast hh
  have hx0q : (0 : ℚ) ≤ (((c.atlas.tree.splitAt p w h).nodeAt p).getX : ℚ) := by
    exact_mod_cast hx0
  have hy0q : (0 : ℚ) ≤ (((c.atlas.tree.splitAt p w h).nodeAt p).getY : ℚ) := by
    exact_mod_cast hy0
  have hx1q : (((c.atlas.tree.splitAt p w h).nodeAt p).getX : ℚ) + (w : ℚ) ≤ (c.maxTexSz : ℚ) := by
    exact_mod_cast hx1
  have hy1q : (((c.atlas.tree.splitAt p w h).nodeAt p).getY : ℚ) + (h : ℚ) ≤ (c.maxTexSz : ℚ) := by
    exact_mod_cast hy1
  refine ⟨⟨hx0, hx1, hy0, hy1⟩, ⟨rfl, rfl, rfl, rfl⟩, ⟨?_, ?_, ?_⟩, ⟨?_, ?_, ?_⟩⟩
  · exact div_nonneg hx0q hSq.le
  · show _ ≤ _ + _
    exact le_add_of_nonneg_right (div_nonneg hwq hSq.le)
  · show _ / _ + _ / _ ≤ (1 : ℚ)
    rw [← add_div, div_le_one hSq]
    exact hx1q
  · exact div_nonneg hy0q hSq.le
  · show _ ≤ _ + _
    exact le_add_of_nonneg_right (div_nonneg hhq hSq.le)
  · show _ / _ + _ / _ ≤ (1 : ℚ)
    rw [← add_div, div_le_one hSq]
    exact hy1q

theorem TextureCache.Inside.place_inside {c c1 : TextureCache} {w h : Int} {p : List Bool}
    (hin : c.Inside) (hw : 0 < w) (hh : 0 < h)
    (hp : c.atlas.tree.findFreeNode w h = some p)
    (htree : c1.atlas.tree = c.atlas.tree.splitAt p w h) (hsz : c1.maxTexSz = c.maxTexSz)
    (key : Int) :
    c1.Inside ∧ Texture.InSurface c.maxTexSz { c.placedTexture w h p with key := key } := by
  obtain ⟨hS, hfl, hnodes⟩ := hin
  obtain ⟨hfl1, hn1, hx0, hx1, hy0, hy1⟩ := split_inside hfl hnodes hw.le hh.le hp
  refine ⟨⟨by rw [hsz]; exact hS, by rw [htree]; exact hfl1, ?_⟩,
    placedTexture_inSurface hS hw.le hh.le hx0 hx1 hy0 hy1 key⟩
  rw [htree, hsz]
  exact hn1

theorem TextureCache.Inside.same {c c1 : TextureCache} (hin : c.Inside)
    (hat : c1.atlas = c.atlas) (hsz : c1.maxTexSz = c.maxTexSz) : c1.Inside := by
  unfold TextureCache.Inside
  rw [hat, hsz]
  exact hin

theorem step_inside {c c1 : TextureCache} {op : Op} {r : Option Nat}
    {L : List (Nat × Texture)} (hh : c.Holds L) (hin : c.Inside)
    (hpos : op.sizesPositive = true) (hs : c.step op = .ok (c1, r)) :
    c1.Inside ∧ c1.maxTexSz = c.maxTexSz ∧
      ∀ t, createdBy c c1 r = some t → t.InSurface c.maxTexSz := by
  have hsz := (step_holds hh hs).2
  refine ⟨?_, hsz, ?_⟩
  all_goals
    cases op with
    | getCachedTexture m w h key =>
      simp only [Op.sizesPositive, Bool.and_eq_true, decide_eq_true_eq] at hpos
      simp only [TextureCache.step] at hs
      rcases getCachedTexture_atlas hs with ⟨hat, hcr⟩ | ⟨p, hp, htree, hr, hread⟩
      · first
          | exact hin.same hat hsz
          | (intro t ht; rw [hcr] at ht; cases ht)
      · first
          | exact (hin.place_inside hpos.1 hpos.2 hp htree hsz key).1
          | (intro t ht
             subst hr
             simp only [createdBy, le_refl, if_true, hread, Option.some.injEq] at ht
             subst ht
             exact (hin.place_inside hpos.1 hpos.2 hp htree hsz key).2)
    | createTexture m w h =>
      simp only [Op.sizesPositive, Bool.and_eq_true, decide_eq_true_eq] at hpos
      simp only [TextureCache.step] at hs
      rcases createTexture_atlas hs with ⟨hat, hr⟩ | ⟨p, hp, htree, hr, hread⟩
      · first
          | exact hin.same hat hsz
          | (intro t ht; subst hr; simp [createdBy] at ht)
      · first
          | exact (hin.place_inside hpos.1 hpos.2 hp htree hsz (-1)).1
          | (intro t ht
             subst hr
             simp only [createdBy, le_refl, if_true, hread, Option.some.injEq] at ht
             subst ht
             exact (hin.place_inside hpos.1 hpos.2 hp htree hsz (-1)).2)
    | destroyTexture a =>
      simp only [TextureCache.step] at hs
      split at hs
      · cases hs
      · rename_i c2 hd
        cases hs
        first
          | exact hin.same (destroyTexture_atlas hd).1 hsz
          | (intro t ht; simp [createdBy] at ht)
    | flush tex =>
      simp only [TextureCache.step] at hs
      split at hs
      · cases hs
      · rename_i c2 hf
        cases hs
        first
          | (intro t ht; simp [createdBy] at ht)
          | (obtain ⟨-, h2, h3⟩ := flush_holds hf
             refine ⟨by rw [h3]; exact hin.1, ?_, ?_⟩
             · rw [h2]
               simp [Atlas.new, AtlasNode.mk, AtlasNode.FreeLeaves]
             · rw [h2, h3]
               simp [Atlas.new, AtlasNode.mk, AtlasNode.nodes, NodeInfo.rect, Rect.within])

theorem run_inside : ∀ (ops : List Op) {c c2 : TextureCache} {log : List Texture}
    {L : List (Nat × Texture)}, c.Holds L → c.Inside → c.run ops = .ok (c2, log) →
    (∀ op ∈ ops, op.sizesPositive = true) → ∀ t ∈ log, t.InSurface c.maxTexSz
  | [], c, c2, log, L, _, _, hrun, _ => by
    simp only [TextureCache.run] at hrun
    cases hrun
    exact fun t ht => absurd ht (List.not_mem_nil t)
  | op :: ops, c, c2, log, L, hh, hin, hrun, hpos => by
    simp only [TextureCache.run] at hrun
    split at hrun
    · cases hrun
    · rename_i c1 r hs
      split at hrun
      · cases hrun
      · rename_i c3 log1 hrun1
        cases hrun
        obtain ⟨hin1, hsz, hcr⟩ := step_inside hh hin (hpos op (List.mem_cons_self _ _)) hs
        obtain ⟨⟨L1, hh1⟩, -⟩ := step_holds hh hs
        have ih := run_inside ops hh1 hin1 hrun1 (fun o ho => hpos o (List.mem_cons_of_mem _ ho))
        rw [hsz] at ih
        intro t ht
        rcases List.mem_append.mp ht with ht | ht
        · exact hcr t (by simpa [Option.mem_toList] using ht)
        · exact ih t ht

theorem init_inside (tex : Nat) : (TextureCache.init tex).Inside := by
  refine ⟨show (0 : Int) < 4096 by decide, ?_, ?_⟩
  · simp [TextureCache.init, Atlas.new, AtlasNode.mk, AtlasNode.FreeLeaves]
  · simp [TextureCache.init, Atlas.new, AtlasNode.mk, AtlasNode.nodes, NodeInfo.rect,
      Rect.within]

/-- C22 (counterexample): in a fresh cache `createTexture(data, -1, -1)`
finds the root node (its size is at least `-1` by `-1`), and creates the record
at address 0 with the placement `(0, 0, -1, -1)`; with exact division its
normalized rectangle has `u = -1/4096 < x = 0` and `v = -1/4096 < y = 0`. -/
theorem negative_size_counterexample :
    ∃ c1 t, (TextureCache.init 1).createTexture true (-1) (-1) = .ok (c1, some 0) ∧
      Heap.read c1.heap 0 = some t ∧ t.rect = ⟨0, 0, -1, -1⟩ ∧
      t.x = 0 ∧ t.u = -1 / 4096 ∧ t.y = 0 ∧ t.v = -1 / 4096 ∧ t.u < t.x ∧ t.v < t.y := by
  have hp : (TextureCache.init 1).atlas.tree.findFreeNode (-1) (-1) = some [] := by decide
  obtain ⟨c1, hc1, -, hr1, -⟩ := createTexture_holds (init_holds 1) hp
  have hx : ((TextureCache.init 1).placedTexture (-1) (-1) []).x = 0 := by
    simp [TextureCache.placedTexture, TextureCache.init, Atlas.new, AtlasNode.mk,
      AtlasNode.splitAt, AtlasNode.splitNode, AtlasNode.nodeAt, AtlasNode.getX]
  have hu : ((TextureCache.init 1).placedTexture (-1) (-1) []).u = -1 / 4096 := by
    simp [TextureCache.placedTexture, TextureCache.init, Atlas.new, AtlasNode.mk,
      AtlasNode.splitAt, AtlasNode.splitNode, AtlasNode.nodeAt, AtlasNode.getX]
  have hy : ((TextureCache.init 1).placedTexture (-1) (-1) []).y = 0 := by
    simp [TextureCache.placedTexture, TextureCache.init, Atlas.new, AtlasNode.mk,
      AtlasNode.splitAt, AtlasNode.splitNode, AtlasNode.nodeAt, AtlasNode.getY]
  have hv : ((TextureCache.init 1).placedTexture (-1) (-1) []).v = -1 / 4096 := by
    simp [TextureCache.placedTexture, TextureCache.init, Atlas.new, AtlasNode.mk,
      AtlasNode.splitAt, AtlasNode.splitNode, AtlasNode.nodeAt, AtlasNode.getY]
  refine ⟨c1, _, hc1, hr1, rfl, hx, hu, hy, hv, ?_, ?_⟩
  · rw [hx, hu]
    norm_num
  · rw [hy, hv]
    norm_num

/-- C22 (amended): for every sequence of calls from a fresh cache that all ask
for positive sizes, every record that `createTexture` creates on the way
(directly or for a miss of `getCachedTexture`) lies inside the atlas surface:
`0 <= texX`,
`texX + texW <= maxTexSz`, `0 <= texY`, `texY + texH <= maxTexSz`; its
normalized rectangle is the placement divided exactly by `maxTexSz`, and
`0 <= x <= u <= 1` and `0 <= y <= v <= 1`. -/
theorem created_inside_atlas (tex : Nat) (ops : List Op) (c : TextureCache)
    (log : List Texture) (hreach : (TextureCache.init tex).run ops = .ok (c, log))
    (hpos : ∀ op ∈ ops, op.sizesPositive = true) :
    c.maxTexSz = 4096 ∧
    ∀ t ∈ log,
      (0 ≤ t.texX ∧ t.texX + t.texW ≤ c.maxTexSz ∧ 0 ≤ t.texY ∧
        t.texY + t.texH ≤ c.maxTexSz) ∧
      (t.x = (t.texX : ℚ) / (c.maxTexSz : ℚ) ∧ t.y = (t.texY : ℚ) / (c.maxTexSz : ℚ) ∧
        t.u = t.x + (t.texW : ℚ) / (c.maxTexSz : ℚ) ∧
        t.v = t.y + (t.texH : ℚ) / (c.maxTexSz : ℚ)) ∧
      (0 ≤ t.x ∧ t.x ≤ t.u ∧ t.u ≤ 1) ∧ (0 ≤ t.y ∧ t.y ≤ t.v ∧ t.v ≤ 1) := by
  have hsz := (reachable_holds hreach).2
  refine ⟨hsz, ?_⟩
  have h := run_inside ops (init_holds tex) (init_inside tex) hreach hpos
  rw [hsz]
  exact h

theorem created_inside_atlas_witness :
    scenarioState.maxTexSz = 4096 ∧
    ∀ t ∈ scenarioLog,
      (0 ≤ t.texX ∧ t.texX + t.texW ≤ scenarioState.maxTexSz ∧ 0 ≤ t.texY ∧
        t.texY + t.texH ≤ scenarioState.maxTexSz) ∧
      (t.x = (t.texX : ℚ) / (scenarioState.maxTexSz : ℚ) ∧
        t.y = (t.texY : ℚ) / (scenarioState.maxTexSz : ℚ) ∧
        t.u = t.x + (t.texW : ℚ) / (scenarioState.maxTexSz : ℚ) ∧
        t.v = t.y + (t.texH : ℚ) / (scenarioState.maxTexSz : ℚ)) ∧
      (0 ≤ t.x ∧ t.x ≤ t.u ∧ t.u ≤ 1) ∧ (0 ≤ t.y ∧ t.y ≤ t.v ∧ t.v ≤ 1) :=
  created_inside_atlas 1 scenarioOps scenarioState scenarioLog rfl (by decide)

/-! ### Reads of the uv array -/

theorem uvReads_bound {N len : Nat} (hN : 3 ≤ N) :
    (∀ k ∈ uvReads N, k < len) ↔ 2 * N ≤ len := by
  simp only [uvReads, List.mem_flatMap, List.mem_range'_1, forall_exists_index, and_imp]
  constructor
  · intro hall
    have := hall (2 * (N - 1) + 1) (N - 1) (by omega) (by omega) (by simp)
    omega
  · intro hlen k i hi1 hi2 hk
    simp only [List.mem_cons, List.mem_singleton, List.not_mem_nil, or_false] at hk
    omega

/-- C25 (failing inputs): for a recognized primitive (0..10) and `N >= 4`
vertices, all reads `emitTexturedTriangles` makes of the array `uv` built for
the primitive are within the array only when `N = 4` and the primitive is none
of 1, 4, 7 (whose arrays have six entries).  After `setupTexJobList`,
`drawPolygonTexture` on a quad with the primitive 1 and on a pentagon with the
primitive 0 read `uv` out of bounds; on a quad with the primitive 0 it does
not. -/
theorem uv_reads_out_of_bounds :
    (∀ (t : Texture) (primitive : Int) (N : Nat), 0 ≤ primitive → primitive ≤ 10 → 4 ≤ N →
      ∃ uv, uvLayout t primitive = some uv ∧
        ((∀ k ∈ uvReads N, k < uv.length) ↔
          (N = 4 ∧ primitive ≠ 1 ∧ primitive ≠ 4 ∧ primitive ≠ 7))) ∧
    texStart.drawPolygonTexture quad 4 1 64 64 7 true = .error (.outOfBounds .uv) ∧
    texStart.drawPolygonTexture pentagon 5 0 64 64 7 true = .error (.outOfBounds .uv) ∧
    ∃ s1, texStart.drawPolygonTexture quad 4 0 64 64 7 true = .ok s1 := by
  refine ⟨?_, rfl, rfl, _, rfl⟩
  intro t primitive N h0 h10 hN
  interval_cases primitive <;>
    simp [uvLayout, uvReads_bound (show 3 ≤ N by omega)] <;> omega

end F2b
